import Mathlib

/-!
# Verification development for the security-agent sources

Shallow embedding of

* `pkg/security/events/custom.go` (namespace `events`),
* `pkg/security/secl/compiler/eval/macro.go` (namespace `eval`), and
* the scanner of `pkg/logs/sds`, of which only the test file is at hand
  (namespace `sds`).

Go values are embedded as follows.

* A pointer field that the program itself initialises to nil is an `Option`;
  pointer and interface arguments handed in by callers are taken non-nil.
* A Go result pair `(v, err)` is a Lean pair whose error half is an
  `Option GoError` (`none` is the nil error).
* A builtin Go map is a `GoMap`: a duplicate-free list of entries whose list
  order carries no meaning for `range`; the order met by a `range` loop is
  chosen by the runtime and is modelled by a `RangeOrder`.
* A nil-pointer dereference ends the run with `Run.panic`.
* Calls of a function value whose number of invocations matters are recorded
  in a `Trace`.
-/

/-! ## Go runtime vocabulary -/

/-- Source position attached to errors of the expression frontend
(`lexer.Position`): line and column. -/
structure Position where
  Line : Nat
  Column : Nat
deriving DecidableEq, Repr

/-- Go `error` values met in the two packages. `wrap pfx e` is the value of
`fmt.Errorf(pfx + "%w", e)`. -/
inductive GoError where
  | ErrAstToEval (Pos : Position) (Text : String)
  | ErrRuleParse (pos : Position) (expr : String)
  | ErrFieldNotFound (Field : String)
  | other (msg : String)
  | wrap (pfx : String) (inner : GoError)
deriving DecidableEq, Repr

/-- Outcome of running a Go function that may dereference a nil pointer. -/
inductive Run (α : Type) where
  | done (a : α)
  | panic
deriving DecidableEq, Repr

/-- Builtin Go map with keys `K` and values `V`. -/
structure GoMap (K V : Type) where
  entries : List (K × V)
  nodup : (entries.map Prod.fst).Nodup

namespace GoMap

variable {K V : Type}

/-- The value of `make(map[K]V)`. -/
def empty : GoMap K V := ⟨[], List.nodup_nil⟩

/-- The keys stored in the map, in representation order. -/
def keys (m : GoMap K V) : List K := m.entries.map Prod.fst

/-- The value of `m[k]` together with the `ok` flag, as an `Option`. -/
def get? [DecidableEq K] (m : GoMap K V) (k : K) : Option V :=
  (m.entries.find? (fun e => decide (e.1 = k))).map Prod.snd

/-- Replace the value stored under `k` in an entry list that holds `k`. -/
def replace [DecidableEq K] (k : K) (v : V) : List (K × V) → List (K × V)
  | [] => []
  | e :: es => if e.1 = k then (k, v) :: es else e :: replace k v es

/-- The assignment `m[k] = v`. -/
def set [DecidableEq K] (m : GoMap K V) (k : K) (v : V) : GoMap K V :=
  if h : k ∈ m.keys then
    ⟨replace k v m.entries, by
      have hk : ∀ es : List (K × V), (replace k v es).map Prod.fst = es.map Prod.fst := by
        intro es
        induction es with
        | nil => rfl
        | cons e es ih =>
          unfold replace
          by_cases he : e.1 = k
          · simp [he]
          · simp [he, ih]
      rw [hk]
      exact m.nodup⟩
  else
    ⟨m.entries ++ [(k, v)], by
      have hn := m.nodup
      simp only [List.map_append, List.map_cons, List.map_nil]
      rw [List.nodup_append]
      refine ⟨hn, List.nodup_singleton k, ?_⟩
      intro a ha hb
      simp only [List.mem_singleton] at hb
      subst hb
      exact h ha⟩

end GoMap

/-- The order in which one `range` loop visits the keys of a map: the runtime
picks some enumeration of the stored keys. -/
structure RangeOrder (K : Type) where
  visit : List K → List K
  perm : ∀ l, (visit l).Perm l

namespace RangeOrder

/-- The runtime that happens to visit keys in representation order. -/
def id (K : Type) : RangeOrder K := ⟨fun l => l, fun l => List.Perm.refl l⟩

/-- The runtime that happens to visit keys in the opposite order. -/
def reverse (K : Type) : RangeOrder K := ⟨List.reverse, fun l => List.reverse_perm l⟩

end RangeOrder

/-! ## Package `events`: custom events -/

namespace events

/-- Serialized payload (`[]byte`). -/
abbrev Bytes := List Nat

/-- Interface `EventMarshaler`: the result of its `ToJSON` method. -/
structure EventMarshaler where
  ToJSON : Bytes × Option GoError
deriving DecidableEq, Repr

/-- Observable calls: an invocation of the marshaler factory of an event, and a
call of `ToJSON` on a marshaler. -/
inductive Call where
  | marshalerCtor
  | ToJSON
deriving DecidableEq, Repr

/-- History of the calls made so far. -/
abbrev Trace := List Call

/-- Computations of package `events`: they may extend the call history. -/
abbrev Eff := StateM Trace

/-- Record one call. -/
def record (c : Call) : Eff Unit := modify (fun tr => tr ++ [c])

/-- Struct `CustomEvent`. `ET` is `model.EventType`. -/
structure CustomEvent (ET : Type) where
  eventType : ET
  tags : List String
  marshalerCtor : Unit → EventMarshaler

variable {ET : Type}

/-- Function `NewCustomEventLazy(eventType, marshalerCtor, tags...)`. -/
def NewCustomEventLazy (eventType : ET) (marshalerCtor : Unit → EventMarshaler)
    (tags : List String) : Eff (CustomEvent ET) :=
  pure { eventType := eventType, marshalerCtor := marshalerCtor, tags := tags }

/-- Function `NewCustomEvent(eventType, marshaler, tags...)`: the factory is
the closure that returns `marshaler`. -/
def NewCustomEvent (eventType : ET) (marshaler : EventMarshaler)
    (tags : List String) : Eff (CustomEvent ET) :=
  NewCustomEventLazy eventType (fun _ => marshaler) tags

/-- Method `(*CustomEvent).Clone`. -/
def CustomEvent.Clone (ce : CustomEvent ET) : Eff (CustomEvent ET) :=
  pure { eventType := ce.eventType, tags := ce.tags, marshalerCtor := ce.marshalerCtor }

/-- Method `(*CustomEvent).GetType`; `str` is the method `String` of
`model.EventType`, declared outside the embedded files. -/
def CustomEvent.GetType (str : ET → String) (ce : CustomEvent ET) : Eff String :=
  pure (str ce.eventType)

/-- Method `(*CustomEvent).GetTags`: `append(ce.tags, "type:"+ce.GetType())`. -/
def CustomEvent.GetTags (str : ET → String) (ce : CustomEvent ET) : Eff (List String) := do
  let t ← ce.GetType str
  pure (ce.tags ++ ["type:" ++ t])

/-- Method `(*CustomEvent).GetEventType`. -/
def CustomEvent.GetEventType (ce : CustomEvent ET) : Eff ET :=
  pure ce.eventType

/-- Method `(*CustomEvent).MarshalJSON`: `ce.marshalerCtor().ToJSON()`. -/
def CustomEvent.MarshalJSON (ce : CustomEvent ET) : Eff (Bytes × Option GoError) := do
  record Call.marshalerCtor
  let m := ce.marshalerCtor ()
  record Call.ToJSON
  pure m.ToJSON

/-- A caller that marshals the same event `n` times in a row. -/
def marshalTimes (ce : CustomEvent ET) : Nat → Eff Unit
  | 0 => pure ()
  | n + 1 => do
    let _ ← ce.MarshalJSON
    marshalTimes ce n

/-- Number of factory invocations recorded in a history. -/
def factoryCalls (tr : Trace) : Nat := tr.count Call.marshalerCtor

/-- A custom event whose marshaler yields the payload `[123, 125]`. -/
def sampleEvent : CustomEvent Nat :=
  { eventType := 7, tags := ["a"], marshalerCtor := fun _ => ⟨([123, 125], none)⟩ }

end events

/-! ## Package `eval`: macros -/

namespace eval

/-- Type `MacroID`. -/
abbrev MacroID := String

/-- Type `Field`: the name of an event field. -/
abbrev Field := String

/-- Type `EventType`; the zero value `""` is the empty event type. -/
abbrev EventType := String

/-- Modelled from the spec: the constants of `FieldValueType` are declared
outside the embedded files; the kinds named by the specification are the
scalar kind and the pattern and regular-expression kinds. -/
inductive FieldValueType where
  | ScalarValueType
  | PatternValueType
  | RegexpValueType
deriving DecidableEq, Repr

/-- Dynamic content of the `interface{}` held by a field value. -/
inductive GoValue where
  | string (s : String)
  | int (n : Int)
  | bool (b : Bool)
deriving DecidableEq, Repr

/-- Struct `FieldValue`. -/
structure FieldValue where
  «Type» : FieldValueType
  Value : GoValue
deriving DecidableEq, Repr

/-- The types of package `eval` and package `ast` that are declared outside
the embedded files. -/
structure Sig where
  Expression : Type
  Array : Type
  Primary : Type
  Evaluator : Type
  Model : Type
  Opts : Type
  MacroStore : Type
  State : Type
  StringValuesEvaluator : Type
  StringCmpOpts : Type

/-- Struct `ast.Macro`: three node pointers. -/
structure AstMacro (σ : Sig) where
  Expression : Option σ.Expression
  Array : Option σ.Array
  Primary : Option σ.Primary

/-- The `interface{}` node handed to `nodeToEvaluator`. -/
inductive Node (σ : Sig) where
  | Expression (e : σ.Expression)
  | Array (a : σ.Array)
  | Primary (p : σ.Primary)

/-- The `interface{}` stored in `MacroEvaluator.Value`: nil, an evaluator
compiled from a node, or a pointer to a `StringValuesEvaluator`. -/
inductive Value (σ : Sig) where
  | nil
  | node (e : σ.Evaluator)
  | stringValues (e : σ.StringValuesEvaluator)

/-- Struct `ast.ParsingContext`, given by its method `ParseMacro`. -/
structure ParsingContext (σ : Sig) where
  ParseMacro : String → Option (AstMacro σ) × Option GoError

/-- What `nodeToEvaluator` hands back: its three results and the compilation
state it was given by pointer, as it stands afterwards. -/
structure NodeResult (σ : Sig) where
  eval : Value σ
  pos : Position
  err : Option GoError
  state : σ.State

/-- The functions and constants of package `eval` used by `macro.go` and
declared outside the embedded files. -/
structure Deps (σ : Sig) where
  MacroStore : σ.Opts → σ.MacroStore
  NewState : σ.Model → Field → σ.MacroStore → σ.State
  fieldValues : σ.State → GoMap Field (List FieldValue)
  nodeToEvaluator : Node σ → σ.Opts → σ.State → NodeResult σ
  eventTypeFromFields : σ.Model → σ.State → EventType × Option GoError
  /-- The order in which the runtime ranges over the map inside `KeysOfMap`. -/
  rangeOrder : RangeOrder Field
  zeroStringValuesEvaluator : σ.StringValuesEvaluator
  AppendFieldValue : σ.StringValuesEvaluator → FieldValue → σ.StringValuesEvaluator
  Compile : σ.StringValuesEvaluator → σ.StringCmpOpts → σ.StringValuesEvaluator × Option GoError
  DefaultStringCmpOpts : σ.StringCmpOpts

/-- Modelled from the spec: `KeysOfMap` is declared outside the embedded
files; it returns the keys of a map, collected by one `range` loop over it. -/
def KeysOfMap {K V : Type} (order : RangeOrder K) (m : GoMap K V) : List K :=
  order.visit m.keys

/-- Struct `MacroEvaluator`. The nil map is the empty map and the nil slice is
the empty list. -/
structure MacroEvaluator (σ : Sig) where
  Value : Value σ
  EventType : EventType
  fieldValues : GoMap Field (List FieldValue)
  fields : List Field

/-- Struct `Macro`. -/
structure Macro (σ : Sig) where
  ID : MacroID
  Opts : σ.Opts
  evaluator : Option (MacroEvaluator σ)
  ast : Option (AstMacro σ)

variable {σ : Sig}

/-- Method `(*Macro).GetEvaluator`. -/
def Macro.GetEvaluator (m : Macro σ) : Option (MacroEvaluator σ) := m.evaluator

/-- Method `(*Macro).GetAst`. -/
def Macro.GetAst (m : Macro σ) : Option (AstMacro σ) := m.ast

/-- Method `(*Macro).Parse`: returns the macro as it stands afterwards and the error. -/
def Macro.Parse (m : Macro σ) (parsingContext : ParsingContext σ) (expression : String) :
    Macro σ × Option GoError :=
  match parsingContext.ParseMacro expression with
  | (_, some err) => (m, some err)
  | (astMacro, none) => ({ m with ast := astMacro }, none)

/-- The `switch` of `macroToEvaluator`: the first non-nil node of the macro is
compiled; with no node set, `eval` and `err` keep their zero values. -/
def compileMacroNode (d : Deps σ) (mac : AstMacro σ) (opts : σ.Opts) (state : σ.State) :
    NodeResult σ :=
  match mac.Expression, mac.Array, mac.Primary with
  | some e, _, _ => d.nodeToEvaluator (Node.Expression e) opts state
  | none, some a, _ => d.nodeToEvaluator (Node.Array a) opts state
  | none, none, some p => d.nodeToEvaluator (Node.Primary p) opts state
  | none, none, none => { eval := Value.nil, pos := ⟨0, 0⟩, err := none, state := state }

/-- Function `macroToEvaluator`. -/
def macroToEvaluator (d : Deps σ) (mac : Option (AstMacro σ)) (model : σ.Model)
    (opts : σ.Opts) (field : Field) : Run (Option (MacroEvaluator σ) × Option GoError) :=
  let state := d.NewState model field (d.MacroStore opts)
  match mac with
  | none => Run.panic
  | some mac =>
    let r := compileMacroNode d mac opts state
    match r.err with
    | some err => Run.done (none, some err)
    | none =>
      match d.eventTypeFromFields model r.state with
      | (_, some err) => Run.done (none, some err)
      | (eventType, none) =>
        Run.done (some {
          Value := r.eval
          EventType := eventType
          fieldValues := d.fieldValues r.state
          fields := KeysOfMap d.rangeOrder (d.fieldValues r.state) }, none)

/-- The compilation state and results of `macroToEvaluator` right after its
`switch`, for a non-nil macro AST. -/
def macroNodeResult (d : Deps σ) (mac : AstMacro σ) (model : σ.Model) (opts : σ.Opts)
    (field : Field) : NodeResult σ :=
  compileMacroNode d mac opts (d.NewState model field (d.MacroStore opts))

/-- Method `(*Macro).GenEvaluator`: returns the macro as it stands afterwards and the
error. -/
def Macro.GenEvaluator (d : Deps σ) (m : Macro σ) (expression : String) (model : σ.Model) :
    Run (Macro σ × Option GoError) :=
  match macroToEvaluator d m.ast model m.Opts "" with
  | Run.panic => Run.panic
  | Run.done (_, some err) =>
    match err with
    | GoError.ErrAstToEval pos _ =>
      Run.done (m, some (GoError.wrap "macro syntax error: " (GoError.ErrRuleParse pos expression)))
    | err => Run.done (m, some (GoError.wrap "macro compilation error: " err))
  | Run.done (evaluator, none) => Run.done ({ m with evaluator := evaluator }, none)

/-- Function `NewMacro`. -/
def NewMacro (d : Deps σ) (id expression : String) (model : σ.Model)
    (parsingContext : ParsingContext σ) (opts : σ.Opts) :
    Run (Option (Macro σ) × Option GoError) :=
  let mac : Macro σ := { ID := id, Opts := opts, evaluator := none, ast := none }
  match mac.Parse parsingContext expression with
  | (_, some err) => Run.done (none, some (GoError.wrap "syntax error: " err))
  | (mac, none) =>
    match mac.GenEvaluator d expression model with
    | Run.panic => Run.panic
    | Run.done (_, some err) => Run.done (none, some (GoError.wrap "compilation error: " err))
    | Run.done (mac, none) => Run.done (some mac, none)

/-- The field value built for one input string by `NewStringValuesMacro`. -/
def scalarFieldValue (value : String) : FieldValue :=
  { «Type» := FieldValueType.ScalarValueType, Value := GoValue.string value }

/-- The `for` loop of `NewStringValuesMacro`. -/
def appendValues (d : Deps σ) : List String → σ.StringValuesEvaluator → σ.StringValuesEvaluator
  | [], evaluator => evaluator
  | value :: rest, evaluator =>
    let fieldValue : FieldValue :=
      { «Type» := FieldValueType.ScalarValueType, Value := GoValue.string value }
    appendValues d rest (d.AppendFieldValue evaluator fieldValue)

/-- Function `NewStringValuesMacro`. -/
def NewStringValuesMacro (d : Deps σ) (id : String) (values : List String) (opts : σ.Opts) :
    Option (Macro σ) × Option GoError :=
  let evaluator := appendValues d values d.zeroStringValuesEvaluator
  match d.Compile evaluator d.DefaultStringCmpOpts with
  | (_, some err) => (none, some err)
  | (evaluator, none) =>
    (some {
      ID := id
      Opts := opts
      evaluator := some {
        Value := Value.stringValues evaluator
        EventType := ""
        fieldValues := GoMap.empty
        fields := [] }
      ast := none }, none)

/-- Method `(*MacroEvaluator).GetFields`, on a receiver that may be nil. -/
def MacroEvaluator.GetFields (m : Option (MacroEvaluator σ)) : Run (List Field) :=
  match m with
  | none => Run.panic
  | some m => Run.done m.fields

/-- Method `(*Macro).GetEventType`: `m.evaluator.EventType`. -/
def Macro.GetEventType (m : Macro σ) : Run EventType :=
  match m.evaluator with
  | none => Run.panic
  | some evaluator => Run.done evaluator.EventType

/-- Method `(*Macro).GetFields`: `m.evaluator.GetFields()`. -/
def Macro.GetFields (m : Macro σ) : Run (List Field) :=
  MacroEvaluator.GetFields m.evaluator

/-- Modelled from the spec: the compilation state type is declared outside the
embedded files. Recording one field reference that is not compared against a
literal adds the field name to the referenced fields of the state if it is
absent, and adds no value; `recordReference` is the update for any
reference. -/
def recordField (fieldValues : GoMap Field (List FieldValue)) (field : Field) :
    GoMap Field (List FieldValue) :=
  if field ∈ fieldValues.keys then fieldValues else fieldValues.set field []

/-- The compilation state after the field references `refs`, met in this
order, were recorded. -/
def recordFields (refs : List Field) (fieldValues : GoMap Field (List FieldValue)) :
    GoMap Field (List FieldValue) :=
  refs.foldl recordField fieldValues

/-- Add a field at the end of a duplicate-free list unless it is there. -/
def noteField (seen : List Field) (field : Field) : List Field :=
  if field ∈ seen then seen else seen ++ [field]

/-- The distinct fields of a sequence of references, in the order in which
each was first referenced. -/
def firstSeen (refs : List Field) : List Field :=
  refs.foldl noteField []

/-- Modelled from the spec: a field reference met during compilation: the
field and, when the reference is one side of an equality or inclusion
comparison against a literal, the field value of that literal. -/
structure FieldReference where
  field : Field
  literal : Option FieldValue
deriving DecidableEq, Repr

/-- Modelled from the spec: the state update for one field reference. The
field is recorded as referenced if it is absent; when the reference is
compared against a literal, the field value of the literal is appended to the
value list of the field, duplicates allowed. -/
def recordReference (fieldValues : GoMap Field (List FieldValue)) (ref : FieldReference) :
    GoMap Field (List FieldValue) :=
  match ref.literal with
  | none => recordField fieldValues ref.field
  | some value =>
    (recordField fieldValues ref.field).set ref.field
      (((recordField fieldValues ref.field).get? ref.field).getD [] ++ [value])

/-- The compilation state after the references `refs`, met in this order, were
recorded. -/
def recordReferences (refs : List FieldReference)
    (fieldValues : GoMap Field (List FieldValue)) : GoMap Field (List FieldValue) :=
  refs.foldl recordReference fieldValues

/-- Modelled from the spec: the loop of `eventTypeFromFields` (declared outside
the embedded files) over the referenced fields. Each field declares the
event type it belongs to; fields marked cross-type are skipped; two
different event types are an error. `cur` is the event type met so far. -/
def deriveEventType (eventTypeOf : Field → EventType) (crossType : Field → Bool) :
    List Field → Option EventType → EventType × Option GoError
  | [], none => ("", none)
  | [], some t => (t, none)
  | f :: fs, cur =>
    if crossType f then deriveEventType eventTypeOf crossType fs cur
    else
      match cur with
      | none => deriveEventType eventTypeOf crossType fs (some (eventTypeOf f))
      | some t =>
        if eventTypeOf f = t then deriveEventType eventTypeOf crossType fs cur
        else ("", some (GoError.other "multiple event types"))

/-- Modelled from the spec: `eventTypeFromFields` is declared outside the
embedded files. The event type is derived from the fields referenced in the
compilation state; `fieldEventType` and `crossType` are what the model
declares for each field. -/
def eventTypeFromFieldsSpec (d : Deps σ) (fieldEventType : σ.Model → Field → EventType)
    (crossType : σ.Model → Field → Bool) (model : σ.Model) (state : σ.State) :
    EventType × Option GoError :=
  deriveEventType (fieldEventType model) (crossType model)
    (KeysOfMap d.rangeOrder (d.fieldValues state)) none

/-- The dependencies `d` with the event-type derivation of the specification. -/
def Deps.withSpecEventType (d : Deps σ) (fieldEventType : σ.Model → Field → EventType)
    (crossType : σ.Model → Field → Bool) : Deps σ :=
  { d with eventTypeFromFields := eventTypeFromFieldsSpec d fieldEventType crossType }

/-- The dependencies `d` with another event-type derivation. -/
def Deps.withEventTypeFromFields (d : Deps σ)
    (derive : σ.Model → σ.State → EventType × Option GoError) : Deps σ :=
  { d with eventTypeFromFields := derive }

/-- The dependencies `d` with another node compiler. -/
def Deps.withNodeToEvaluator (d : Deps σ)
    (compile : Node σ → σ.Opts → σ.State → NodeResult σ) : Deps σ :=
  { d with nodeToEvaluator := compile }

/-- The macro AST with none of its three nodes set (`&ast.Macro{}`). -/
def emptyAst (σ : Sig) : AstMacro σ :=
  { Expression := none, Array := none, Primary := none }

/-! ### A small instance used to run the definitions -/

/-- Instance of the outside types: an expression node is the sequence of the
fields it references, a compilation state is its map of field values, a
string-values evaluator is the list of the values appended to it. -/
@[reducible] def demoSig : Sig where
  Expression := List Field
  Array := Unit
  Primary := Unit
  Evaluator := Unit
  Model := Unit
  Opts := Unit
  MacroStore := Unit
  State := GoMap Field (List FieldValue)
  StringValuesEvaluator := List FieldValue
  StringCmpOpts := Unit

/-- Event type declared by the fields of the instance. -/
def demoEventTypeOf : Field → EventType
  | "open.file.path" => "open"
  | "open.flags" => "open"
  | "exec.file.path" => "exec"
  | _ => ""

/-- Fields of the instance that are marked cross-type. -/
def demoCrossType : Field → Bool
  | "process.pid" => true
  | _ => false

/-- Node compiler of the instance: an expression records its field references;
an expression that references the field `"unknown"` fails at position 1:1. -/
def demoNodeToEvaluator (node : Node demoSig) (_opts : Unit)
    (state : GoMap Field (List FieldValue)) : NodeResult demoSig :=
  match node with
  | Node.Expression refs =>
    if "unknown" ∈ refs then
      { eval := Value.nil, pos := ⟨1, 1⟩,
        err := some (GoError.ErrAstToEval ⟨1, 1⟩ "unknown"), state := state }
    else
      { eval := Value.node (), pos := ⟨0, 0⟩, err := none, state := recordFields refs state }
  | Node.Array _ => { eval := Value.node (), pos := ⟨0, 0⟩, err := none, state := state }
  | Node.Primary _ => { eval := Value.node (), pos := ⟨0, 0⟩, err := none, state := state }

/-- Dependencies of the instance, for a given runtime choice of `range` order. -/
def demoDeps (order : RangeOrder Field) : Deps demoSig where
  MacroStore := fun _ => ()
  NewState := fun _ _ _ => GoMap.empty
  fieldValues := fun state => state
  nodeToEvaluator := demoNodeToEvaluator
  eventTypeFromFields := fun _ state =>
    deriveEventType demoEventTypeOf demoCrossType (KeysOfMap order state) none
  rangeOrder := order
  zeroStringValuesEvaluator := []
  AppendFieldValue := fun evaluator fieldValue => evaluator ++ [fieldValue]
  Compile := fun evaluator _ => (evaluator, none)
  DefaultStringCmpOpts := ()

/-- The field value of the literal `1`. -/
def demoLiteral : FieldValue :=
  { «Type» := FieldValueType.ScalarValueType, Value := GoValue.int 1 }

/-- Node compiler of a second instance: an expression compares each of the
fields it references against the literal `1`, so that each reference records
the field and appends the field value of the literal to the list of the field. -/
def demoComparingNodeToEvaluator (node : Node demoSig) (_opts : Unit)
    (state : GoMap Field (List FieldValue)) : NodeResult demoSig :=
  match node with
  | Node.Expression refs =>
    { eval := Value.node (), pos := ⟨0, 0⟩, err := none,
      state := recordReferences
        (refs.map (fun f => { field := f, literal := some demoLiteral })) state }
  | Node.Array _ => { eval := Value.node (), pos := ⟨0, 0⟩, err := none, state := state }
  | Node.Primary _ => { eval := Value.node (), pos := ⟨0, 0⟩, err := none, state := state }

/-- Dependencies of the second instance. -/
def demoComparingDeps (order : RangeOrder Field) : Deps demoSig :=
  (demoDeps order).withNodeToEvaluator demoComparingNodeToEvaluator

/-- Macro AST of the instance holding one expression node. -/
def demoAst (refs : List Field) : AstMacro demoSig :=
  { Expression := some refs, Array := none, Primary := none }

/-- Parsing context of the instance: the empty text is a syntax error, two
texts stand for expressions over two fields, and any other text is a
reference to the field of that name. -/
def demoParsingContext : ParsingContext demoSig where
  ParseMacro := fun expression =>
    match expression with
    | "" => (none, some (GoError.other "unexpected end of input"))
    | "open.flags > 0 && open.file.path in paths" =>
      (some (demoAst ["open.flags", "open.file.path"]), none)
    | "open.flags > 0 && exec.file.path in paths" =>
      (some (demoAst ["open.flags", "exec.file.path"]), none)
    | name => (some (demoAst [name]), none)

end eval

/-! ## Go errors: messages -/

/-- Method `Error` of a Go error. The message of `fmt.Errorf(pfx + "%w", e)`
is `pfx` followed by the message of `e`; the messages of the other error
values are produced outside the embedded files and are given by `leaf`. -/
def GoError.Error (leaf : GoError → String) : GoError → String
  | GoError.wrap pfx inner => pfx ++ GoError.Error leaf inner
  | e => leaf e

/-- Function `errors.Unwrap`: the error wrapped by `fmt.Errorf` with `%w`. -/
def GoError.Unwrap : GoError → Option GoError
  | GoError.wrap _ inner => some inner
  | _ => none

/-- Function `strings.HasPrefix`. -/
def hasPrefix (s pfx : String) : Bool := pfx.data.isPrefixOf s.data

/-! ## Package `events`: custom rules -/

namespace events

/-- Constant `RulesetLoadedRuleID`. -/
def RulesetLoadedRuleID : String := "ruleset_loaded"

/-- Constant `HeartbeatRuleID`. -/
def HeartbeatRuleID : String := "heartbeat"

/-- Constant `AbnormalPathRuleID`. -/
def AbnormalPathRuleID : String := "abnormal_path"

/-- Constant `SelfTestRuleID`. -/
def SelfTestRuleID : String := "self_test"

/-- Constant `AnomalyDetectionRuleID`. -/
def AnomalyDetectionRuleID : String := "anomaly_detection"

/-- Constant `NoProcessContextErrorRuleID`. -/
def NoProcessContextErrorRuleID : String := "no_process_context"

/-- Constant `BrokenProcessLineageErrorRuleID`. -/
def BrokenProcessLineageErrorRuleID : String := "broken_process_lineage"

/-- Constant `EBPFLessHelloMessageRuleID`. -/
def EBPFLessHelloMessageRuleID : String := "ebpfless_hello_msg"

/-- Constant `InternalCoreDumpRuleID`. -/
def InternalCoreDumpRuleID : String := "internal_core_dump"

/-- Constant `SysCtlSnapshotRuleID`. -/
def SysCtlSnapshotRuleID : String := "sysctl_snapshot"

/-- The rule-ID constants declared in the `const` block of `custom.go`, in
declaration order. -/
def declaredRuleIDs : List String :=
  [RulesetLoadedRuleID, HeartbeatRuleID, AbnormalPathRuleID, SelfTestRuleID,
    AnomalyDetectionRuleID, NoProcessContextErrorRuleID, BrokenProcessLineageErrorRuleID,
    EBPFLessHelloMessageRuleID, InternalCoreDumpRuleID, SysCtlSnapshotRuleID]

/-- Function `AllCustomRuleIDs`. -/
def AllCustomRuleIDs : List String :=
  [RulesetLoadedRuleID,
    AbnormalPathRuleID,
    SelfTestRuleID,
    AnomalyDetectionRuleID,
    NoProcessContextErrorRuleID,
    BrokenProcessLineageErrorRuleID,
    InternalCoreDumpRuleID,
    SysCtlSnapshotRuleID]

/-- Struct `eval.Rule`, with the field set by `NewCustomRule`. -/
structure EvalRule where
  ID : String
deriving DecidableEq, Repr

/-- Struct `rules.RuleDefinition`, with the fields set by `NewCustomRule`. -/
structure RuleDefinition where
  ID : String
  Description : String
deriving DecidableEq, Repr

/-- Struct `rules.PolicyRule`, with the field set by `NewCustomRule`. -/
structure PolicyRule where
  Def : Option RuleDefinition
deriving DecidableEq, Repr

/-- Struct `rules.Rule`: the embedded `*eval.Rule` and the `*PolicyRule`. -/
structure Rule where
  Rule : Option EvalRule
  PolicyRule : Option PolicyRule
deriving DecidableEq, Repr

/-- Function `NewCustomRule`. -/
def NewCustomRule (id : String) (description : String) : Rule :=
  { Rule := some { ID := id }
    PolicyRule := some { Def := some { ID := id, Description := description } } }

end events

/-! ## Package `sds`: standard rules and the reconfigurable scanner

The file `scanner.go` of package `sds` is outside the embedded files; only its
test is embedded. The struct fields below are those that the test reads and
writes; the functions are modelled from the specification. A reconfiguration
payload is represented by the value it decodes to, `none` standing for a
payload that cannot be decoded. -/

namespace sds

/-- Struct `StandardRuleDefinition`: one numbered variant of a standard rule. -/
structure StandardRuleDefinition where
  Version : Int
  Pattern : String
  DefaultIncludedKeywords : List String
  RequiredCapabilities : List String
deriving DecidableEq, Repr

/-- Struct `StandardRuleConfig`: a standard rule and its variants. -/
structure StandardRuleConfig where
  ID : String
  Name : String
  Description : String
  Definitions : List StandardRuleDefinition
deriving DecidableEq, Repr

/-- Struct `MatchAction`. -/
structure MatchAction where
  «Type» : String
  Placeholder : String
deriving DecidableEq, Repr

/-- Struct `RuleDefinition`: the reference of a user rule to a standard rule. -/
structure RuleDefinition where
  StandardRuleID : String
deriving DecidableEq, Repr

/-- Struct `RuleConfig`: a user rule. -/
structure RuleConfig where
  ID : String
  Name : String
  Description : String
  Tags : List String
  Definition : RuleDefinition
  MatchAction : MatchAction
  IsEnabled : Bool
deriving DecidableEq, Repr

/-- Struct `RulesConfig`: a user configuration, a group of user rules. -/
structure RulesConfig where
  IsEnabled : Bool
  Rules : List RuleConfig
deriving DecidableEq, Repr

/-- Struct `RegexRuleConfig` of the scanning library, with the fields that the
test of `interpretRCRule` compares and that depend on the selected variant
only through its pattern. -/
structure RegexRuleConfig where
  Id : String
  Pattern : String
deriving DecidableEq, Repr

/-- Struct `Scanner` of the scanning library: the compiled rule set. -/
structure NativeScanner where
  RuleConfigs : List RegexRuleConfig
deriving DecidableEq, Repr

/-- The running engine: the capabilities it supports, and the error, if any,
with which the scanning library refuses to compile a rule set. -/
structure Engine where
  capabilities : List String
  compileError : List RegexRuleConfig → Option GoError

/-- Modelled from the spec: part of `interpretRCRule`, which is outside the
embedded files. A variant qualifies when its declared required capabilities
are all supported by the running engine. -/
def supportsAll (capabilities : List String) (d : StandardRuleDefinition) : Bool :=
  d.RequiredCapabilities.all (fun c => decide (c ∈ capabilities))

/-- Modelled from the spec: part of the order of the sort of `interpretRCRule`
(see `sortsBefore`). The content of a variant besides its number: the
pattern, the keywords and the required capabilities, each as its sequence of
characters. -/
def StandardRuleDefinition.content (d : StandardRuleDefinition) : List (List (List Char)) :=
  [[d.Pattern.data], d.DefaultIncludedKeywords.map String.data,
    d.RequiredCapabilities.map String.data]

/-- Modelled from the spec: part of `interpretRCRule`, which is outside the
embedded files. The order of the sort that precedes the selection: a variant
of a higher number comes first. The specification gives no order to two
variants of the same number; they are ordered by their content, so that the
sorted sequence is determined by the variants supplied and not by the order in
which the input supplies them. -/
@[reducible] def sortsBefore (a b : StandardRuleDefinition) : Prop :=
  b.Version < a.Version ∨ (b.Version = a.Version ∧ a.content ≤ b.content)

/-- Modelled from the spec: part of `interpretRCRule`, which is outside the
embedded files. Variant numbers need not come sorted in the input and are
sorted, highest first, before selection. -/
def sortByVersion (defs : List StandardRuleDefinition) : List StandardRuleDefinition :=
  defs.insertionSort sortsBefore

/-- Modelled from the spec: part of `interpretRCRule`, which is outside the
embedded files. The selected variant is the highest-numbered one that
qualifies, falling back to the next-highest otherwise. -/
def selectDefinition (capabilities : List String) (defs : List StandardRuleDefinition) :
    Option StandardRuleDefinition :=
  (sortByVersion defs).find? (supportsAll capabilities)

/-- Modelled from the spec: `interpretRCRule` is outside the embedded files. It
builds the library rule of a user rule from the selected variant of the
referenced standard rule, and fails when no variant qualifies. The rule is
identified by the name of the standard rule, as the embedded test expects. -/
def interpretRCRule (capabilities : List String) (_userRule : RuleConfig)
    (standardRule : StandardRuleConfig) : Option RegexRuleConfig × Option GoError :=
  match selectDefinition capabilities standardRule.Definitions with
  | none => (none, some (GoError.other "unsupported rule with no compatible definition"))
  | some d => (some { Id := standardRule.Name, Pattern := d.Pattern }, none)

/-- Struct `Scanner` of package `sds`: the embedded library scanner (nil when
there is none), the standard rules received, the configured user rules, and
whether definitions and an enabled user rule were compiled at least once. -/
structure Scanner where
  Scanner : Option NativeScanner
  standardRules : List StandardRuleConfig
  configuredRules : List RuleConfig
  ready : Bool
deriving DecidableEq, Repr

/-- The reconfiguration orders `StandardRules`, `AgentConfig` and
`StopProcessing`, each with its decoded payload. -/
inductive ReconfigureOrder where
  | StandardRules (config : Option (List StandardRuleConfig))
  | AgentConfig (config : Option RulesConfig)
  | StopProcessing

/-- The user configuration that the payload `{}` decodes to. -/
def emptyConfig : RulesConfig := { IsEnabled := false, Rules := [] }

/-- Modelled from the spec: `CreateScanner` is outside the embedded files. A
new scanner has received no definitions and holds no rule set. -/
def CreateScanner (_pipelineID : String) : Scanner :=
  { Scanner := none, standardRules := [], configuredRules := [], ready := false }

/-- Modelled from the spec: the enabled rules of a user configuration, in the
order of the configuration; none when the group itself is disabled. -/
def RulesConfig.OnlyEnabled (config : RulesConfig) : List RuleConfig :=
  if config.IsEnabled then config.Rules.filter (fun r => r.IsEnabled) else []

/-- Modelled from the spec: the library rule of one user rule, or the reason
for which it has none: the rule references no held standard rule, or no
variant of the referenced standard rule qualifies. -/
def interpretRule (eng : Engine) (standardRules : List StandardRuleConfig) (r : RuleConfig) :
    Option RegexRuleConfig × Option GoError :=
  match standardRules.find? (fun sr => decide (sr.ID = r.Definition.StandardRuleID)) with
  | none =>
    (none, some (GoError.other ("unknown standard rule: " ++ r.Definition.StandardRuleID)))
  | some sr => interpretRCRule eng.capabilities r sr

/-- Modelled from the spec: the library rules of the user rules. A user rule
that has no library rule is left out of the compiled set and does not stop the
others. -/
def interpretRules (eng : Engine) (standardRules : List StandardRuleConfig)
    (rules : List RuleConfig) : List RegexRuleConfig :=
  rules.filterMap (fun r => (interpretRule eng standardRules r).1)

/-- Modelled from the spec: the errors of the user rules that have no library
rule, collected in the order of the rules. -/
def interpretErrors (eng : Engine) (standardRules : List StandardRuleConfig)
    (rules : List RuleConfig) : List GoError :=
  rules.filterMap (fun r => (interpretRule eng standardRules r).2)

/-- Modelled from the spec: the user rules that have a library rule, in the
order of the rules; the others are excluded from the active set. -/
def interpretedRules (eng : Engine) (standardRules : List StandardRuleConfig)
    (rules : List RuleConfig) : List RuleConfig :=
  rules.filter (fun r => (interpretRule eng standardRules r).1.isSome)

/-- Whether the scanner holds a compiled rule set. -/
def Scanner.IsActive (s : sds.Scanner) : Bool := s.Scanner.isSome

/-- Modelled from the spec: the application of a user configuration, outside
the embedded files. A payload that cannot be decoded and a rule set that the
library does not compile leave the scanner as it was and return the error. A
configuration that enables no rule drops the rule set. The error of an enabled
rule that has no library rule is collected and returned; the rule is left out
and does not stop the others. When no enabled rule has a library rule, as
when no definitions were received, nothing is compiled and the scanner stays
as it was. Otherwise the rules that have a library rule are compiled, the new
rule set replaces the former one as a whole, and the scanner is ready from
then on: definitions and an enabled rule that references them were compiled. -/
def Scanner.reconfigureRules (eng : Engine) (s : sds.Scanner) (config : Option RulesConfig) :
    sds.Scanner × Bool × Option GoError :=
  match config with
  | none => (s, s.IsActive, some (GoError.other "cannot decode the configuration"))
  | some config =>
    if config.OnlyEnabled.isEmpty then
      ({ s with Scanner := none, configuredRules := [] }, false, none)
    else if (interpretRules eng s.standardRules config.OnlyEnabled).isEmpty then
      (s, s.IsActive, (interpretErrors eng s.standardRules config.OnlyEnabled).head?)
    else
      match eng.compileError (interpretRules eng s.standardRules config.OnlyEnabled) with
      | some err => (s, s.IsActive, some err)
      | none =>
        ({ s with
            Scanner := some ⟨interpretRules eng s.standardRules config.OnlyEnabled⟩
            configuredRules := interpretedRules eng s.standardRules config.OnlyEnabled
            ready := true },
          true, (interpretErrors eng s.standardRules config.OnlyEnabled).head?)

/-- Modelled from the spec: `Scanner.Reconfigure` is outside the embedded
files. It returns the scanner as it stands afterwards, whether it is active,
and the error. -/
def Scanner.Reconfigure (eng : Engine) (s : sds.Scanner) (order : ReconfigureOrder) :
    sds.Scanner × Bool × Option GoError :=
  match order with
  | ReconfigureOrder.StandardRules none =>
    (s, s.IsActive, some (GoError.other "cannot decode the standard rules"))
  | ReconfigureOrder.StandardRules (some rules) =>
    ({ s with standardRules := rules }, s.IsActive, none)
  | ReconfigureOrder.AgentConfig config => s.reconfigureRules eng config
  | ReconfigureOrder.StopProcessing => s.reconfigureRules eng (some emptyConfig)

/-- Modelled from the spec: `Scanner.IsReady` is outside the embedded files.
The scanner is ready iff definitions and at least one enabled user rule that
references them were compiled at least once. -/
def Scanner.IsReady (s : sds.Scanner) : Bool := s.ready

/-- Modelled from the spec: `Scanner.GetRuleByIdx` is outside the embedded
files. It returns the configured rule at an index of the active rule set. -/
def Scanner.GetRuleByIdx (s : sds.Scanner) (idx : Nat) : Except GoError RuleConfig :=
  match s.Scanner with
  | none => Except.error (GoError.other "scanner not configured")
  | some _ =>
    match s.configuredRules[idx]? with
    | none => Except.error (GoError.other "scanner not containing enough rules")
    | some r => Except.ok r

/-- The scanner after a sequence of reconfiguration orders. -/
def Scanner.run (eng : Engine) (s : sds.Scanner) (orders : List ReconfigureOrder) :
    sds.Scanner :=
  orders.foldl (fun s order => (s.Reconfigure eng order).1) s

/-! ### Data of the embedded tests -/

/-- Constant `RCSecondaryValidationLuhnChecksum`, named by the test; its
value is declared outside the embedded files. -/
def RCSecondaryValidationLuhnChecksum : String := "luhn_checksum"

/-- The engine of the tests: it supports the Luhn checksum capability and
compiles every rule set. -/
def testEngine : Engine :=
  { capabilities := [RCSecondaryValidationLuhnChecksum], compileError := fun _ => none }

/-- The three variants of `TestInterpretRC`, in the order of the test. -/
def testDefinitions : List StandardRuleDefinition :=
  [{ Version := 2, Pattern := "second pattern", DefaultIncludedKeywords := [],
     RequiredCapabilities := [RCSecondaryValidationLuhnChecksum] },
   { Version := 1, Pattern := "first pattern", DefaultIncludedKeywords := [],
     RequiredCapabilities := [] },
   { Version := 3, Pattern := "third pattern", DefaultIncludedKeywords := [],
     RequiredCapabilities := ["unsupported"] }]

/-- A variant of version 1 with pattern `pattern` and no required capability. -/
def versionOne (pattern : String) : StandardRuleDefinition :=
  { Version := 1, Pattern := pattern, DefaultIncludedKeywords := [],
    RequiredCapabilities := [] }

/-- The standard rule of `TestInterpretRC`, with the three variants. -/
def testStandardRule : StandardRuleConfig :=
  { ID := "0", Name := "Zero", Description := "Zero desc", Definitions := testDefinitions }

/-- The standard rule `name` of the scanner tests, with identifier `id`. -/
def standardRule (id name : String) : StandardRuleConfig :=
  { ID := id, Name := name, Description := name ++ " desc",
    Definitions := [{ Version := 1, Pattern := name, DefaultIncludedKeywords := [],
                      RequiredCapabilities := [] }] }

/-- The standard rules `zero`, `one`, `two` of the scanner tests. -/
def testStandardRules : List StandardRuleConfig :=
  [standardRule "zero-0" "zero", standardRule "one-1" "one", standardRule "two-2" "two"]

/-- A user rule of the scanner tests. -/
def userRule (id name std : String) (enabled : Bool) : RuleConfig :=
  { ID := id, Name := name, Description := "", Tags := [],
    Definition := { StandardRuleID := std },
    MatchAction := { «Type» := "Redact", Placeholder := "[redacted]" },
    IsEnabled := enabled }

/-- The user rule of `TestInterpretRC`. -/
def testUserRule : RuleConfig :=
  { ID := "", Name := "test", Description := "desc", Tags := ["tag:test"],
    Definition := { StandardRuleID := "0" },
    MatchAction := { «Type» := "Redact", Placeholder := "[redacted]" },
    IsEnabled := false }

/-- The user configuration of `TestCreateScanner` with two of the three rules
enabled. -/
def testAgentConfig : RulesConfig :=
  { IsEnabled := true,
    Rules := [userRule "random000" "zero" "zero-0" true,
              userRule "random111" "one" "one-1" true,
              userRule "random222" "two" "two-2" false] }

end sds

/-! ## Package `events`: the fields a custom event does not have -/

namespace events

variable {ET : Type}

/-- Method `(*CustomEvent).GetActionReports`: the nil slice of action reports;
`AR` is `model.ActionReport`. -/
def CustomEvent.GetActionReports {AR : Type} (_ce : CustomEvent ET) : Eff (List AR) :=
  pure []

/-- Method `(*CustomEvent).GetWorkloadID`. -/
def CustomEvent.GetWorkloadID (_ce : CustomEvent ET) : Eff String :=
  pure ""

/-- Method `(*CustomEvent).GetFieldValue`: the pair of the empty string and the
zero value of `eval.ErrFieldNotFound`. -/
def CustomEvent.GetFieldValue (_ce : CustomEvent ET) (_field : eval.Field) :
    Eff (eval.GoValue × Option GoError) :=
  pure (eval.GoValue.string "", some (GoError.ErrFieldNotFound ""))

end events

/-! ## Package `api` of the system probe: module restart

The handler reads the module name from the route variables of the request
(the empty string when the variable is absent), and answers through exactly
one call on the response writer, either `WriteHeader(code)` or
`http.Error(w, message, code)`. -/

namespace api

/-- Type `sysconfigtypes.ModuleName`. -/
abbrev ModuleName := String

/-- Struct `module.Factory`: the name of the module, and the rest of the
struct, whose zero value is `none`. -/
structure Factory where
  Name : ModuleName
  Fn : Option Nat
deriving DecidableEq, Repr

/-- The zero value of `module.Factory`, as declared by `var target`. -/
def Factory.zero : Factory := { Name := "", Fn := none }

/-- The call made on the response writer. -/
inductive Reply where
  | WriteHeader (code : Nat)
  | Error (message : String) (code : Nat)
deriving DecidableEq, Repr

/-- The status code of a reply. -/
def Reply.status : Reply → Nat
  | Reply.WriteHeader code => code
  | Reply.Error _ code => code

/-- Constant `http.StatusOK`. -/
def StatusOK : Nat := 200

/-- Constant `http.StatusBadRequest`. -/
def StatusBadRequest : Nat := 400

/-- Constant `http.StatusInternalServerError`. -/
def StatusInternalServerError : Nat := 500

/-- The loop of `restartModuleHandler` over `modules.All`: the target is the
last factory whose name is the requested one, and stays as it was when there
is none. -/
def selectTarget (moduleName : ModuleName) : List Factory → Factory → Factory
  | [], target => target
  | f :: rest, target =>
    if f.Name = moduleName then selectTarget moduleName rest f
    else selectTarget moduleName rest target

/-- Function `restartModuleHandler`. The parameters `EventMonitorModule`,
`All` and `RestartModule` are `config.EventMonitorModule`, `modules.All` and
`module.RestartModule`; `leaf` gives the messages of errors. The result is
the reply and the factories with which `RestartModule` was called, in order. -/
def restartModuleHandler {D : Type} (EventMonitorModule : ModuleName) (All : List Factory)
    (RestartModule : Factory → D → Option GoError) (leaf : GoError → String)
    (moduleName : ModuleName) (deps : D) : Reply × List Factory :=
  if moduleName = EventMonitorModule then
    (Reply.WriteHeader StatusOK, [])
  else
    let target := selectTarget moduleName All Factory.zero
    if target.Name ≠ moduleName then
      (Reply.Error "invalid module" StatusBadRequest, [])
    else
      match RestartModule target deps with
      | some err => (Reply.Error (err.Error leaf) StatusInternalServerError, [target])
      | none => (Reply.WriteHeader StatusOK, [target])

/-- A registry of two modules, used to run the handler. -/
def demoAll : List Factory :=
  [{ Name := "network_tracer", Fn := some 1 }, { Name := "oom_kill_probe", Fn := some 2 }]

/-- A restart function that fails for a module that is not running: only the
two modules of `demoAll` are running. -/
def demoRestartModule (factory : Factory) (_deps : Unit) : Option GoError :=
  if factory.Name = "network_tracer" ∨ factory.Name = "oom_kill_probe" then none
  else some (GoError.other ("module " ++ factory.Name ++ " is not running"))

/-- The messages of the errors of the instance. -/
def demoLeaf : GoError → String
  | GoError.other msg => msg
  | _ => "error"

end api

/-! ## Package `bootstrap` of the installer -/

namespace bootstrap

/-- Struct `oci.DownloadedPackage`: its name and the outcomes of its methods
`WriteOCILayout(dir)` and `ExtractLayers(mediaType, dir)`. -/
structure DownloadedPackage where
  Name : String
  WriteOCILayout : String → Option GoError
  ExtractLayers : String → String → Option GoError

/-- Struct `exec.InstallerExec`, as built by `exec.NewInstallerExec`. -/
structure InstallerExec (Env : Type) where
  env : Env
  installerBinPath : String

/-- The steps that act on the registry and on the disk. -/
inductive Effect where
  | Download (url : String)
  | MkdirTemp (dir : String) (pattern : String)
  | WriteOCILayout (dir : String)
  | ExtractLayers (mediaType : String) (dir : String)
  | RemoveAll (dir : String)
deriving DecidableEq, Repr

/-- The constants and functions used by `bootstrap_nix.go` and declared outside
the embedded files: the package constants, the downloader built from the
environment, `os.MkdirTemp`, `filepath.Join`, `oci.PackageURL`, and the field
`DefaultPackagesVersionOverride` of the environment. -/
structure Sys (Env : Type) where
  InstallerPackage : String
  installerBinPath : String
  RootTmpDir : String
  DatadogPackageLayerMediaType : String
  Download : Env → String → Option DownloadedPackage × Option GoError
  MkdirTemp : String → String → String × Option GoError
  Join : String → String → String
  PackageURL : Env → String → String → String
  DefaultPackagesVersionOverride : Env → GoMap String String

variable {Env : Type}

/-- Function `downloadInstaller`. The result is what the function returns and
the steps it performed, in order; the deferred removal of the layout
directory runs when the function returns. -/
def downloadInstaller (sys : Sys Env) (env : Env) (url : String) (tmpDir : String) :
    Run (Option (InstallerExec Env) × Option GoError) × List Effect :=
  match sys.Download env url with
  | (_, some err) =>
    (Run.done (none, some (GoError.wrap "failed to download installer package: " err)),
      [Effect.Download url])
  | (none, none) => (Run.panic, [Effect.Download url])
  | (some downloadedPackage, none) =>
    if downloadedPackage.Name ≠ sys.InstallerPackage then
      (Run.done (none, some (GoError.other
          ("unexpected package name: " ++ downloadedPackage.Name ++ ", expected "
            ++ sys.InstallerPackage))),
        [Effect.Download url])
    else
      match sys.MkdirTemp sys.RootTmpDir "" with
      | (_, some err) =>
        (Run.done (none, some (GoError.wrap "failed to create temporary directory: " err)),
          [Effect.Download url, Effect.MkdirTemp sys.RootTmpDir ""])
      | (layoutTmpDir, none) =>
        match downloadedPackage.WriteOCILayout layoutTmpDir with
        | some err =>
          (Run.done (none, some (GoError.wrap "failed to write OCI layout: " err)),
            [Effect.Download url, Effect.MkdirTemp sys.RootTmpDir "",
              Effect.WriteOCILayout layoutTmpDir, Effect.RemoveAll layoutTmpDir])
        | none =>
          match downloadedPackage.ExtractLayers sys.DatadogPackageLayerMediaType tmpDir with
          | some err =>
            (Run.done (none, some (GoError.wrap "failed to extract layers: " err)),
              [Effect.Download url, Effect.MkdirTemp sys.RootTmpDir "",
                Effect.WriteOCILayout layoutTmpDir,
                Effect.ExtractLayers sys.DatadogPackageLayerMediaType tmpDir,
                Effect.RemoveAll layoutTmpDir])
          | none =>
            (Run.done (some { env := env,
                              installerBinPath := sys.Join tmpDir sys.installerBinPath },
                none),
              [Effect.Download url, Effect.MkdirTemp sys.RootTmpDir "",
                Effect.WriteOCILayout layoutTmpDir,
                Effect.ExtractLayers sys.DatadogPackageLayerMediaType tmpDir,
                Effect.RemoveAll layoutTmpDir])

/-- The value of the map index expression `m[k]` on a map of strings: the
empty string when the key is absent. -/
def index (m : GoMap String String) (k : String) : String :=
  (m.get? k).getD ""

/-- Function `getInstallerOCI`. -/
def getInstallerOCI (sys : Sys Env) (env : Env) : String × Option GoError :=
  let version :=
    if index (sys.DefaultPackagesVersionOverride env) sys.InstallerPackage ≠ "" then
      index (sys.DefaultPackagesVersionOverride env) sys.InstallerPackage
    else "latest"
  (sys.PackageURL env sys.InstallerPackage version, none)

/-- A package of the instance whose layout and layers are written without
error. -/
def demoPackage (name : String) : DownloadedPackage :=
  { Name := name, WriteOCILayout := fun _ => none, ExtractLayers := fun _ _ => none }

/-- An instance of the outside world: the environment is the override map;
the registry serves the installer package under one address, another
package under a second address, and fails otherwise. -/
def demoSys : Sys (GoMap String String) where
  InstallerPackage := "datadog-installer"
  installerBinPath := "bin/installer/installer"
  RootTmpDir := "/opt/datadog-packages/tmp"
  DatadogPackageLayerMediaType := "application/vnd.datadog.package.layer.v1.tar+zstd"
  Download := fun _ url =>
    if url = "oci://registry/installer-package:latest" then
      (some (demoPackage "datadog-installer"), none)
    else if url = "oci://registry/agent-package:latest" then
      (some (demoPackage "datadog-agent"), none)
    else (none, some (GoError.other "not found"))
  MkdirTemp := fun dir _ => (dir ++ "/1", none)
  Join := fun a b => a ++ "/" ++ b
  PackageURL := fun _ pkg version => "oci://registry/" ++ pkg ++ ":" ++ version
  DefaultPackagesVersionOverride := fun env => env

end bootstrap

/-! ## Package `logsagentexporter`: trace and span identifiers -/

namespace logsagentexporter

/-- A byte. -/
abbrev Byte := Fin 256

/-- The value of a sequence of bytes read as a big-endian integer. -/
def bigEndianValue (b : List Byte) : Nat :=
  b.foldl (fun acc x => acc * 256 + x.val) 0

/-- Method `binary.BigEndian.Uint64`: the first eight bytes of the slice, the
first one shifted to the top; a slice of fewer than eight bytes panics. -/
def Uint64 : List Byte → Run Nat
  | b0 :: b1 :: b2 :: b3 :: b4 :: b5 :: b6 :: b7 :: _ =>
    Run.done ((b7.val + b6.val * 2 ^ 8 + b5.val * 2 ^ 16 + b4.val * 2 ^ 24
      + b3.val * 2 ^ 32 + b2.val * 2 ^ 40 + b1.val * 2 ^ 48 + b0.val * 2 ^ 56) % 2 ^ 64)
  | _ => Run.panic

/-- An array `[n]byte`. -/
abbrev FixedBytes (n : Nat) := { b : List Byte // b.length = n }

/-- Function `traceIDToUint64`: `binary.BigEndian.Uint64(b[len(b)-8:])`. -/
def traceIDToUint64 (b : FixedBytes 16) : Run Nat :=
  Uint64 (b.val.drop (b.val.length - 8))

/-- Function `spanIDToUint64`: `binary.BigEndian.Uint64(b[:])`. -/
def spanIDToUint64 (b : FixedBytes 8) : Run Nat :=
  Uint64 b.val

/-- The last eight bytes of a 16-byte array, as an 8-byte array. -/
def lowHalf (b : FixedBytes 16) : FixedBytes 8 :=
  ⟨b.val.drop 8, by rw [List.length_drop, b.property]⟩

/-- A sample trace identifier. -/
def sampleTraceID : FixedBytes 16 :=
  ⟨[1, 2, 3, 4, 5, 6, 7, 8, 0, 0, 0, 0, 0, 0, 1, 2], rfl⟩

end logsagentexporter

/-! ## Theorems: Go maps -/

namespace GoMap

variable {K V : Type}

/-- A key has a value in the map iff it is one of the stored keys. -/
theorem get?_isSome_iff [DecidableEq K] (m : GoMap K V) (k : K) :
    (m.get? k).isSome = true ↔ k ∈ m.keys := by
  simp only [get?, keys, Option.isSome_map', List.find?_isSome, decide_eq_true_eq,
    List.mem_map]

/-- Replacing a value leaves the keys as they are. -/
theorem map_fst_replace [DecidableEq K] (k : K) (v : V) (es : List (K × V)) :
    (replace k v es).map Prod.fst = es.map Prod.fst := by
  induction es with
  | nil => rfl
  | cons e es ih =>
    unfold replace
    by_cases he : e.1 = k
    · simp [he]
    · simp [he, ih]

/-- Assigning under a stored key leaves the keys as they are. -/
theorem keys_set_of_mem [DecidableEq K] (m : GoMap K V) (k : K) (v : V)
    (h : k ∈ m.keys) : (m.set k v).keys = m.keys := by
  unfold set
  rw [dif_pos h]
  exact map_fst_replace k v m.entries

/-- Assigning under a fresh key stores the key after the keys already there. -/
theorem keys_set_of_not_mem [DecidableEq K] (m : GoMap K V) (k : K) (v : V)
    (h : k ∉ m.keys) : (m.set k v).keys = m.keys ++ [k] := by
  unfold set
  rw [dif_neg h]
  simp [keys]

end GoMap

/-- One `range` loop meets every stored key. -/
theorem RangeOrder.mem_visit {K : Type} (order : RangeOrder K) (l : List K) (k : K) :
    k ∈ order.visit l ↔ k ∈ l :=
  (order.perm l).mem_iff

/-- One `range` loop meets no key twice. -/
theorem RangeOrder.nodup_visit {K : Type} (order : RangeOrder K) (l : List K)
    (h : l.Nodup) : (order.visit l).Nodup :=
  (order.perm l).nodup_iff.mpr h

/-! ## Theorems: package `events` -/

namespace events

variable {ET : Type}

theorem run_marshalJSON (ce : CustomEvent ET) (tr : Trace) :
    (ce.MarshalJSON.run tr) = ((ce.marshalerCtor ()).ToJSON, tr ++ [Call.marshalerCtor, Call.ToJSON]) := by
  simp [CustomEvent.MarshalJSON, record, StateT.run, bind, StateT.bind, modify, modifyGet,
    MonadStateOf.modifyGet, StateT.modifyGet, pure, StateT.pure]

theorem factoryCalls_append (a b : Trace) : factoryCalls (a ++ b) = factoryCalls a + factoryCalls b := by
  simp [factoryCalls, List.count_append]

theorem run_marshalTimes (ce : CustomEvent ET) (n : Nat) (tr : Trace) :
    factoryCalls ((marshalTimes ce n).run tr).2 = factoryCalls tr + n := by
  induction n generalizing tr with
  | zero => simp [marshalTimes, StateT.run, pure, StateT.pure]
  | succ n ih =>
    have step : (marshalTimes ce (n + 1)).run tr
        = (marshalTimes ce n).run (ce.MarshalJSON.run tr).2 := rfl
    rw [step, ih, run_marshalJSON]
    simp [factoryCalls_append, factoryCalls]
    omega

/-- C1: for a custom event built by `NewCustomEventLazy` or by `NewCustomEvent`
with event type `t` and tags `ts`, `GetTags` returns `ts` in the original
order followed by the single element `"type:" ++ t.String()`; the result has
length `len(ts) + 1` and its last element is the type tag. -/
theorem GetTags_is_tags_then_type_tag (str : ET → String) (t : ET)
    (f : Unit → EventMarshaler) (m : EventMarshaler) (ts : List String) (tr : Trace) :
    ((NewCustomEventLazy t f ts >>= fun ce => ce.GetTags str).run tr).1
        = ts ++ ["type:" ++ str t]
      ∧ ((NewCustomEvent t m ts >>= fun ce => ce.GetTags str).run tr).1
        = ts ++ ["type:" ++ str t]
      ∧ (ts ++ ["type:" ++ str t]).length = ts.length + 1
      ∧ (ts ++ ["type:" ++ str t]).getLast? = some ("type:" ++ str t)
      ∧ (ts ++ ["type:" ++ str t]).take ts.length = ts := by
  refine ⟨rfl, rfl, ?_, ?_, ?_⟩
  · simp
  · simp
  · simp

/-- C2: building a custom event and reading it never invokes the marshaler
factory nor `ToJSON`: `NewCustomEventLazy`, `NewCustomEvent`, `Clone`,
`GetTags`, `GetType` and `GetEventType` leave the call history as it was,
whereas `MarshalJSON` adds one factory invocation followed by one `ToJSON`. -/
theorem only_MarshalJSON_invokes_factory (str : ET → String) (t : ET)
    (f : Unit → EventMarshaler) (m : EventMarshaler) (ts : List String)
    (ce : CustomEvent ET) (tr : Trace) :
    ((NewCustomEventLazy t f ts).run tr).2 = tr
      ∧ ((NewCustomEvent t m ts).run tr).2 = tr
      ∧ (ce.Clone.run tr).2 = tr
      ∧ ((ce.GetTags str).run tr).2 = tr
      ∧ ((ce.GetType str).run tr).2 = tr
      ∧ (ce.GetEventType.run tr).2 = tr
      ∧ (ce.MarshalJSON.run tr).2 = tr ++ [Call.marshalerCtor, Call.ToJSON]
      ∧ factoryCalls (ce.MarshalJSON.run tr).2 = factoryCalls tr + 1 := by
  refine ⟨rfl, rfl, rfl, rfl, rfl, rfl, ?_, ?_⟩
  · rw [run_marshalJSON]
  · rw [run_marshalJSON]
    simp [factoryCalls_append, factoryCalls]

/-- C3, as stated, fails: two `MarshalJSON` calls on one custom event invoke
its marshaler factory twice. -/
theorem factory_invoked_twice_by_two_marshals :
    ¬ (∀ (ce : CustomEvent Nat) (n : Nat),
        factoryCalls ((marshalTimes ce n).run []).2 ≤ 1) := by
  intro h
  have h2 := h sampleEvent 2
  rw [run_marshalTimes] at h2
  simp [factoryCalls] at h2

/-- C3, amended: every `MarshalJSON` call invokes the marshaler factory exactly
once, so `n` calls on one custom event invoke it exactly `n` times. -/
theorem factory_invoked_once_per_marshal (ce : CustomEvent ET) (n : Nat) (tr : Trace) :
    factoryCalls (ce.MarshalJSON.run tr).2 = factoryCalls tr + 1
      ∧ factoryCalls ((marshalTimes ce n).run tr).2 = factoryCalls tr + n := by
  refine ⟨?_, run_marshalTimes ce n tr⟩
  rw [run_marshalJSON]
  simp [factoryCalls_append, factoryCalls]

end events

/-! ## Theorems: package `eval` -/

namespace eval

variable {σ : Sig}

theorem macroToEvaluator_nil (d : Deps σ) (model : σ.Model) (opts : σ.Opts) (field : Field) :
    macroToEvaluator d none model opts field = Run.panic := rfl

/-- The three ways in which `macroToEvaluator` ends on a non-nil macro AST. -/
theorem macroToEvaluator_cases (d : Deps σ) (mac : AstMacro σ) (model : σ.Model)
    (opts : σ.Opts) (field : Field) :
    (∃ e, (macroNodeResult d mac model opts field).err = some e
        ∧ macroToEvaluator d (some mac) model opts field = Run.done (none, some e))
    ∨ ((macroNodeResult d mac model opts field).err = none
        ∧ ∃ t e, d.eventTypeFromFields model (macroNodeResult d mac model opts field).state
            = (t, some e)
          ∧ macroToEvaluator d (some mac) model opts field = Run.done (none, some e))
    ∨ ((macroNodeResult d mac model opts field).err = none
        ∧ ∃ t, d.eventTypeFromFields model (macroNodeResult d mac model opts field).state
            = (t, none)
          ∧ macroToEvaluator d (some mac) model opts field = Run.done (some {
              Value := (macroNodeResult d mac model opts field).eval
              EventType := t
              fieldValues := d.fieldValues (macroNodeResult d mac model opts field).state
              fields := KeysOfMap d.rangeOrder
                (d.fieldValues (macroNodeResult d mac model opts field).state) }, none)) := by
  cases herr : (macroNodeResult d mac model opts field).err with
  | some e =>
    left
    refine ⟨e, rfl, ?_⟩
    simp only [macroToEvaluator]
    simp only [macroNodeResult] at herr
    simp [herr]
  | none =>
    right
    simp only [macroNodeResult] at herr
    rcases hder : d.eventTypeFromFields model (macroNodeResult d mac model opts field).state
      with ⟨t, _ | e⟩
    · right
      refine ⟨rfl, t, rfl, ?_⟩
      simp only [macroNodeResult] at hder
      simp [macroToEvaluator, macroNodeResult, herr, hder]
    · left
      refine ⟨rfl, t, e, rfl, ?_⟩
      simp only [macroNodeResult] at hder
      simp [macroToEvaluator, herr, hder]

/-- When `macroToEvaluator` fails, `GenEvaluator` returns an error and leaves
the macro as it was. -/
theorem GenEvaluator_of_error (d : Deps σ) (m : Macro σ) (expression : String)
    (model : σ.Model) (x : Option (MacroEvaluator σ)) (e : GoError)
    (h : macroToEvaluator d m.ast model m.Opts "" = Run.done (x, some e)) :
    ∃ e2, m.GenEvaluator d expression model = Run.done (m, some e2) := by
  cases e with
  | ErrAstToEval pos text =>
    exact ⟨GoError.wrap "macro syntax error: " (GoError.ErrRuleParse pos expression),
      by simp [Macro.GenEvaluator, h]⟩
  | ErrRuleParse pos expr =>
    exact ⟨GoError.wrap "macro compilation error: " (GoError.ErrRuleParse pos expr),
      by simp [Macro.GenEvaluator, h]⟩
  | ErrFieldNotFound f =>
    exact ⟨GoError.wrap "macro compilation error: " (GoError.ErrFieldNotFound f),
      by simp [Macro.GenEvaluator, h]⟩
  | other msg =>
    exact ⟨GoError.wrap "macro compilation error: " (GoError.other msg),
      by simp [Macro.GenEvaluator, h]⟩
  | wrap pfx inner =>
    exact ⟨GoError.wrap "macro compilation error: " (GoError.wrap pfx inner),
      by simp [Macro.GenEvaluator, h]⟩

/-- When `macroToEvaluator` succeeds, `GenEvaluator` stores its evaluator. -/
theorem GenEvaluator_of_success (d : Deps σ) (m : Macro σ) (expression : String)
    (model : σ.Model) (x : Option (MacroEvaluator σ))
    (h : macroToEvaluator d m.ast model m.Opts "" = Run.done (x, none)) :
    m.GenEvaluator d expression model = Run.done ({ m with evaluator := x }, none) := by
  simp [Macro.GenEvaluator, h]

/-- What `NewMacro` returns once the parser has produced a non-nil AST:
failure when `macroToEvaluator` fails, and otherwise the macro holding the
AST and the evaluator. -/
theorem NewMacro_of_parsed (d : Deps σ) (id expression : String) (model : σ.Model)
    (parsingContext : ParsingContext σ) (opts : σ.Opts) (mac : AstMacro σ)
    (hparse : parsingContext.ParseMacro expression = (some mac, none)) :
    (∃ e, (∃ x e0, macroToEvaluator d (some mac) model opts "" = Run.done (x, some e0))
        ∧ NewMacro d id expression model parsingContext opts = Run.done (none, some e))
    ∨ (∃ me, macroToEvaluator d (some mac) model opts "" = Run.done (some me, none)
        ∧ NewMacro d id expression model parsingContext opts
          = Run.done (some { ID := id, Opts := opts, evaluator := some me, ast := some mac },
              none)) := by
  have hp : (Macro.Parse { ID := id, Opts := opts, evaluator := none, ast := none }
      parsingContext expression)
      = (({ ID := id, Opts := opts, evaluator := none, ast := some mac } : Macro σ), none) := by
    simp [Macro.Parse, hparse]
  rcases macroToEvaluator_cases d mac model opts "" with ⟨e, _, h⟩ | ⟨_, t, e, _, h⟩ | ⟨_, t, _, h⟩
  · left
    obtain ⟨e2, h2⟩ := GenEvaluator_of_error d
      { ID := id, Opts := opts, evaluator := none, ast := some mac } expression model none e h
    exact ⟨GoError.wrap "compilation error: " e2, ⟨_, _, h⟩, by simp [NewMacro, hp, h2]⟩
  · left
    obtain ⟨e2, h2⟩ := GenEvaluator_of_error d
      { ID := id, Opts := opts, evaluator := none, ast := some mac } expression model none e h
    exact ⟨GoError.wrap "compilation error: " e2, ⟨_, _, h⟩, by simp [NewMacro, hp, h2]⟩
  · right
    have h2 := GenEvaluator_of_success d
      { ID := id, Opts := opts, evaluator := none, ast := some mac } expression model _ h
    exact ⟨_, h, by simp [NewMacro, hp, h2]⟩

/-- C4: `NewMacro` is atomic. It returns either a macro and a nil error, and
then the macro has `ID = id`, `Opts = opts`, a non-nil AST and a non-nil
evaluator, or no macro and a non-nil error. It never returns a macro together
with an error, a macro without its AST or evaluator, or nothing at all. The one
run that does not return is the nil dereference of line 104, reached exactly
when the parser hands back a nil AST together with a nil error. -/
theorem NewMacro_atomic (d : Deps σ) (id expression : String) (model : σ.Model)
    (parsingContext : ParsingContext σ) (opts : σ.Opts) :
    (∃ m, NewMacro d id expression model parsingContext opts = Run.done (some m, none)
        ∧ m.ID = id ∧ m.Opts = opts
        ∧ m.GetAst.isSome = true ∧ m.GetEvaluator.isSome = true)
    ∨ (∃ e, NewMacro d id expression model parsingContext opts = Run.done (none, some e))
    ∨ (NewMacro d id expression model parsingContext opts = Run.panic
        ∧ parsingContext.ParseMacro expression = (none, none)) := by
  rcases hparse : parsingContext.ParseMacro expression with ⟨_ | mac, _ | e⟩
  · right; right
    refine ⟨?_, rfl⟩
    simp [NewMacro, Macro.Parse, hparse, Macro.GenEvaluator, macroToEvaluator]
  · right; left
    exact ⟨GoError.wrap "syntax error: " e, by simp [NewMacro, Macro.Parse, hparse]⟩
  · rcases NewMacro_of_parsed d id expression model parsingContext opts mac hparse
      with ⟨e, _, h⟩ | ⟨me, _, h⟩
    · right; left
      exact ⟨e, h⟩
    · left
      exact ⟨_, h, rfl, rfl, rfl, rfl⟩
  · right; left
    exact ⟨GoError.wrap "syntax error: " e, by simp [NewMacro, Macro.Parse, hparse]⟩

/-- The loop of `NewStringValuesMacro` appends the scalar field values of the
input strings, one per string and in input order. -/
theorem appendValues_eq_foldl (d : Deps σ) (values : List String)
    (evaluator : σ.StringValuesEvaluator) :
    appendValues d values evaluator
      = List.foldl d.AppendFieldValue evaluator (values.map scalarFieldValue) := by
  induction values generalizing evaluator with
  | nil => rfl
  | cons v vs ih =>
    simp only [appendValues, List.map_cons, List.foldl_cons]
    rw [ih]
    rfl

/-- What `NewStringValuesMacro` returns when it succeeds. -/
theorem NewStringValuesMacro_of_success (d : Deps σ) (id : String) (values : List String)
    (opts : σ.Opts) (m : Macro σ)
    (h : NewStringValuesMacro d id values opts = (some m, none)) :
    m = { ID := id
          Opts := opts
          evaluator := some {
            Value := Value.stringValues
              (d.Compile (appendValues d values d.zeroStringValuesEvaluator)
                d.DefaultStringCmpOpts).1
            EventType := ""
            fieldValues := GoMap.empty
            fields := [] }
          ast := none } := by
  unfold NewStringValuesMacro at h
  rcases hc : d.Compile (appendValues d values d.zeroStringValuesEvaluator)
      d.DefaultStringCmpOpts with ⟨ev, _ | e⟩
  · simp only [hc, Prod.mk.injEq, Option.some.injEq, and_true] at h
    exact h.symm
  · simp [hc] at h

/-- C5: when `NewStringValuesMacro` succeeds, the macro has `ID = id` and
`Opts = opts`, and the value of its evaluator is the `StringValuesEvaluator`
obtained from the zero evaluator by appending, in input order, one field value
`FieldValue{Type: ScalarValueType, Value: v}` per input string `v` (and then
compiled): each appended value is of kind scalar, none is dropped or
reordered. -/
theorem NewStringValuesMacro_appends_scalars (d : Deps σ) (id : String)
    (values : List String) (opts : σ.Opts) (m : Macro σ)
    (h : NewStringValuesMacro d id values opts = (some m, none)) :
    m.ID = id ∧ m.Opts = opts
      ∧ (∃ me, m.GetEvaluator = some me
          ∧ me.Value = Value.stringValues
              (d.Compile
                (List.foldl d.AppendFieldValue d.zeroStringValuesEvaluator
                  (values.map scalarFieldValue))
                d.DefaultStringCmpOpts).1)
      ∧ (values.map scalarFieldValue).length = values.length
      ∧ (∀ fv ∈ values.map scalarFieldValue, fv.«Type» = FieldValueType.ScalarValueType)
      ∧ (values.map scalarFieldValue).map FieldValue.Value = values.map GoValue.string := by
  have hm := NewStringValuesMacro_of_success d id values opts m h
  subst hm
  refine ⟨rfl, rfl, ⟨_, rfl, ?_⟩, ?_, ?_, ?_⟩
  · simp only [appendValues_eq_foldl]
  · simp
  · intro fv hfv
    simp only [List.mem_map] at hfv
    obtain ⟨v, _, rfl⟩ := hfv
    rfl
  · simp [scalarFieldValue, Function.comp_def]

/-- C5 on an instance: the macro built from the strings `"a"`, `"b"`, `"a"`. -/
theorem NewStringValuesMacro_appends_scalars_witness :
    NewStringValuesMacro (demoDeps (RangeOrder.id Field)) "names" ["a", "b", "a"] ()
        = (some { ID := "names"
                  Opts := ()
                  evaluator := some {
                    Value := Value.stringValues
                      [scalarFieldValue "a", scalarFieldValue "b", scalarFieldValue "a"]
                    EventType := ""
                    fieldValues := GoMap.empty
                    fields := [] }
                  ast := none }, none)
      ∧ ([("a" : String), "b", "a"].map scalarFieldValue).length = 3 :=
  ⟨rfl, (NewStringValuesMacro_appends_scalars (demoDeps (RangeOrder.id Field)) "names"
    ["a", "b", "a"] () _ rfl).2.2.2.1⟩

/-- C6: a macro returned by `NewStringValuesMacro` has no event type:
`GetEventType()` is the empty event type, `GetFields()` is empty and `GetAst()`
is nil. -/
theorem NewStringValuesMacro_has_no_event_type (d : Deps σ) (id : String)
    (values : List String) (opts : σ.Opts) (m : Macro σ)
    (h : NewStringValuesMacro d id values opts = (some m, none)) :
    m.GetEventType = Run.done "" ∧ m.GetFields = Run.done [] ∧ m.GetAst = none := by
  have hm := NewStringValuesMacro_of_success d id values opts m h
  subst hm
  exact ⟨rfl, rfl, rfl⟩

/-- C6 on an instance: the macro built from the strings `"a"`, `"b"`. -/
theorem NewStringValuesMacro_has_no_event_type_witness :
    ∃ m, NewStringValuesMacro (demoDeps (RangeOrder.id Field)) "names" ["a", "b"] ()
        = (some m, none)
      ∧ m.GetEventType = Run.done "" ∧ m.GetFields = Run.done [] ∧ m.GetAst = none :=
  ⟨_, rfl, NewStringValuesMacro_has_no_event_type (demoDeps (RangeOrder.id Field)) "names"
    ["a", "b"] () _ rfl⟩

/-- The result of `KeysOfMap` is an enumeration of the stored keys. -/
theorem KeysOfMap_perm {K V : Type} (order : RangeOrder K) (m : GoMap K V) :
    (KeysOfMap order m).Perm m.keys :=
  order.perm m.keys

theorem KeysOfMap_nodup {K V : Type} (order : RangeOrder K) (m : GoMap K V) :
    (KeysOfMap order m).Nodup :=
  order.nodup_visit m.keys m.nodup

theorem mem_KeysOfMap {K V : Type} (order : RangeOrder K) (m : GoMap K V) (k : K) :
    k ∈ KeysOfMap order m ↔ k ∈ m.keys :=
  order.mem_visit m.keys k

theorem macroToEvaluator_of_node_error (d : Deps σ) (mac : AstMacro σ) (model : σ.Model)
    (opts : σ.Opts) (field : Field) (e : GoError)
    (herr : (macroNodeResult d mac model opts field).err = some e) :
    macroToEvaluator d (some mac) model opts field = Run.done (none, some e) := by
  simp only [macroNodeResult] at herr
  simp [macroToEvaluator, herr]

theorem macroToEvaluator_of_derive_error (d : Deps σ) (mac : AstMacro σ) (model : σ.Model)
    (opts : σ.Opts) (field : Field) (e : GoError)
    (herr : (macroNodeResult d mac model opts field).err = none)
    (hder : (d.eventTypeFromFields model (macroNodeResult d mac model opts field).state).2
      = some e) :
    macroToEvaluator d (some mac) model opts field = Run.done (none, some e) := by
  rcases macroToEvaluator_cases d mac model opts field with
    ⟨e1, h1, _⟩ | ⟨_, t, e1, h1, h⟩ | ⟨_, t, h1, _⟩
  · rw [herr] at h1
    cases h1
  · rw [h1] at hder
    cases hder
    exact h
  · rw [h1] at hder
    cases hder

theorem macroToEvaluator_of_ok (d : Deps σ) (mac : AstMacro σ) (model : σ.Model)
    (opts : σ.Opts) (field : Field)
    (herr : (macroNodeResult d mac model opts field).err = none)
    (hder : (d.eventTypeFromFields model (macroNodeResult d mac model opts field).state).2
      = none) :
    macroToEvaluator d (some mac) model opts field = Run.done (some {
      Value := (macroNodeResult d mac model opts field).eval
      EventType :=
        (d.eventTypeFromFields model (macroNodeResult d mac model opts field).state).1
      fieldValues := d.fieldValues (macroNodeResult d mac model opts field).state
      fields := KeysOfMap d.rangeOrder
        (d.fieldValues (macroNodeResult d mac model opts field).state) }, none) := by
  rcases macroToEvaluator_cases d mac model opts field with
    ⟨e1, h1, _⟩ | ⟨_, t, e1, h1, _⟩ | ⟨_, t, h1, h⟩
  · rw [herr] at h1
    cases h1
  · rw [h1] at hder
    cases hder
  · rw [h, h1]

/-- The evaluator returned by `macroToEvaluator`, when it returns one. -/
theorem macroToEvaluator_evaluator (d : Deps σ) (mac : Option (AstMacro σ))
    (model : σ.Model) (opts : σ.Opts) (field : Field) (me : MacroEvaluator σ)
    (h : macroToEvaluator d mac model opts field = Run.done (some me, none)) :
    ∃ a, mac = some a
      ∧ (macroNodeResult d a model opts field).err = none
      ∧ (d.eventTypeFromFields model (macroNodeResult d a model opts field).state).2 = none
      ∧ me = {
          Value := (macroNodeResult d a model opts field).eval
          EventType :=
            (d.eventTypeFromFields model (macroNodeResult d a model opts field).state).1
          fieldValues := d.fieldValues (macroNodeResult d a model opts field).state
          fields := KeysOfMap d.rangeOrder
            (d.fieldValues (macroNodeResult d a model opts field).state) } := by
  cases mac with
  | none =>
    rw [macroToEvaluator_nil] at h
    cases h
  | some a =>
    refine ⟨a, rfl, ?_⟩
    rcases macroToEvaluator_cases d a model opts field with
      ⟨e1, _, h1⟩ | ⟨_, t, e1, _, h1⟩ | ⟨herr, t, hder, h1⟩
    · rw [h1] at h
      cases h
    · rw [h1] at h
      cases h
    · rw [h1] at h
      simp only [Run.done.injEq, Prod.mk.injEq, Option.some.injEq, and_true] at h
      refine ⟨herr, by rw [hder], ?_⟩
      rw [hder]
      exact h.symm

/-- C7: in every `MacroEvaluator` returned by `macroToEvaluator`, `fields` is
the key set of `fieldValues`: a field is in `fields` iff it is a key of
`fieldValues`, every key occurs in `fields` exactly once, and `fields` holds no
field twice. -/
theorem macroToEvaluator_fields_is_key_set (d : Deps σ) (mac : Option (AstMacro σ))
    (model : σ.Model) (opts : σ.Opts) (field : Field) (me : MacroEvaluator σ)
    (h : macroToEvaluator d mac model opts field = Run.done (some me, none)) :
    me.fields.Nodup
      ∧ (∀ f, f ∈ me.fields ↔ (me.fieldValues.get? f).isSome = true)
      ∧ (∀ f, (me.fieldValues.get? f).isSome = true → me.fields.count f = 1) := by
  obtain ⟨a, _, _, _, hme⟩ := macroToEvaluator_evaluator d mac model opts field me h
  subst hme
  have hnd := KeysOfMap_nodup d.rangeOrder
    (d.fieldValues (macroNodeResult d a model opts field).state)
  refine ⟨hnd, ?_, ?_⟩
  · intro f
    rw [GoMap.get?_isSome_iff]
    exact mem_KeysOfMap _ _ f
  · intro f hf
    rw [GoMap.get?_isSome_iff] at hf
    exact List.count_eq_one_of_mem hnd ((mem_KeysOfMap _ _ f).mpr hf)

/-- C7 on an instance: an expression over `open.flags` and `open.file.path`,
compiled by a runtime that ranges over maps backwards. -/
theorem macroToEvaluator_fields_is_key_set_witness :
    ∃ me, macroToEvaluator (demoDeps (RangeOrder.reverse Field))
        (some (demoAst ["open.flags", "open.file.path", "open.flags"])) () () ""
        = Run.done (some me, none)
      ∧ me.fields = ["open.file.path", "open.flags"]
      ∧ me.fields.Nodup
      ∧ (∀ f, f ∈ me.fields ↔ (me.fieldValues.get? f).isSome = true)
      ∧ (∀ f, (me.fieldValues.get? f).isSome = true → me.fields.count f = 1) :=
  ⟨_, rfl, rfl, macroToEvaluator_fields_is_key_set (demoDeps (RangeOrder.reverse Field))
    (some (demoAst ["open.flags", "open.file.path", "open.flags"])) () () "" _ rfl⟩

theorem keys_recordField (m : GoMap Field (List FieldValue)) (f : Field) :
    (recordField m f).keys = noteField m.keys f := by
  unfold recordField noteField
  by_cases h : f ∈ m.keys
  · simp [h]
  · simp only [h, if_false]
    exact GoMap.keys_set_of_not_mem m f [] h

theorem keys_recordFields (refs : List Field) (m : GoMap Field (List FieldValue)) :
    (recordFields refs m).keys = refs.foldl noteField m.keys := by
  induction refs generalizing m with
  | nil => rfl
  | cons f fs ih =>
    simp only [recordFields, List.foldl_cons] at ih ⊢
    rw [ih, keys_recordField]

/-- The fields recorded from an empty state are the first-seen fields. -/
theorem keys_recordFields_empty (refs : List Field) :
    (recordFields refs GoMap.empty).keys = firstSeen refs :=
  keys_recordFields refs GoMap.empty

theorem mem_foldl_noteField (refs seen : List Field) (f : Field) :
    f ∈ refs.foldl noteField seen ↔ f ∈ seen ∨ f ∈ refs := by
  induction refs generalizing seen with
  | nil => simp
  | cons g gs ih =>
    simp only [List.foldl_cons, List.mem_cons]
    rw [ih]
    unfold noteField
    by_cases hg : g ∈ seen
    · simp only [hg, if_true]
      constructor
      · rintro (h | h)
        · exact Or.inl h
        · exact Or.inr (Or.inr h)
      · rintro (h | h | h)
        · exact Or.inl h
        · exact Or.inl (h ▸ hg)
        · exact Or.inr h
    · simp only [hg, if_false, List.mem_append, List.mem_singleton]
      tauto

/-- The first-seen fields are exactly the referenced fields. -/
theorem mem_firstSeen (refs : List Field) (f : Field) : f ∈ firstSeen refs ↔ f ∈ refs := by
  unfold firstSeen
  rw [mem_foldl_noteField]
  simp

/-- C8, as stated, fails: an expression references `open.flags` first and
`open.file.path` second; on a runtime whose `range` over the field-value map
meets `open.file.path` first, `macroToEvaluator` returns the fields in the
order `open.file.path`, `open.flags`, which is not the first-seen order. -/
theorem macroToEvaluator_fields_not_first_seen_order :
    ∃ me, macroToEvaluator (demoDeps (RangeOrder.reverse Field))
        (some (demoAst ["open.flags", "open.file.path"])) () () ""
        = Run.done (some me, none)
      ∧ (demoDeps (RangeOrder.reverse Field)).fieldValues
          (macroNodeResult (demoDeps (RangeOrder.reverse Field))
            (demoAst ["open.flags", "open.file.path"]) () () "").state
        = recordFields ["open.flags", "open.file.path"] GoMap.empty
      ∧ firstSeen ["open.flags", "open.file.path"] = ["open.flags", "open.file.path"]
      ∧ MacroEvaluator.GetFields (some me) = Run.done ["open.file.path", "open.flags"]
      ∧ me.fields ≠ firstSeen ["open.flags", "open.file.path"] :=
  ⟨_, rfl, rfl, rfl, rfl, by decide⟩

theorem keys_recordReference (m : GoMap Field (List FieldValue)) (ref : FieldReference) :
    (recordReference m ref).keys = noteField m.keys ref.field := by
  unfold recordReference
  cases ref.literal with
  | none => exact keys_recordField m ref.field
  | some value =>
    have hmem : ref.field ∈ (recordField m ref.field).keys := by
      rw [keys_recordField]
      unfold noteField
      by_cases h : ref.field ∈ m.keys
      · simp [h]
      · simp [h]
    simp only
    rw [GoMap.keys_set_of_mem _ _ _ hmem, keys_recordField]

theorem keys_recordReferences (refs : List FieldReference)
    (m : GoMap Field (List FieldValue)) :
    (recordReferences refs m).keys = (refs.map FieldReference.field).foldl noteField m.keys := by
  induction refs generalizing m with
  | nil => rfl
  | cons r rs ih =>
    simp only [recordReferences, List.foldl_cons, List.map_cons] at ih ⊢
    rw [ih, keys_recordReference]

/-- The fields that have an entry in a state recorded from the empty state are
the fields of the recorded references, with or without literals. -/
theorem mem_recordReferences_empty (refs : List FieldReference) (f : Field) :
    ((recordReferences refs GoMap.empty).get? f).isSome = true
      ↔ f ∈ refs.map FieldReference.field := by
  rw [GoMap.get?_isSome_iff, keys_recordReferences]
  exact mem_firstSeen (refs.map FieldReference.field) f

theorem nodup_foldl_noteField (refs seen : List Field) (h : seen.Nodup) :
    (refs.foldl noteField seen).Nodup := by
  induction refs generalizing seen with
  | nil => exact h
  | cons g gs ih =>
    simp only [List.foldl_cons]
    apply ih
    unfold noteField
    by_cases hg : g ∈ seen
    · simp only [hg, if_true]
      exact h
    · simp only [hg, if_false]
      rw [List.nodup_append]
      refine ⟨h, List.nodup_singleton g, ?_⟩
      intro a ha hb
      simp only [List.mem_singleton] at hb
      subst hb
      exact hg ha

/-- The first-seen sequence holds no field twice. -/
theorem nodup_firstSeen (refs : List Field) : (firstSeen refs).Nodup :=
  nodup_foldl_noteField refs [] List.nodup_nil

/-- C8, amended: let `refs` be the sequence of the fields referenced during
the compilation, in the order of the references, so that the fields with an
entry in the field-value map of the returned `MacroEvaluator` are the members
of `refs`, whatever literal values the entries hold. Then the fields of the
evaluator, as returned by `GetFields`, are the fields referenced during
compilation, each exactly once, in the unspecified order of a `range` over the
field-value map: they are a permutation of the first-seen sequence. -/
theorem macroToEvaluator_fields_perm_first_seen (d : Deps σ) (mac : Option (AstMacro σ))
    (model : σ.Model) (opts : σ.Opts) (field : Field) (refs : List Field)
    (me : MacroEvaluator σ)
    (h : macroToEvaluator d mac model opts field = Run.done (some me, none))
    (hrefs : ∀ f, f ∈ refs ↔ (me.fieldValues.get? f).isSome = true) :
    me.fields.Perm (firstSeen refs)
      ∧ me.fields.Nodup
      ∧ (∀ f, f ∈ me.fields ↔ f ∈ refs)
      ∧ MacroEvaluator.GetFields (some me) = Run.done me.fields := by
  obtain ⟨a, _, _, _, hme⟩ := macroToEvaluator_evaluator d mac model opts field me h
  subst hme
  have hnd := KeysOfMap_nodup d.rangeOrder
    (d.fieldValues (macroNodeResult d a model opts field).state)
  have hmem : ∀ f, f ∈ KeysOfMap d.rangeOrder
      (d.fieldValues (macroNodeResult d a model opts field).state) ↔ f ∈ refs := by
    intro f
    rw [mem_KeysOfMap, hrefs f, GoMap.get?_isSome_iff]
  refine ⟨?_, hnd, hmem, rfl⟩
  rw [List.perm_ext_iff_of_nodup hnd (nodup_firstSeen refs)]
  intro f
  rw [hmem f, mem_firstSeen]

/-- C8, amended, on an instance whose compilation records literals: the
expression compares `open.flags`, `open.file.path` and `open.flags` again
against a literal; the value list of `open.flags` holds the literal twice, and
the fields come back as a permutation of the first-seen sequence
`open.flags`, `open.file.path`. -/
theorem macroToEvaluator_fields_perm_first_seen_witness :
    ∃ me, macroToEvaluator (demoComparingDeps (RangeOrder.reverse Field))
        (some (demoAst ["open.flags", "open.file.path", "open.flags"])) () () ""
        = Run.done (some me, none)
      ∧ me.fieldValues.get? "open.flags" = some [demoLiteral, demoLiteral]
      ∧ me.fields.Perm (firstSeen ["open.flags", "open.file.path", "open.flags"])
      ∧ me.fields.Nodup
      ∧ (∀ f, f ∈ me.fields ↔ f ∈ ["open.flags", "open.file.path", "open.flags"])
      ∧ MacroEvaluator.GetFields (some me) = Run.done me.fields :=
  ⟨_, rfl, rfl,
    macroToEvaluator_fields_perm_first_seen (demoComparingDeps (RangeOrder.reverse Field))
      (some (demoAst ["open.flags", "open.file.path", "open.flags"])) () () ""
      ["open.flags", "open.file.path", "open.flags"] _ rfl
      (fun f => (mem_recordReferences_empty
        [{ field := "open.flags", literal := some demoLiteral },
          { field := "open.file.path", literal := some demoLiteral },
          { field := "open.flags", literal := some demoLiteral }] f).symm)⟩

/-- The outcome of `macroToEvaluator` in terms of the result of its switch and
of the event-type derivation. -/
theorem macroToEvaluator_steps (d : Deps σ) (mac : AstMacro σ) (model : σ.Model)
    (opts : σ.Opts) (field : Field) :
    ((∃ me, macroToEvaluator d (some mac) model opts field = Run.done (some me, none))
        ↔ ((macroNodeResult d mac model opts field).err = none
          ∧ (d.eventTypeFromFields model (macroNodeResult d mac model opts field).state).2
            = none))
      ∧ (∀ me, macroToEvaluator d (some mac) model opts field = Run.done (some me, none) →
          me.EventType
            = (d.eventTypeFromFields model (macroNodeResult d mac model opts field).state).1)
      ∧ (∀ e, (macroNodeResult d mac model opts field).err = some e →
          macroToEvaluator d (some mac) model opts field = Run.done (none, some e)
          ∧ ∀ derive, macroToEvaluator (d.withEventTypeFromFields derive) (some mac) model
              opts field = Run.done (none, some e))
      ∧ (∀ e, (macroNodeResult d mac model opts field).err = none →
          (d.eventTypeFromFields model (macroNodeResult d mac model opts field).state).2
            = some e →
          macroToEvaluator d (some mac) model opts field = Run.done (none, some e)) := by
  refine ⟨⟨?_, ?_⟩, ?_, ?_, ?_⟩
  · rintro ⟨me, h⟩
    obtain ⟨a, ha, herr, hder, _⟩ := macroToEvaluator_evaluator d (some mac) model opts field me h
    cases ha
    exact ⟨herr, hder⟩
  · rintro ⟨herr, hder⟩
    exact ⟨_, macroToEvaluator_of_ok d mac model opts field herr hder⟩
  · intro me h
    obtain ⟨a, ha, _, _, hme⟩ := macroToEvaluator_evaluator d (some mac) model opts field me h
    cases ha
    rw [hme]
  · intro e herr
    refine ⟨macroToEvaluator_of_node_error d mac model opts field e herr, ?_⟩
    intro derive
    exact macroToEvaluator_of_node_error (d.withEventTypeFromFields derive) mac model opts
      field e herr
  · intro e herr hder
    exact macroToEvaluator_of_derive_error d mac model opts field e herr hder

/-- The switch of `macroToEvaluator` hands the first node of the macro AST
that is not nil to `nodeToEvaluator`, with the new state, and takes over its
result. -/
theorem macroNodeResult_of_first_node (d : Deps σ) (mac : AstMacro σ) (model : σ.Model)
    (opts : σ.Opts) (field : Field) (node : Node σ)
    (hnode : (∃ e, mac.Expression = some e ∧ node = Node.Expression e)
      ∨ (∃ a, mac.Expression = none ∧ mac.Array = some a ∧ node = Node.Array a)
      ∨ (∃ p, mac.Expression = none ∧ mac.Array = none ∧ mac.Primary = some p
          ∧ node = Node.Primary p)) :
    macroNodeResult d mac model opts field
      = d.nodeToEvaluator node opts (d.NewState model field (d.MacroStore opts)) := by
  rcases hnode with ⟨e, he, rfl⟩ | ⟨a, he, ha, rfl⟩ | ⟨p, he, ha, hp, rfl⟩
  · simp [macroNodeResult, compileMacroNode, he]
  · simp [macroNodeResult, compileMacroNode, he, ha]
  · simp [macroNodeResult, compileMacroNode, he, ha, hp]

/-- With no node set, the switch of `macroToEvaluator` compiles nothing: no
error, and the state is the new state. -/
theorem macroNodeResult_of_no_node (d : Deps σ) (mac : AstMacro σ) (model : σ.Model)
    (opts : σ.Opts) (field : Field) (he : mac.Expression = none) (ha : mac.Array = none)
    (hp : mac.Primary = none) :
    (macroNodeResult d mac model opts field).err = none
      ∧ (macroNodeResult d mac model opts field).state
        = d.NewState model field (d.MacroStore opts) := by
  simp [macroNodeResult, compileMacroNode, he, ha, hp]

/-- C9: `macroToEvaluator` returns an evaluator iff the compilation of the node
and the event-type derivation both succeed. Let `node` be the node of the
macro AST that is compiled (the expression node, else the array node, else the
primary node) and `r` the result of `nodeToEvaluator` on it with the new
state. (1) An evaluator is returned iff `r` carries no error and
`eventTypeFromFields`, applied to the state that `nodeToEvaluator` left,
returns no error; (2) the evaluator then carries the event type that
`eventTypeFromFields` derives from that state; (3) when `nodeToEvaluator`
fails, its error is returned unchanged with no evaluator, whatever the
derivation would do (it is not attempted); (4) when the derivation fails, its
error is returned unchanged with no evaluator. For a macro AST with no node
set nothing is compiled, and the same holds of the derivation from the new
state. -/
theorem macroToEvaluator_returns_iff (d : Deps σ) (mac : AstMacro σ) (model : σ.Model)
    (opts : σ.Opts) (field : Field) :
    (∀ node r,
        ((∃ e, mac.Expression = some e ∧ node = Node.Expression e)
          ∨ (∃ a, mac.Expression = none ∧ mac.Array = some a ∧ node = Node.Array a)
          ∨ (∃ p, mac.Expression = none ∧ mac.Array = none ∧ mac.Primary = some p
              ∧ node = Node.Primary p)) →
        r = d.nodeToEvaluator node opts (d.NewState model field (d.MacroStore opts)) →
        ((∃ me, macroToEvaluator d (some mac) model opts field = Run.done (some me, none))
            ↔ (r.err = none ∧ (d.eventTypeFromFields model r.state).2 = none))
          ∧ (∀ me, macroToEvaluator d (some mac) model opts field = Run.done (some me, none) →
              me.EventType = (d.eventTypeFromFields model r.state).1)
          ∧ (∀ e, r.err = some e →
              macroToEvaluator d (some mac) model opts field = Run.done (none, some e)
              ∧ ∀ derive, macroToEvaluator (d.withEventTypeFromFields derive) (some mac) model
                  opts field = Run.done (none, some e))
          ∧ (∀ e, r.err = none → (d.eventTypeFromFields model r.state).2 = some e →
              macroToEvaluator d (some mac) model opts field = Run.done (none, some e)))
      ∧ (mac.Expression = none → mac.Array = none → mac.Primary = none →
          ((∃ me, macroToEvaluator d (some mac) model opts field = Run.done (some me, none))
            ↔ (d.eventTypeFromFields model
                (d.NewState model field (d.MacroStore opts))).2 = none)
          ∧ (∀ me, macroToEvaluator d (some mac) model opts field = Run.done (some me, none) →
              me.EventType = (d.eventTypeFromFields model
                (d.NewState model field (d.MacroStore opts))).1)
          ∧ (∀ e, (d.eventTypeFromFields model
                (d.NewState model field (d.MacroStore opts))).2 = some e →
              macroToEvaluator d (some mac) model opts field = Run.done (none, some e))) := by
  obtain ⟨h1, h2, h3, h4⟩ := macroToEvaluator_steps d mac model opts field
  constructor
  · intro node r hnode hr
    have hres := macroNodeResult_of_first_node d mac model opts field node hnode
    rw [hres, ← hr] at h1 h2 h4
    refine ⟨h1, h2, ?_, h4⟩
    intro e herr
    have herr2 : (macroNodeResult d mac model opts field).err = some e := by
      rw [hres, ← hr]
      exact herr
    refine ⟨macroToEvaluator_of_node_error d mac model opts field e herr2, ?_⟩
    intro derive
    have hres2 := macroNodeResult_of_first_node (d.withEventTypeFromFields derive) mac model
      opts field node hnode
    have herr3 : (macroNodeResult (d.withEventTypeFromFields derive) mac model opts
        field).err = some e := by
      rw [hres2]
      rw [hr] at herr
      exact herr
    exact macroToEvaluator_of_node_error (d.withEventTypeFromFields derive) mac model opts
      field e herr3
  · intro he ha hp
    obtain ⟨herr, hstate⟩ := macroNodeResult_of_no_node d mac model opts field he ha hp
    rw [hstate] at h1 h2 h4
    refine ⟨?_, h2, ?_⟩
    · rw [h1]
      constructor
      · intro h
        exact h.2
      · intro h
        exact ⟨herr, h⟩
    · intro e hder
      exact h4 e herr hder

/-- C9 on an instance: the expression references the field `unknown`, the
node compiler fails at position 1:1, and `macroToEvaluator` returns that error
unchanged and no evaluator; an expression over `open.flags` compiles, the
derivation succeeds, and the evaluator carries the derived event type `open`. -/
theorem macroToEvaluator_returns_iff_witness :
    macroToEvaluator (demoDeps (RangeOrder.id Field)) (some (demoAst ["unknown"])) () () ""
        = Run.done (none, some (GoError.ErrAstToEval ⟨1, 1⟩ "unknown"))
      ∧ ((∃ me, macroToEvaluator (demoDeps (RangeOrder.id Field))
            (some (demoAst ["open.flags"])) () () "" = Run.done (some me, none))
          ↔ ((demoNodeToEvaluator (Node.Expression ["open.flags"]) () GoMap.empty).err = none
            ∧ ((demoDeps (RangeOrder.id Field)).eventTypeFromFields ()
                (demoNodeToEvaluator (Node.Expression ["open.flags"]) ()
                  GoMap.empty).state).2 = none)) :=
  ⟨(((macroToEvaluator_returns_iff (demoDeps (RangeOrder.id Field)) (demoAst ["unknown"])
      () () "").1 (Node.Expression ["unknown"]) _ (Or.inl ⟨["unknown"], rfl, rfl⟩) rfl).2.2.1
      (GoError.ErrAstToEval ⟨1, 1⟩ "unknown") rfl).1,
    ((macroToEvaluator_returns_iff (demoDeps (RangeOrder.id Field)) (demoAst ["open.flags"])
      () () "").1 (Node.Expression ["open.flags"]) _ (Or.inl ⟨["open.flags"], rfl, rfl⟩)
      rfl).1⟩

/-- When the derivation succeeds with event type `T`, every field that is not
cross-type declares `T`, and so does the event type met before. -/
theorem deriveEventType_ok (eventTypeOf : Field → EventType) (crossType : Field → Bool)
    (fs : List Field) (cur : Option EventType) (T : EventType)
    (h : deriveEventType eventTypeOf crossType fs cur = (T, none)) :
    (∀ t, cur = some t → t = T) ∧ ∀ f ∈ fs, crossType f = false → eventTypeOf f = T := by
  induction fs generalizing cur with
  | nil =>
    cases cur with
    | none => simp
    | some t =>
      simp only [deriveEventType, Prod.mk.injEq, and_true] at h
      simp [h]
  | cons g gs ih =>
    by_cases hc : crossType g = true
    · simp only [deriveEventType, hc, if_true] at h
      obtain ⟨h1, h2⟩ := ih cur h
      refine ⟨h1, ?_⟩
      intro f hf hfc
      rcases List.mem_cons.mp hf with rfl | hf
      · rw [hc] at hfc
        cases hfc
      · exact h2 f hf hfc
    · cases cur with
      | none =>
        simp only [deriveEventType, hc, if_false] at h
        obtain ⟨h1, h2⟩ := ih _ h
        refine ⟨by simp, ?_⟩
        intro f hf hfc
        rcases List.mem_cons.mp hf with rfl | hf
        · exact h1 _ rfl
        · exact h2 f hf hfc
      | some t =>
        by_cases ht : eventTypeOf g = t
        · simp only [deriveEventType, hc, if_false, ht, if_true] at h
          obtain ⟨h1, h2⟩ := ih _ h
          refine ⟨h1, ?_⟩
          intro f hf hfc
          rcases List.mem_cons.mp hf with rfl | hf
          · rw [ht]
            exact h1 _ rfl
          · exact h2 f hf hfc
        · simp [deriveEventType, hc, ht] at h

/-- When every field that is not cross-type declares `T` and there is such a
field (or `T` was met before), the derivation succeeds with `T`. -/
theorem deriveEventType_same (eventTypeOf : Field → EventType) (crossType : Field → Bool)
    (fs : List Field) (cur : Option EventType) (T : EventType)
    (hall : ∀ f ∈ fs, crossType f = false → eventTypeOf f = T)
    (hcur : ∀ t, cur = some t → t = T)
    (hne : cur = some T ∨ ∃ f ∈ fs, crossType f = false) :
    deriveEventType eventTypeOf crossType fs cur = (T, none) := by
  induction fs generalizing cur with
  | nil =>
    rcases hne with rfl | ⟨f, hf, _⟩
    · rfl
    · cases hf
  | cons g gs ih =>
    have hall2 : ∀ f ∈ gs, crossType f = false → eventTypeOf f = T :=
      fun f hf => hall f (List.mem_cons_of_mem g hf)
    by_cases hc : crossType g = true
    · simp only [deriveEventType, hc, if_true]
      apply ih cur hall2 hcur
      rcases hne with h | ⟨f, hf, hfc⟩
      · exact Or.inl h
      · rcases List.mem_cons.mp hf with rfl | hf
        · rw [hc] at hfc
          cases hfc
        · exact Or.inr ⟨f, hf, hfc⟩
    · have hg : eventTypeOf g = T := hall g (List.mem_cons_self g gs) (by simpa using hc)
      cases cur with
      | none =>
        simp only [deriveEventType, hc, if_false]
        apply ih _ hall2
        · intro t ht
          cases ht
          exact hg
        · exact Or.inl (by rw [hg])
      | some t =>
        have ht : t = T := hcur t rfl
        subst ht
        simp only [deriveEventType, hc, if_false, hg, if_true]
        exact ih _ hall2 hcur (Or.inl rfl)

/-- Two fields that are not cross-type and declare different event types make
the derivation fail. -/
theorem deriveEventType_conflict (eventTypeOf : Field → EventType) (crossType : Field → Bool)
    (fs : List Field) (cur : Option EventType)
    (h : ∃ f ∈ fs, ∃ g ∈ fs, crossType f = false ∧ crossType g = false
      ∧ eventTypeOf f ≠ eventTypeOf g) :
    ∃ e, (deriveEventType eventTypeOf crossType fs cur).2 = some e := by
  obtain ⟨f, hf, g, hg, hfc, hgc, hne⟩ := h
  rcases hres : deriveEventType eventTypeOf crossType fs cur with ⟨T, _ | e⟩
  · exfalso
    obtain ⟨_, h2⟩ := deriveEventType_ok eventTypeOf crossType fs cur T hres
    exact hne ((h2 f hf hfc).trans (h2 g hg hgc).symm)
  · exact ⟨e, rfl⟩

/-- C10: with the event-type derivation of the specification, (1) when the
node compilation succeeds and the fields it recorded that are not cross-type
all declare event type `T` (and there is one), `NewMacro` returns a macro whose
evaluator has event type `T`; (2) when two recorded fields that are not
cross-type declare different event types, `NewMacro` returns an error and no
macro. -/
theorem NewMacro_event_type (d : Deps σ) (fieldEventType : σ.Model → Field → EventType)
    (crossType : σ.Model → Field → Bool) (id expression : String) (model : σ.Model)
    (parsingContext : ParsingContext σ) (opts : σ.Opts) (mac : AstMacro σ)
    (hparse : parsingContext.ParseMacro expression = (some mac, none)) :
    (∀ T, (macroNodeResult d mac model opts "").err = none →
        (∃ f ∈ (d.fieldValues (macroNodeResult d mac model opts "").state).keys,
          crossType model f = false) →
        (∀ f ∈ (d.fieldValues (macroNodeResult d mac model opts "").state).keys,
          crossType model f = false → fieldEventType model f = T) →
        ∃ m me, NewMacro (d.withSpecEventType fieldEventType crossType) id expression model
            parsingContext opts = Run.done (some m, none)
          ∧ m.GetEvaluator = some me ∧ me.EventType = T ∧ m.GetEventType = Run.done T)
      ∧ ((∃ f ∈ (d.fieldValues (macroNodeResult d mac model opts "").state).keys,
          ∃ g ∈ (d.fieldValues (macroNodeResult d mac model opts "").state).keys,
            crossType model f = false ∧ crossType model g = false
            ∧ fieldEventType model f ≠ fieldEventType model g) →
        ∃ e, NewMacro (d.withSpecEventType fieldEventType crossType) id expression model
            parsingContext opts = Run.done (none, some e)) := by
  have hnode : macroNodeResult (d.withSpecEventType fieldEventType crossType) mac model opts ""
      = macroNodeResult d mac model opts "" := rfl
  have hder : (d.withSpecEventType fieldEventType crossType).eventTypeFromFields model
      (macroNodeResult d mac model opts "").state
      = deriveEventType (fieldEventType model) (crossType model)
          (KeysOfMap d.rangeOrder (d.fieldValues (macroNodeResult d mac model opts "").state))
          none := rfl
  constructor
  · intro T herr hex hall
    have hT : deriveEventType (fieldEventType model) (crossType model)
        (KeysOfMap d.rangeOrder (d.fieldValues (macroNodeResult d mac model opts "").state))
        none = (T, none) := by
      apply deriveEventType_same
      · intro f hf hfc
        exact hall f ((mem_KeysOfMap _ _ f).mp hf) hfc
      · intro t ht
        cases ht
      · obtain ⟨f, hf, hfc⟩ := hex
        exact Or.inr ⟨f, (mem_KeysOfMap _ _ f).mpr hf, hfc⟩
    have hok := macroToEvaluator_of_ok (d.withSpecEventType fieldEventType crossType) mac
      model opts "" herr (by rw [hnode, hder, hT])
    rcases NewMacro_of_parsed (d.withSpecEventType fieldEventType crossType) id expression
        model parsingContext opts mac hparse with ⟨e, ⟨x, e0, hx⟩, _⟩ | ⟨me, hme, hnew⟩
    · rw [hok] at hx
      cases hx
    · refine ⟨_, me, hnew, rfl, ?_, ?_⟩
      · rw [hok] at hme
        simp only [Run.done.injEq, Prod.mk.injEq, Option.some.injEq, and_true] at hme
        rw [← hme, hnode, hder, hT]
      · rw [hok] at hme
        simp only [Run.done.injEq, Prod.mk.injEq, Option.some.injEq, and_true] at hme
        simp only [Macro.GetEventType]
        rw [← hme, hnode, hder, hT]
  · intro hconf
    have herr : ∃ e, (deriveEventType (fieldEventType model) (crossType model)
        (KeysOfMap d.rangeOrder (d.fieldValues (macroNodeResult d mac model opts "").state))
        none).2 = some e := by
      apply deriveEventType_conflict
      obtain ⟨f, hf, g, hg, rest⟩ := hconf
      exact ⟨f, (mem_KeysOfMap _ _ f).mpr hf, g, (mem_KeysOfMap _ _ g).mpr hg, rest⟩
    obtain ⟨e0, he0⟩ := herr
    rcases NewMacro_of_parsed (d.withSpecEventType fieldEventType crossType) id expression
        model parsingContext opts mac hparse with ⟨e, _, hnew⟩ | ⟨me, hme, _⟩
    · exact ⟨e, hnew⟩
    · exfalso
      obtain ⟨a, ha, _, hd2, _⟩ := macroToEvaluator_evaluator _ _ _ _ _ _ hme
      cases ha
      rw [hnode, hder, he0] at hd2
      cases hd2

/-- C10 on an instance: an expression over two fields of event type `open`
compiles to a macro of event type `open`; an expression over a field of event
type `open` and a field of event type `exec` does not compile. -/
theorem NewMacro_event_type_witness :
    demoParsingContext.ParseMacro "open.flags > 0 && open.file.path in paths"
        = (some (demoAst ["open.flags", "open.file.path"]), none)
      ∧ (∃ m me, NewMacro ((demoDeps (RangeOrder.id Field)).withSpecEventType
              (fun _ => demoEventTypeOf) (fun _ => demoCrossType))
            "m" "open.flags > 0 && open.file.path in paths" () demoParsingContext ()
            = Run.done (some m, none)
          ∧ m.GetEvaluator = some me ∧ me.EventType = "open"
          ∧ m.GetEventType = Run.done "open")
      ∧ (∃ e, NewMacro ((demoDeps (RangeOrder.id Field)).withSpecEventType
              (fun _ => demoEventTypeOf) (fun _ => demoCrossType))
            "m" "open.flags > 0 && exec.file.path in paths" () demoParsingContext ()
            = Run.done (none, some e)) := by
  refine ⟨rfl, ?_, ?_⟩
  · refine (NewMacro_event_type (demoDeps (RangeOrder.id Field)) (fun _ => demoEventTypeOf)
      (fun _ => demoCrossType) "m" "open.flags > 0 && open.file.path in paths" ()
      demoParsingContext () (demoAst ["open.flags", "open.file.path"]) rfl).1 "open" rfl
      ⟨"open.flags", ?_, rfl⟩ ?_
    · show "open.flags" ∈ ["open.flags", "open.file.path"]
      decide
    · intro f hf _
      have hf2 : f ∈ ["open.flags", "open.file.path"] := hf
      simp only [List.mem_cons, List.mem_singleton, List.not_mem_nil, or_false] at hf2
      rcases hf2 with rfl | rfl
      · rfl
      · rfl
  · refine (NewMacro_event_type (demoDeps (RangeOrder.id Field)) (fun _ => demoEventTypeOf)
      (fun _ => demoCrossType) "m" "open.flags > 0 && exec.file.path in paths" ()
      demoParsingContext () (demoAst ["open.flags", "exec.file.path"]) rfl).2
      ⟨"open.flags", ?_, "exec.file.path", ?_, rfl, rfl, by decide⟩
    · show "open.flags" ∈ ["open.flags", "exec.file.path"]
      decide
    · show "exec.file.path" ∈ ["open.flags", "exec.file.path"]
      decide

end eval

/-! ## Theorems: custom rules -/

namespace events

/-- C11, evaluated on the code: the list returned by `AllCustomRuleIDs` holds
eight of the ten declared rule IDs; `heartbeat` and `ebpfless_hello_msg` are
declared but not in the list. -/
theorem AllCustomRuleIDs_misses_two_declared_ids :
    AllCustomRuleIDs = ["ruleset_loaded", "abnormal_path", "self_test", "anomaly_detection",
        "no_process_context", "broken_process_lineage", "internal_core_dump",
        "sysctl_snapshot"]
      ∧ HeartbeatRuleID ∈ declaredRuleIDs ∧ HeartbeatRuleID ∉ AllCustomRuleIDs
      ∧ EBPFLessHelloMessageRuleID ∈ declaredRuleIDs
      ∧ EBPFLessHelloMessageRuleID ∉ AllCustomRuleIDs
      ∧ (∀ id ∈ declaredRuleIDs, id ∈ AllCustomRuleIDs
          ∨ id = HeartbeatRuleID ∨ id = EBPFLessHelloMessageRuleID) := by
  refine ⟨rfl, ?_, ?_, ?_, ?_, ?_⟩ <;> decide

/-- C12: `NewCustomRule(id, description)` returns a rule whose evaluation rule
and whose policy definition both carry the ID `id`, so that the two IDs agree,
and whose definition carries the description `description`. -/
theorem NewCustomRule_ids_agree (id description : String) :
    ∃ r p d, (NewCustomRule id description).Rule = some r
      ∧ (NewCustomRule id description).PolicyRule = some p
      ∧ p.Def = some d
      ∧ r.ID = id ∧ d.ID = id ∧ r.ID = d.ID ∧ d.Description = description :=
  ⟨_, _, _, rfl, rfl, rfl, rfl, rfl, rfl, rfl⟩

end events

/-! ## Theorems: error messages and stages of `NewMacro` -/

theorem hasPrefix_append (pfx rest : String) : hasPrefix (pfx ++ rest) pfx = true := by
  simp [hasPrefix, String.data_append, List.isPrefixOf_iff_prefix]

theorem hasPrefix_syntax_compilation (rest : String) :
    hasPrefix ("syntax error: " ++ rest) "compilation error: " = false := by
  simp [hasPrefix, String.data_append, List.isPrefixOf]

theorem hasPrefix_compilation_syntax (rest : String) :
    hasPrefix ("compilation error: " ++ rest) "syntax error: " = false := by
  simp [hasPrefix, String.data_append, List.isPrefixOf]

theorem GoError.Error_wrap (leaf : GoError → String) (pfx : String) (e : GoError) :
    (GoError.wrap pfx e).Error leaf = pfx ++ e.Error leaf := by
  simp [GoError.Error]

namespace eval

variable {σ : Sig}

/-- What `NewMacro` returns when the parser reports an error. -/
theorem NewMacro_of_parse_error (d : Deps σ) (id expression : String) (model : σ.Model)
    (parsingContext : ParsingContext σ) (opts : σ.Opts) (a : Option (AstMacro σ))
    (e : GoError) (hparse : parsingContext.ParseMacro expression = (a, some e)) :
    NewMacro d id expression model parsingContext opts
      = Run.done (none, some (GoError.wrap "syntax error: " e)) := by
  simp [NewMacro, Macro.Parse, hparse]

/-- The macro handed to `GenEvaluator` by `NewMacro` when the parser reports no
error. -/
theorem Parse_of_no_error (id expression : String) (parsingContext : ParsingContext σ)
    (opts : σ.Opts) (a : Option (AstMacro σ))
    (hparse : parsingContext.ParseMacro expression = (a, none)) :
    Macro.Parse { ID := id, Opts := opts, evaluator := none, ast := none } parsingContext
        expression
      = (({ ID := id, Opts := opts, evaluator := none, ast := a } : Macro σ), none) := by
  simp [Macro.Parse, hparse]

/-- What `NewMacro` returns when the parser reports no error: the outcome of
`GenEvaluator` on the parsed macro decides. -/
theorem NewMacro_of_parse_ok (d : Deps σ) (id expression : String) (model : σ.Model)
    (parsingContext : ParsingContext σ) (opts : σ.Opts) (a : Option (AstMacro σ))
    (hparse : parsingContext.ParseMacro expression = (a, none)) :
    (Macro.GenEvaluator d { ID := id, Opts := opts, evaluator := none, ast := a } expression
          model = Run.panic
        ∧ NewMacro d id expression model parsingContext opts = Run.panic)
    ∨ (∃ m e, Macro.GenEvaluator d { ID := id, Opts := opts, evaluator := none, ast := a }
            expression model = Run.done (m, some e)
        ∧ NewMacro d id expression model parsingContext opts
          = Run.done (none, some (GoError.wrap "compilation error: " e)))
    ∨ (∃ m, Macro.GenEvaluator d { ID := id, Opts := opts, evaluator := none, ast := a }
            expression model = Run.done (m, none)
        ∧ NewMacro d id expression model parsingContext opts = Run.done (some m, none)) := by
  have hp := Parse_of_no_error id expression parsingContext opts a hparse
  rcases hg : Macro.GenEvaluator d { ID := id, Opts := opts, evaluator := none, ast := a }
      expression model with ⟨m, _ | e⟩ | _
  · right; right
    exact ⟨m, rfl, by simp [NewMacro, hp, hg]⟩
  · right; left
    exact ⟨m, e, rfl, by simp [NewMacro, hp, hg]⟩
  · left
    exact ⟨rfl, by simp [NewMacro, hp, hg]⟩

/-- C18: `NewMacro` classifies its failures by stage. (1) When the parser
reports an error `e`, `NewMacro` returns `fmt.Errorf("syntax error: %w", e)`:
the message starts with `"syntax error: "`, the error wraps `e`, and the
result does not depend on the evaluator generation, which is not attempted.
(2) When the parser reports no error and `GenEvaluator` fails with `e`,
`NewMacro` returns `fmt.Errorf("compilation error: %w", e)`. (3) An error
whose message starts with `"syntax error: "` is returned exactly when parsing
fails, and one whose message starts with `"compilation error: "` exactly when
parsing succeeds and `GenEvaluator` fails. -/
theorem NewMacro_error_stages (d : Deps σ) (leaf : GoError → String) (id expression : String)
    (model : σ.Model) (parsingContext : ParsingContext σ) (opts : σ.Opts) :
    (∀ a e, parsingContext.ParseMacro expression = (a, some e) →
        NewMacro d id expression model parsingContext opts
          = Run.done (none, some (GoError.wrap "syntax error: " e))
        ∧ hasPrefix ((GoError.wrap "syntax error: " e).Error leaf) "syntax error: " = true
        ∧ (GoError.wrap "syntax error: " e).Unwrap = some e
        ∧ ∀ d2 : Deps σ, NewMacro d2 id expression model parsingContext opts
            = NewMacro d id expression model parsingContext opts)
      ∧ (∀ a m e, parsingContext.ParseMacro expression = (a, none) →
          Macro.GenEvaluator d { ID := id, Opts := opts, evaluator := none, ast := a }
            expression model = Run.done (m, some e) →
          NewMacro d id expression model parsingContext opts
            = Run.done (none, some (GoError.wrap "compilation error: " e))
          ∧ hasPrefix ((GoError.wrap "compilation error: " e).Error leaf)
              "compilation error: " = true
          ∧ (GoError.wrap "compilation error: " e).Unwrap = some e)
      ∧ ((∃ e, NewMacro d id expression model parsingContext opts = Run.done (none, some e)
            ∧ hasPrefix (e.Error leaf) "syntax error: " = true)
          ↔ ∃ e, (parsingContext.ParseMacro expression).2 = some e)
      ∧ ((∃ e, NewMacro d id expression model parsingContext opts = Run.done (none, some e)
            ∧ hasPrefix (e.Error leaf) "compilation error: " = true)
          ↔ ((parsingContext.ParseMacro expression).2 = none
            ∧ ∃ m e, Macro.GenEvaluator d
                { ID := id, Opts := opts, evaluator := none,
                  ast := (parsingContext.ParseMacro expression).1 }
                expression model = Run.done (m, some e))) := by
  refine ⟨?_, ?_, ?_, ?_⟩
  · intro a e hparse
    refine ⟨NewMacro_of_parse_error d id expression model parsingContext opts a e hparse,
      ?_, rfl, ?_⟩
    · rw [GoError.Error_wrap]
      exact hasPrefix_append _ _
    · intro d2
      rw [NewMacro_of_parse_error d id expression model parsingContext opts a e hparse,
        NewMacro_of_parse_error d2 id expression model parsingContext opts a e hparse]
  · intro a m e hparse hgen
    rcases NewMacro_of_parse_ok d id expression model parsingContext opts a hparse with
      ⟨hg, _⟩ | ⟨m2, e2, hg, hnew⟩ | ⟨m2, hg, _⟩
    · rw [hg] at hgen
      cases hgen
    · rw [hg] at hgen
      cases hgen
      refine ⟨hnew, ?_, rfl⟩
      rw [GoError.Error_wrap]
      exact hasPrefix_append _ _
    · rw [hg] at hgen
      cases hgen
  · rcases hparse : parsingContext.ParseMacro expression with ⟨a, _ | e⟩
    · constructor
      · rintro ⟨e, hnew, hpfx⟩
        exfalso
        rcases NewMacro_of_parse_ok d id expression model parsingContext opts a hparse with
          ⟨_, hn⟩ | ⟨m2, e2, _, hn⟩ | ⟨m2, _, hn⟩
        · rw [hn] at hnew
          cases hnew
        · rw [hn] at hnew
          cases hnew
          rw [GoError.Error_wrap, hasPrefix_compilation_syntax] at hpfx
          cases hpfx
        · rw [hn] at hnew
          cases hnew
      · rintro ⟨e, he⟩
        cases he
    · constructor
      · intro _
        exact ⟨e, rfl⟩
      · intro _
        refine ⟨_, NewMacro_of_parse_error d id expression model parsingContext opts a e hparse,
          ?_⟩
        rw [GoError.Error_wrap]
        exact hasPrefix_append _ _
  · rcases hparse : parsingContext.ParseMacro expression with ⟨a, _ | e⟩
    · constructor
      · rintro ⟨e, hnew, _⟩
        refine ⟨rfl, ?_⟩
        rcases NewMacro_of_parse_ok d id expression model parsingContext opts a hparse with
          ⟨_, hn⟩ | ⟨m2, e2, hg, _⟩ | ⟨m2, _, hn⟩
        · rw [hn] at hnew
          cases hnew
        · exact ⟨m2, e2, hg⟩
        · rw [hn] at hnew
          cases hnew
      · rintro ⟨_, m, e, hg⟩
        rcases NewMacro_of_parse_ok d id expression model parsingContext opts a hparse with
          ⟨hg2, _⟩ | ⟨m2, e2, hg2, hn⟩ | ⟨m2, hg2, _⟩
        · simp only at hg
          rw [hg2] at hg
          cases hg
        · refine ⟨_, hn, ?_⟩
          rw [GoError.Error_wrap]
          exact hasPrefix_append _ _
        · simp only at hg
          rw [hg2] at hg
          cases hg
    · constructor
      · rintro ⟨e2, hnew, hpfx⟩
        exfalso
        rw [NewMacro_of_parse_error d id expression model parsingContext opts a e hparse]
          at hnew
        cases hnew
        rw [GoError.Error_wrap, hasPrefix_syntax_compilation] at hpfx
        cases hpfx
      · rintro ⟨h, _⟩
        cases h

/-- The error returned by `GenEvaluator` for each error of `macroToEvaluator`. -/
theorem GenEvaluator_error_value (d : Deps σ) (m : Macro σ) (expression : String)
    (model : σ.Model) (x : Option (MacroEvaluator σ)) (e : GoError)
    (h : macroToEvaluator d m.ast model m.Opts "" = Run.done (x, some e)) :
    (∀ pos text, e = GoError.ErrAstToEval pos text →
        m.GenEvaluator d expression model
          = Run.done (m, some (GoError.wrap "macro syntax error: "
              (GoError.ErrRuleParse pos expression))))
      ∧ ((∀ pos text, e ≠ GoError.ErrAstToEval pos text) →
        m.GenEvaluator d expression model
          = Run.done (m, some (GoError.wrap "macro compilation error: " e))) := by
  cases e with
  | ErrAstToEval pos text =>
    refine ⟨?_, ?_⟩
    · intro p t hpt
      cases hpt
      simp [Macro.GenEvaluator, h]
    · intro hne
      exact absurd rfl (hne pos text)
  | ErrRuleParse pos expr =>
    exact ⟨fun _ _ hpt => (by cases hpt), fun _ => (by simp [Macro.GenEvaluator, h])⟩
  | ErrFieldNotFound f =>
    exact ⟨fun _ _ hpt => (by cases hpt), fun _ => (by simp [Macro.GenEvaluator, h])⟩
  | other msg =>
    exact ⟨fun _ _ hpt => (by cases hpt), fun _ => (by simp [Macro.GenEvaluator, h])⟩
  | wrap pfx inner =>
    exact ⟨fun _ _ hpt => (by cases hpt), fun _ => (by simp [Macro.GenEvaluator, h])⟩

/-- The outcomes of `macroToEvaluator`: a nil macro AST panics, and a non-nil
one yields either an error and no evaluator or an evaluator and no error. -/
theorem macroToEvaluator_outcomes (d : Deps σ) (mac : Option (AstMacro σ)) (model : σ.Model)
    (opts : σ.Opts) (field : Field) :
    (mac = none ∧ macroToEvaluator d mac model opts field = Run.panic)
    ∨ (∃ e, macroToEvaluator d mac model opts field = Run.done (none, some e))
    ∨ (∃ me, macroToEvaluator d mac model opts field = Run.done (some me, none)) := by
  cases mac with
  | none => exact Or.inl ⟨rfl, rfl⟩
  | some a =>
    rcases macroToEvaluator_cases d a model opts field with
      ⟨e, _, h⟩ | ⟨_, t, e, _, h⟩ | ⟨_, t, _, h⟩
    · exact Or.inr (Or.inl ⟨e, h⟩)
    · exact Or.inr (Or.inl ⟨e, h⟩)
    · exact Or.inr (Or.inr ⟨_, h⟩)

/-- C19: `GenEvaluator` and `Parse` are atomic on the state of the macro.
When the compilation fails, `GenEvaluator` returns a non-nil error and the
macro is exactly as it was; when it succeeds, `GenEvaluator` returns nil and
the evaluator of the macro is the newly compiled one, the other fields being
as they were. `Parse` returns the error of the parser; it leaves the macro as
it was when that error is non-nil and otherwise only sets the AST to the
parsed one. Neither changes `ID` or `Opts`. -/
theorem GenEvaluator_Parse_atomic (d : Deps σ) (m : Macro σ) (expression : String)
    (model : σ.Model) (parsingContext : ParsingContext σ) :
    (∀ x e, macroToEvaluator d m.ast model m.Opts "" = Run.done (x, some e) →
        ∃ e2, m.GenEvaluator d expression model = Run.done (m, some e2))
      ∧ (∀ me, macroToEvaluator d m.ast model m.Opts "" = Run.done (some me, none) →
          m.GenEvaluator d expression model
            = Run.done ({ ID := m.ID, Opts := m.Opts, evaluator := some me, ast := m.ast },
                none))
      ∧ (∀ m2 err, m.GenEvaluator d expression model = Run.done (m2, err) →
          m2.ID = m.ID ∧ m2.Opts = m.Opts ∧ m2.ast = m.ast
          ∧ ((∃ e, err = some e) → m2.evaluator = m.evaluator)
          ∧ (err = none → ∃ me, macroToEvaluator d m.ast model m.Opts ""
                = Run.done (some me, none) ∧ m2.evaluator = some me))
      ∧ (m.ast.isSome = true → ∃ m2 err, m.GenEvaluator d expression model = Run.done (m2, err))
      ∧ (m.Parse parsingContext expression).2 = (parsingContext.ParseMacro expression).2
      ∧ (m.Parse parsingContext expression).1.ID = m.ID
      ∧ (m.Parse parsingContext expression).1.Opts = m.Opts
      ∧ (m.Parse parsingContext expression).1.evaluator = m.evaluator
      ∧ ((∃ e, (parsingContext.ParseMacro expression).2 = some e) →
          (m.Parse parsingContext expression).1 = m)
      ∧ ((parsingContext.ParseMacro expression).2 = none →
          (m.Parse parsingContext expression).1.ast
            = (parsingContext.ParseMacro expression).1) := by
  have hfail : ∀ x e, macroToEvaluator d m.ast model m.Opts "" = Run.done (x, some e) →
      ∃ e2, m.GenEvaluator d expression model = Run.done (m, some e2) :=
    fun x e h => GenEvaluator_of_error d m expression model x e h
  have hok : ∀ me, macroToEvaluator d m.ast model m.Opts "" = Run.done (some me, none) →
      m.GenEvaluator d expression model
        = Run.done ({ ID := m.ID, Opts := m.Opts, evaluator := some me, ast := m.ast },
            none) :=
    fun me h => GenEvaluator_of_success d m expression model (some me) h
  refine ⟨hfail, hok, ?_, ?_, ?_, ?_, ?_, ?_, ?_, ?_⟩
  · intro m2 err hgen
    rcases macroToEvaluator_outcomes d m.ast model m.Opts "" with
      ⟨_, h⟩ | ⟨e, h⟩ | ⟨me, h⟩
    · simp [Macro.GenEvaluator, h] at hgen
    · obtain ⟨e2, h2⟩ := hfail _ _ h
      rw [h2] at hgen
      simp only [Run.done.injEq, Prod.mk.injEq] at hgen
      obtain ⟨rfl, rfl⟩ := hgen
      refine ⟨rfl, rfl, rfl, fun _ => rfl, ?_⟩
      intro hnone
      cases hnone
    · rw [hok me h] at hgen
      simp only [Run.done.injEq, Prod.mk.injEq] at hgen
      obtain ⟨rfl, rfl⟩ := hgen
      refine ⟨rfl, rfl, rfl, ?_, fun _ => ⟨me, h, rfl⟩⟩
      rintro ⟨e, he⟩
      cases he
  · intro hast
    rcases macroToEvaluator_outcomes d m.ast model m.Opts "" with
      ⟨hnil, _⟩ | ⟨e, h⟩ | ⟨me, h⟩
    · rw [hnil] at hast
      cases hast
    · obtain ⟨e2, h2⟩ := hfail _ _ h
      exact ⟨_, _, h2⟩
    · exact ⟨_, _, hok me h⟩
  · rcases hp : parsingContext.ParseMacro expression with ⟨a, _ | e⟩ <;>
      simp [Macro.Parse, hp]
  · rcases hp : parsingContext.ParseMacro expression with ⟨a, _ | e⟩ <;>
      simp [Macro.Parse, hp]
  · rcases hp : parsingContext.ParseMacro expression with ⟨a, _ | e⟩ <;>
      simp [Macro.Parse, hp]
  · rcases hp : parsingContext.ParseMacro expression with ⟨a, _ | e⟩ <;>
      simp [Macro.Parse, hp]
  · rcases hp : parsingContext.ParseMacro expression with ⟨a, _ | e⟩ <;>
      simp [Macro.Parse, hp]
  · rcases hp : parsingContext.ParseMacro expression with ⟨a, _ | e⟩ <;>
      simp [Macro.Parse, hp]

/-- C20: `GenEvaluator` reports typed errors. When the compilation fails with
an `*ErrAstToEval` at position `pos`, the returned error is
`fmt.Errorf("macro syntax error: %w", &ErrRuleParse{pos, expression})`: its
message starts with `"macro syntax error: "` and it wraps an `ErrRuleParse`
with exactly that position and the expression text handed to `GenEvaluator`.
For every other compilation error `e`, the returned error is
`fmt.Errorf("macro compilation error: %w", e)`: its message starts with
`"macro compilation error: "` and it wraps `e` itself. -/
theorem GenEvaluator_typed_errors (d : Deps σ) (leaf : GoError → String) (m : Macro σ)
    (expression : String) (model : σ.Model) :
    (∀ x pos text,
        macroToEvaluator d m.ast model m.Opts ""
          = Run.done (x, some (GoError.ErrAstToEval pos text)) →
        ∃ err, m.GenEvaluator d expression model = Run.done (m, some err)
          ∧ hasPrefix (err.Error leaf) "macro syntax error: " = true
          ∧ err.Unwrap = some (GoError.ErrRuleParse pos expression))
      ∧ (∀ x e, macroToEvaluator d m.ast model m.Opts "" = Run.done (x, some e) →
          (∀ pos text, e ≠ GoError.ErrAstToEval pos text) →
          ∃ err, m.GenEvaluator d expression model = Run.done (m, some err)
            ∧ hasPrefix (err.Error leaf) "macro compilation error: " = true
            ∧ err.Unwrap = some e) := by
  constructor
  · intro x pos text h
    refine ⟨_, (GenEvaluator_error_value d m expression model x _ h).1 pos text rfl, ?_, rfl⟩
    rw [GoError.Error_wrap]
    exact hasPrefix_append _ _
  · intro x e h hne
    refine ⟨_, (GenEvaluator_error_value d m expression model x e h).2 hne, ?_, rfl⟩
    rw [GoError.Error_wrap]
    exact hasPrefix_append _ _

end eval

/-! ## Theorems: package `sds` -/

namespace sds

theorem sortByVersion_perm (defs : List StandardRuleDefinition) :
    (sortByVersion defs).Perm defs :=
  List.perm_insertionSort _ defs

theorem mem_sortByVersion (defs : List StandardRuleDefinition) (d : StandardRuleDefinition) :
    d ∈ sortByVersion defs ↔ d ∈ defs :=
  (sortByVersion_perm defs).mem_iff

/-- A variant is determined by its number and its content. -/
theorem eq_of_content (a b : StandardRuleDefinition) (hv : a.Version = b.Version)
    (hc : a.content = b.content) : a = b := by
  have hinj : Function.Injective (List.map String.data) :=
    List.map_injective_iff.mpr (fun _ _ h => String.ext h)
  cases a
  cases b
  simp only [StandardRuleDefinition.content, List.cons.injEq, and_true] at hc
  obtain ⟨hp, hk, hr⟩ := hc
  simp only at hv
  rw [hv, String.ext hp, hinj hk, hinj hr]

/-- Of two variants, one is sorted before the other. -/
theorem sortsBefore_total (a b : StandardRuleDefinition) :
    sortsBefore a b ∨ sortsBefore b a := by
  rcases lt_trichotomy a.Version b.Version with h | h | h
  · exact Or.inr (Or.inl h)
  · rcases le_total a.content b.content with hc | hc
    · exact Or.inl (Or.inr ⟨h.symm, hc⟩)
    · exact Or.inr (Or.inr ⟨h, hc⟩)
  · exact Or.inl (Or.inl h)

theorem sortsBefore_trans (a b c : StandardRuleDefinition) (hab : sortsBefore a b)
    (hbc : sortsBefore b c) : sortsBefore a c := by
  rcases hab with h1 | ⟨h1, c1⟩
  · rcases hbc with h2 | ⟨h2, _⟩
    · exact Or.inl (lt_trans h2 h1)
    · exact Or.inl (by rw [h2]; exact h1)
  · rcases hbc with h2 | ⟨h2, c2⟩
    · exact Or.inl (by rw [← h1]; exact h2)
    · exact Or.inr ⟨h2.trans h1, le_trans c1 c2⟩

/-- Two variants each sorted before the other are the same variant. -/
theorem sortsBefore_antisymm (a b : StandardRuleDefinition) (hab : sortsBefore a b)
    (hba : sortsBefore b a) : a = b := by
  rcases hab with h1 | ⟨h1, c1⟩
  · rcases hba with h2 | ⟨h2, _⟩
    · exact absurd h1 (lt_asymm h2)
    · rw [h2] at h1
      exact absurd h1 (lt_irrefl _)
  · rcases hba with h2 | ⟨_, c2⟩
    · rw [h1] at h2
      exact absurd h2 (lt_irrefl _)
    · exact eq_of_content a b h1.symm (le_antisymm c1 c2)

/-- The sorted sequence is sorted by the order of the sort. -/
theorem sortByVersion_sortsBefore (defs : List StandardRuleDefinition) :
    (sortByVersion defs).Pairwise sortsBefore := by
  haveI : IsTotal StandardRuleDefinition sortsBefore := ⟨sortsBefore_total⟩
  haveI : IsTrans StandardRuleDefinition sortsBefore := ⟨sortsBefore_trans⟩
  exact List.sorted_insertionSort sortsBefore defs

/-- After sorting, every variant is followed only by variants of a version
that is not higher. -/
theorem sortByVersion_sorted (defs : List StandardRuleDefinition) :
    (sortByVersion defs).Pairwise (fun a b => b.Version ≤ a.Version) := by
  refine (sortByVersion_sortsBefore defs).imp ?_
  intro a b h
  rcases h with h | ⟨h, _⟩
  · exact le_of_lt h
  · exact le_of_eq h

/-- The sorted sequence does not depend on the order of the input. -/
theorem sortByVersion_eq_of_perm (defs defs2 : List StandardRuleDefinition)
    (hperm : defs2.Perm defs) : sortByVersion defs2 = sortByVersion defs := by
  haveI : IsAntisymm StandardRuleDefinition sortsBefore := ⟨sortsBefore_antisymm⟩
  exact List.eq_of_perm_of_sorted
    ((sortByVersion_perm defs2).trans (hperm.trans (sortByVersion_perm defs).symm))
    (sortByVersion_sortsBefore defs2) (sortByVersion_sortsBefore defs)

/-- The first qualifying element of a list sorted by decreasing version has
the highest version among the qualifying elements. -/
theorem find?_sorted_is_highest (p : StandardRuleDefinition → Bool)
    (l : List StandardRuleDefinition) (d : StandardRuleDefinition)
    (hs : l.Pairwise (fun a b => b.Version ≤ a.Version)) (hf : l.find? p = some d) :
    ∀ x ∈ l, p x = true → x.Version ≤ d.Version := by
  induction l with
  | nil => cases hf
  | cons a as ih =>
    rw [List.pairwise_cons] at hs
    intro x hx hpx
    by_cases hpa : p a = true
    · rw [List.find?_cons_of_pos _ hpa] at hf
      cases hf
      rcases List.mem_cons.mp hx with rfl | hx
      · exact le_refl _
      · exact hs.1 x hx
    · rw [List.find?_cons_of_neg _ hpa] at hf
      rcases List.mem_cons.mp hx with rfl | hx
      · exact absurd hpx hpa
      · exact ih hs.2 hf x hx hpx

/-- The selected variant is a variant of the rule, it qualifies, and no
qualifying variant has a higher version. -/
theorem selectDefinition_spec (capabilities : List String)
    (defs : List StandardRuleDefinition) (d : StandardRuleDefinition)
    (h : selectDefinition capabilities defs = some d) :
    d ∈ defs ∧ supportsAll capabilities d = true
      ∧ ∀ x ∈ defs, supportsAll capabilities x = true → x.Version ≤ d.Version := by
  unfold selectDefinition at h
  refine ⟨(mem_sortByVersion defs d).mp (List.mem_of_find?_eq_some h),
    List.find?_some h, ?_⟩
  intro x hx hpx
  exact find?_sorted_is_highest _ _ d (sortByVersion_sorted defs) h x
    ((mem_sortByVersion defs x).mpr hx) hpx

/-- No variant is selected only when no variant qualifies. -/
theorem selectDefinition_eq_none (capabilities : List String)
    (defs : List StandardRuleDefinition) :
    selectDefinition capabilities defs = none
      ↔ ∀ x ∈ defs, supportsAll capabilities x = false := by
  unfold selectDefinition
  rw [List.find?_eq_none]
  constructor
  · intro h x hx
    simpa using h x ((mem_sortByVersion defs x).mpr hx)
  · intro h x hx
    simpa using h x ((mem_sortByVersion defs x).mp hx)

/-- The selection does not depend on the order in which the variants are
supplied. -/
theorem selectDefinition_perm (capabilities : List String)
    (defs defs2 : List StandardRuleDefinition) (hperm : defs2.Perm defs) :
    selectDefinition capabilities defs2 = selectDefinition capabilities defs := by
  unfold selectDefinition
  rw [sortByVersion_eq_of_perm defs defs2 hperm]

/-- C13: `interpretRCRule` builds the rule from the variant with the highest
version number among those whose required capabilities are all supported by
the engine, passing over higher-numbered variants that are not supported; it
fails only when no variant qualifies; and the selected variant, and hence the
rule, is the same for every permutation of the list of variants. Moreover the
choice does not rest on how the sort orders variants of the same number: the
first supported variant of any sequence of the variants sorted by decreasing
number has the version number of the selected variant, and is the selected
variant when the version numbers are pairwise different. -/
theorem interpretRCRule_uses_highest_supported (capabilities : List String)
    (userRule : RuleConfig) (standardRule : StandardRuleConfig) :
    (∀ d, selectDefinition capabilities standardRule.Definitions = some d →
        d ∈ standardRule.Definitions ∧ supportsAll capabilities d = true
        ∧ (∀ x ∈ standardRule.Definitions, supportsAll capabilities x = true →
            x.Version ≤ d.Version)
        ∧ interpretRCRule capabilities userRule standardRule
          = (some { Id := standardRule.Name, Pattern := d.Pattern }, none))
      ∧ ((∃ x ∈ standardRule.Definitions, supportsAll capabilities x = true) →
          ∃ d, selectDefinition capabilities standardRule.Definitions = some d)
      ∧ ((∀ x ∈ standardRule.Definitions, supportsAll capabilities x = false) →
          ∃ e, interpretRCRule capabilities userRule standardRule = (none, some e))
      ∧ (∀ defs2 : List StandardRuleDefinition, defs2.Perm standardRule.Definitions →
          selectDefinition capabilities defs2
            = selectDefinition capabilities standardRule.Definitions
          ∧ interpretRCRule capabilities userRule { standardRule with Definitions := defs2 }
            = interpretRCRule capabilities userRule standardRule)
      ∧ (∀ sorted : List StandardRuleDefinition, sorted.Perm standardRule.Definitions →
          sorted.Pairwise (fun a b => b.Version ≤ a.Version) →
          (∀ d, selectDefinition capabilities standardRule.Definitions = some d →
            ∃ d2, sorted.find? (supportsAll capabilities) = some d2
              ∧ d2.Version = d.Version
              ∧ ((standardRule.Definitions.map StandardRuleDefinition.Version).Nodup →
                  d2 = d))
          ∧ (selectDefinition capabilities standardRule.Definitions = none →
              sorted.find? (supportsAll capabilities) = none)) := by
  refine ⟨?_, ?_, ?_, ?_, ?_⟩
  rotate_right 1
  · intro sorted hperm hsorted
    constructor
    · intro d hd
      obtain ⟨hmem, hq, hmax⟩ :=
        selectDefinition_spec capabilities standardRule.Definitions d hd
      cases hf : sorted.find? (supportsAll capabilities) with
      | none =>
        rw [List.find?_eq_none] at hf
        exact absurd hq (hf d (hperm.mem_iff.mpr hmem))
      | some d2 =>
        have hd2mem : d2 ∈ standardRule.Definitions :=
          hperm.mem_iff.mp (List.mem_of_find?_eq_some hf)
        have hq2 : supportsAll capabilities d2 = true := List.find?_some hf
        have hmax2 := find?_sorted_is_highest _ sorted d2 hsorted hf
        have hv : d2.Version = d.Version :=
          le_antisymm (hmax d2 hd2mem hq2) (hmax2 d (hperm.mem_iff.mpr hmem) hq)
        exact ⟨d2, rfl, hv, fun hnd => List.inj_on_of_nodup_map hnd hd2mem hmem hv⟩
    · intro hnone
      rw [selectDefinition_eq_none] at hnone
      rw [List.find?_eq_none]
      intro x hx
      simpa using hnone x (hperm.mem_iff.mp hx)
  · intro d h
    obtain ⟨h1, h2, h3⟩ := selectDefinition_spec capabilities standardRule.Definitions d h
    refine ⟨h1, h2, h3, ?_⟩
    simp [interpretRCRule, h]
  · rintro ⟨x, hx, hq⟩
    cases h : selectDefinition capabilities standardRule.Definitions with
    | none =>
      rw [selectDefinition_eq_none] at h
      rw [h x hx] at hq
      cases hq
    | some d => exact ⟨d, rfl⟩
  · intro hnone
    have h := (selectDefinition_eq_none capabilities standardRule.Definitions).mpr hnone
    exact ⟨GoError.other "unsupported rule with no compatible definition",
      by simp [interpretRCRule, h]⟩
  · intro defs2 hperm
    have h := selectDefinition_perm capabilities standardRule.Definitions defs2 hperm
    refine ⟨h, ?_⟩
    simp only [interpretRCRule, h]

/-- C13 on the data of `TestInterpretRC`: with the variants supplied as
version 2 (Luhn checksum), version 1 (no requirement), version 3 (unsupported
capability), the rule is built from version 2, and so it is when the variants
are supplied in the opposite order. Two variants of the same number give the
same rule in both orders as well. -/
theorem interpretRCRule_uses_highest_supported_witness :
    interpretRCRule testEngine.capabilities testUserRule testStandardRule
        = (some { Id := "Zero", Pattern := "second pattern" }, none)
      ∧ interpretRCRule testEngine.capabilities testUserRule
          { testStandardRule with Definitions := testDefinitions.reverse }
        = interpretRCRule testEngine.capabilities testUserRule testStandardRule
      ∧ interpretRCRule [] testUserRule
          { testStandardRule with Definitions := [versionOne "b", versionOne "a"] }
        = interpretRCRule [] testUserRule
          { testStandardRule with Definitions := [versionOne "a", versionOne "b"] } :=
  ⟨rfl, ((interpretRCRule_uses_highest_supported testEngine.capabilities testUserRule
    testStandardRule).2.2.2.1 testDefinitions.reverse (List.reverse_perm _)).2,
    ((interpretRCRule_uses_highest_supported [] testUserRule
      { testStandardRule with Definitions := [versionOne "a", versionOne "b"] }).2.2.2.1
      [versionOne "b", versionOne "a"] (List.Perm.swap _ _ _)).2⟩

/-- The configured rules are the enabled rules of the configuration. -/
theorem mem_OnlyEnabled (config : RulesConfig) (r : RuleConfig) :
    r ∈ config.OnlyEnabled
      ↔ r ∈ config.Rules ∧ r.IsEnabled = true ∧ config.IsEnabled = true := by
  unfold RulesConfig.OnlyEnabled
  by_cases h : config.IsEnabled = true
  · simp [h, List.mem_filter]
  · simp [h]

theorem OnlyEnabled_sublist (config : RulesConfig) :
    config.OnlyEnabled.Sublist config.Rules := by
  unfold RulesConfig.OnlyEnabled
  by_cases h : config.IsEnabled = true
  · simp only [h, if_true]
    exact List.filter_sublist _
  · simp [h]

/-- A user rule has a library rule and no error, or an error and no library
rule. -/
theorem interpretRule_cases (eng : Engine) (standardRules : List StandardRuleConfig)
    (r : RuleConfig) :
    (∃ x, interpretRule eng standardRules r = (some x, none))
      ∨ (∃ e, interpretRule eng standardRules r = (none, some e)) := by
  unfold interpretRule
  cases standardRules.find? (fun sr => decide (sr.ID = r.Definition.StandardRuleID)) with
  | none => exact Or.inr ⟨_, rfl⟩
  | some sr =>
    simp only [interpretRCRule]
    cases selectDefinition eng.capabilities sr.Definitions with
    | none => exact Or.inr ⟨_, rfl⟩
    | some d => exact Or.inl ⟨_, rfl⟩

/-- Each user rule gives either a library rule or an error. -/
theorem interpret_lengths (eng : Engine) (standardRules : List StandardRuleConfig)
    (rules : List RuleConfig) :
    (interpretRules eng standardRules rules).length
        + (interpretErrors eng standardRules rules).length = rules.length := by
  induction rules with
  | nil => rfl
  | cons r rs ih =>
    simp only [interpretRules, interpretErrors] at ih ⊢
    rcases interpretRule_cases eng standardRules r with ⟨x, hx⟩ | ⟨e, he⟩
    · simp only [List.filterMap_cons, hx, List.length_cons]
      omega
    · simp only [List.filterMap_cons, he, List.length_cons]
      omega

/-- When no user rule gives an error, every user rule has a library rule. -/
theorem interpretedRules_of_no_error (eng : Engine) (standardRules : List StandardRuleConfig)
    (rules : List RuleConfig) (h : interpretErrors eng standardRules rules = []) :
    interpretedRules eng standardRules rules = rules := by
  induction rules with
  | nil => rfl
  | cons r rs ih =>
    simp only [interpretErrors, interpretedRules] at ih h ⊢
    rcases interpretRule_cases eng standardRules r with ⟨x, hx⟩ | ⟨e, he⟩
    · simp only [List.filterMap_cons, hx] at h
      simp only [List.filter_cons, hx, Option.isSome_some, if_true]
      rw [ih h]
    · simp [List.filterMap_cons, he] at h

/-- Without standard rules no user rule has a library rule. -/
theorem interpretRules_of_no_standard_rules (eng : Engine) (rules : List RuleConfig) :
    interpretRules eng [] rules = [] := by
  induction rules with
  | nil => rfl
  | cons r rs ih =>
    simp only [interpretRules] at ih ⊢
    simp only [List.filterMap_cons, interpretRule, List.find?_nil]
    exact ih

/-- The outcomes of the application of a decoded user configuration. -/
theorem reconfigureRules_cases (eng : Engine) (s : sds.Scanner) (config : RulesConfig) :
    (config.OnlyEnabled = []
        ∧ s.reconfigureRules eng (some config)
          = ({ s with Scanner := none, configuredRules := [] }, false, none))
    ∨ (config.OnlyEnabled ≠ []
        ∧ interpretRules eng s.standardRules config.OnlyEnabled = []
        ∧ ∃ err, s.reconfigureRules eng (some config) = (s, s.IsActive, some err))
    ∨ (config.OnlyEnabled ≠ []
        ∧ interpretRules eng s.standardRules config.OnlyEnabled ≠ []
        ∧ ∃ err, eng.compileError (interpretRules eng s.standardRules config.OnlyEnabled)
            = some err
          ∧ s.reconfigureRules eng (some config) = (s, s.IsActive, some err))
    ∨ (config.OnlyEnabled ≠ []
        ∧ interpretRules eng s.standardRules config.OnlyEnabled ≠ []
        ∧ eng.compileError (interpretRules eng s.standardRules config.OnlyEnabled) = none
        ∧ s.reconfigureRules eng (some config)
          = ({ s with
                Scanner := some ⟨interpretRules eng s.standardRules config.OnlyEnabled⟩
                configuredRules := interpretedRules eng s.standardRules config.OnlyEnabled
                ready := true },
              true, (interpretErrors eng s.standardRules config.OnlyEnabled).head?)) := by
  by_cases h1 : config.OnlyEnabled = []
  · left
    exact ⟨h1, by simp [Scanner.reconfigureRules, h1]⟩
  · right
    have h1b : config.OnlyEnabled.isEmpty = false := by
      simpa [List.isEmpty_iff] using h1
    by_cases h2 : interpretRules eng s.standardRules config.OnlyEnabled = []
    · left
      have hlen := interpret_lengths eng s.standardRules config.OnlyEnabled
      rw [h2] at hlen
      cases herrs : interpretErrors eng s.standardRules config.OnlyEnabled with
      | nil =>
        rw [herrs] at hlen
        exact absurd (List.length_eq_zero.mp hlen.symm) h1
      | cons e es =>
        exact ⟨h1, h2, e, by simp [Scanner.reconfigureRules, h1b, h2, herrs]⟩
    · right
      have h2b : (interpretRules eng s.standardRules config.OnlyEnabled).isEmpty = false := by
        simpa [List.isEmpty_iff] using h2
      cases h3 : eng.compileError (interpretRules eng s.standardRules config.OnlyEnabled) with
      | some err =>
        left
        exact ⟨h1, h2, err, rfl, by simp [Scanner.reconfigureRules, h1b, h2b, h3]⟩
      | none =>
        right
        exact ⟨h1, h2, rfl, by simp [Scanner.reconfigureRules, h1b, h2b, h3]⟩

/-- An enabling user configuration that is applied without error leaves the
scanner active and ready, holding the library rules of all the enabled rules,
which are the configured rules. -/
theorem reconfigureRules_of_no_error (eng : Engine) (s s2 : sds.Scanner)
    (config : RulesConfig) (active : Bool) (hne : config.OnlyEnabled ≠ [])
    (h : s.reconfigureRules eng (some config) = (s2, active, none)) :
    active = true ∧ s2.ready = true ∧ s2.configuredRules = config.OnlyEnabled
      ∧ s2.Scanner = some ⟨interpretRules eng s.standardRules config.OnlyEnabled⟩
      ∧ s2.standardRules = s.standardRules
      ∧ interpretRules eng s.standardRules config.OnlyEnabled ≠ [] := by
  rcases reconfigureRules_cases eng s config with
    ⟨h1, _⟩ | ⟨_, _, err, hr⟩ | ⟨_, _, err, _, hr⟩ | ⟨_, h2, _, hr⟩
  · exact absurd h1 hne
  · rw [hr] at h
    simp at h
  · rw [hr] at h
    simp at h
  · rw [hr] at h
    simp only [Prod.mk.injEq] at h
    obtain ⟨rfl, rfl, herr⟩ := h
    have hnil := List.head?_eq_none_iff.mp herr
    exact ⟨rfl, rfl, interpretedRules_of_no_error eng s.standardRules config.OnlyEnabled hnil,
      rfl, rfl, h2⟩

/-- C14: after a successful `AgentConfig` reconfiguration of a scanner that
holds standard rules, the configured rules are exactly the rules of the
configuration whose `is_enabled` flag is true (of an enabled group), in the
order of the configuration; they are empty when the group is disabled; and
`GetRuleByIdx(i)` returns the `i`-th of them. -/
theorem Reconfigure_configures_enabled_rules (eng : Engine) (s s2 : sds.Scanner)
    (config : RulesConfig) (active : Bool) (hstd : s.standardRules ≠ [])
    (h : s.Reconfigure eng (ReconfigureOrder.AgentConfig (some config)) = (s2, active, none)) :
    s2.configuredRules
        = (if config.IsEnabled then config.Rules.filter (fun r => r.IsEnabled) else [])
      ∧ (∀ r, r ∈ s2.configuredRules
          ↔ r ∈ config.Rules ∧ r.IsEnabled = true ∧ config.IsEnabled = true)
      ∧ s2.configuredRules.Sublist config.Rules
      ∧ (config.IsEnabled = false → s2.configuredRules = [])
      ∧ (∀ i r, s2.configuredRules[i]? = some r → s2.GetRuleByIdx i = Except.ok r)
      ∧ active = !s2.configuredRules.isEmpty := by
  have _ := hstd
  have hrules : s2.configuredRules = config.OnlyEnabled
      ∧ (config.OnlyEnabled ≠ [] → s2.Scanner.isSome = true)
      ∧ active = !config.OnlyEnabled.isEmpty := by
    simp only [Scanner.Reconfigure] at h
    by_cases h1 : config.OnlyEnabled = []
    · rcases reconfigureRules_cases eng s config with
        ⟨_, hr⟩ | ⟨hne, _⟩ | ⟨hne, _⟩ | ⟨hne, _⟩
      · rw [hr] at h
        simp only [Prod.mk.injEq, and_true] at h
        obtain ⟨rfl, rfl⟩ := h
        simp [h1]
      · exact absurd h1 hne
      · exact absurd h1 hne
      · exact absurd h1 hne
    · obtain ⟨ha, _, hc, hs, _, _⟩ := reconfigureRules_of_no_error eng s s2 config active h1 h
      refine ⟨hc, fun _ => by rw [hs]; rfl, ?_⟩
      have h1b : config.OnlyEnabled.isEmpty = false := by
        simpa [List.isEmpty_iff] using h1
      rw [ha, h1b]
      rfl
  obtain ⟨hc, hsome, hact⟩ := hrules
  refine ⟨?_, ?_, ?_, ?_, ?_, ?_⟩
  · rw [hc]
    rfl
  · intro r
    rw [hc]
    exact mem_OnlyEnabled config r
  · rw [hc]
    exact OnlyEnabled_sublist config
  · intro hd
    rw [hc]
    simp [RulesConfig.OnlyEnabled, hd]
  · intro i r hi
    have hne : config.OnlyEnabled ≠ [] := by
      intro hnil
      rw [hc, hnil] at hi
      simp at hi
    have hsc := hsome hne
    unfold Scanner.GetRuleByIdx
    cases hS : s2.Scanner with
    | none =>
      rw [hS] at hsc
      cases hsc
    | some ns => simp [hi]
  · rw [hc]
    exact hact

/-- C14 on the data of `TestCreateScanner`: with the rules `zero` and `one`
enabled and the rule `two` disabled, the configured rules are `zero`, `one`. -/
theorem Reconfigure_configures_enabled_rules_witness :
    ∃ s2, (Scanner.run testEngine (CreateScanner "")
          [ReconfigureOrder.StandardRules (some testStandardRules)]).Reconfigure testEngine
          (ReconfigureOrder.AgentConfig (some testAgentConfig)) = (s2, true, none)
      ∧ s2.configuredRules.map RuleConfig.Name = ["zero", "one"]
      ∧ s2.configuredRules
        = (if testAgentConfig.IsEnabled then
            testAgentConfig.Rules.filter (fun r => r.IsEnabled) else [])
      ∧ (∀ i r, s2.configuredRules[i]? = some r → s2.GetRuleByIdx i = Except.ok r) :=
  ⟨_, rfl, rfl,
    (Reconfigure_configures_enabled_rules testEngine
      (Scanner.run testEngine (CreateScanner "")
        [ReconfigureOrder.StandardRules (some testStandardRules)])
      _ testAgentConfig true (by decide) rfl).1,
    (Reconfigure_configures_enabled_rules testEngine
      (Scanner.run testEngine (CreateScanner "")
        [ReconfigureOrder.StandardRules (some testStandardRules)])
      _ testAgentConfig true (by decide) rfl).2.2.2.2.1⟩

/-- An order that only carries standard rules does not change readiness. -/
theorem Reconfigure_StandardRules_ready (eng : Engine) (s : sds.Scanner)
    (c : Option (List StandardRuleConfig)) :
    (s.Reconfigure eng (ReconfigureOrder.StandardRules c)).1.ready = s.ready
      ∧ (s.Reconfigure eng (ReconfigureOrder.StandardRules c)).2.1 = s.IsActive
      ∧ (s.Reconfigure eng (ReconfigureOrder.StandardRules c)).1.Scanner = s.Scanner := by
  cases c <;> exact ⟨rfl, rfl, rfl⟩

/-- No reconfiguration order takes readiness away. -/
theorem Reconfigure_keeps_ready (eng : Engine) (s : sds.Scanner) (order : ReconfigureOrder)
    (h : s.ready = true) : (s.Reconfigure eng order).1.ready = true := by
  have key : ∀ c : Option RulesConfig, (s.reconfigureRules eng c).1.ready = true := by
    intro c
    cases c with
    | none => exact h
    | some config =>
      rcases reconfigureRules_cases eng s config with
        ⟨_, hr⟩ | ⟨_, _, err, hr⟩ | ⟨_, _, err, _, hr⟩ | ⟨_, _, _, hr⟩
      · rw [hr]
        exact h
      · rw [hr]
        exact h
      · rw [hr]
        exact h
      · rw [hr]
  cases order with
  | StandardRules c =>
    rw [(Reconfigure_StandardRules_ready eng s c).1]
    exact h
  | AgentConfig c => exact key c
  | StopProcessing => exact key (some emptyConfig)

theorem run_cons (eng : Engine) (s : sds.Scanner) (order : ReconfigureOrder)
    (orders : List ReconfigureOrder) :
    Scanner.run eng s (order :: orders)
      = Scanner.run eng (s.Reconfigure eng order).1 orders := rfl

/-- Readiness survives every sequence of reconfiguration orders. -/
theorem run_keeps_ready (eng : Engine) (orders : List ReconfigureOrder) (s : sds.Scanner)
    (h : s.ready = true) : (Scanner.run eng s orders).ready = true := by
  induction orders generalizing s with
  | nil => exact h
  | cons order orders ih =>
    rw [run_cons]
    exact ih _ (Reconfigure_keeps_ready eng s order h)

/-- A sequence of orders that only carry standard rules does not change
readiness, nor the library scanner. -/
theorem run_StandardRules_ready (eng : Engine) (orders : List ReconfigureOrder)
    (s : sds.Scanner) (h : ∀ o ∈ orders, ∃ c, o = ReconfigureOrder.StandardRules c) :
    (Scanner.run eng s orders).ready = s.ready
      ∧ (Scanner.run eng s orders).Scanner = s.Scanner := by
  induction orders generalizing s with
  | nil => exact ⟨rfl, rfl⟩
  | cons order orders ih =>
    obtain ⟨c, rfl⟩ := h order (List.mem_cons_self _ _)
    rw [run_cons]
    obtain ⟨h1, h2⟩ := ih (s.Reconfigure eng (ReconfigureOrder.StandardRules c)).1
      (fun o ho => h o (List.mem_cons_of_mem _ ho))
    rw [h1, h2]
    exact ⟨(Reconfigure_StandardRules_ready eng s c).1,
      (Reconfigure_StandardRules_ready eng s c).2.2⟩

/-- The stop order, and the empty user configuration, drop the rule set of
every scanner without error. -/
theorem reconfigureRules_emptyConfig (eng : Engine) (s : sds.Scanner) :
    s.reconfigureRules eng (some emptyConfig)
      = ({ s with Scanner := none, configuredRules := [] }, false, none) := by
  rcases reconfigureRules_cases eng s emptyConfig with
    ⟨_, hr⟩ | ⟨h1, _⟩ | ⟨h1, _⟩ | ⟨h1, _⟩
  · exact hr
  · exact absurd rfl h1
  · exact absurd rfl h1
  · exact absurd rfl h1

/-- A scanner that holds no standard rules and no rule set is left as it is,
and inactive, by every user configuration. -/
theorem reconfigureRules_without_standard_rules (eng : Engine) (s : sds.Scanner)
    (config : Option RulesConfig) (hstd : s.standardRules = []) (hs : s.Scanner = none) :
    (s.reconfigureRules eng config).2.1 = false
      ∧ (s.reconfigureRules eng config).1.IsActive = false
      ∧ (s.reconfigureRules eng config).1.ready = s.ready := by
  have hact : s.IsActive = false := by
    simp [Scanner.IsActive, hs]
  cases config with
  | none => exact ⟨hact, hact, rfl⟩
  | some config =>
    rcases reconfigureRules_cases eng s config with
      ⟨_, hr⟩ | ⟨_, _, err, hr⟩ | ⟨_, _, err, _, hr⟩ | ⟨_, h2, _⟩
    · rw [hr]
      exact ⟨rfl, rfl, rfl⟩
    · rw [hr]
      exact ⟨hact, hact, rfl⟩
    · rw [hr]
      exact ⟨hact, hact, rfl⟩
    · rw [hstd, interpretRules_of_no_standard_rules] at h2
      exact absurd rfl h2

/-- C15: `IsReady` is false for a freshly created scanner and after only
standard rules were received (and the scanner is then not active); it is true
once standard rules and then a user configuration that enables at least one
rule have been applied without error, and more generally once such a user
configuration has been applied without error, which happens only to a scanner
that holds standard rules; and from then on it stays true under every later
sequence of reconfiguration orders, whether or not the scanner is active. -/
theorem IsReady_is_latched (eng : Engine) :
    (∀ pipelineID, (CreateScanner pipelineID).IsReady = false)
      ∧ (∀ pipelineID orders, (∀ o ∈ orders, ∃ c, o = ReconfigureOrder.StandardRules c) →
          (Scanner.run eng (CreateScanner pipelineID) orders).IsReady = false
          ∧ (Scanner.run eng (CreateScanner pipelineID) orders).IsActive = false)
      ∧ (∀ (s s1 s2 : sds.Scanner) rules config (a1 a2 : Bool),
          s.Reconfigure eng (ReconfigureOrder.StandardRules (some rules)) = (s1, a1, none) →
          config.OnlyEnabled ≠ [] →
          s1.Reconfigure eng (ReconfigureOrder.AgentConfig (some config)) = (s2, a2, none) →
          s2.IsReady = true)
      ∧ (∀ (s s2 : sds.Scanner) config (active : Bool), config.OnlyEnabled ≠ [] →
          s.Reconfigure eng (ReconfigureOrder.AgentConfig (some config)) = (s2, active, none) →
          s2.IsReady = true ∧ active = true ∧ s.standardRules ≠ [])
      ∧ (∀ (s : sds.Scanner) orders, s.IsReady = true →
          (Scanner.run eng s orders).IsReady = true)
      ∧ (∀ (s : sds.Scanner), s.IsReady = true →
          (s.Reconfigure eng ReconfigureOrder.StopProcessing).1.IsReady = true
          ∧ (s.Reconfigure eng ReconfigureOrder.StopProcessing).1.IsActive = false) := by
  refine ⟨fun _ => rfl, ?_, ?_, ?_, ?_, ?_⟩
  · intro pipelineID orders h
    obtain ⟨h1, h2⟩ := run_StandardRules_ready eng orders (CreateScanner pipelineID) h
    constructor
    · simp only [Scanner.IsReady]
      rw [h1]
      rfl
    · simp only [Scanner.IsActive]
      rw [h2]
      rfl
  · intro s s1 s2 rules config a1 a2 _ hne h
    exact (reconfigureRules_of_no_error eng s1 s2 config a2 hne h).2.1
  · intro s s2 config active hne h
    obtain ⟨ha, hr, _, _, _, hint⟩ := reconfigureRules_of_no_error eng s s2 config active hne h
    refine ⟨hr, ha, ?_⟩
    intro hstd
    rw [hstd, interpretRules_of_no_standard_rules] at hint
    exact hint rfl
  · intro s orders h
    exact run_keeps_ready eng orders s h
  · intro s h
    refine ⟨Reconfigure_keeps_ready eng s _ h, ?_⟩
    simp only [Scanner.Reconfigure]
    rw [reconfigureRules_emptyConfig]
    rfl

/-- C15 on the data of `TestIsReady`: not ready at creation, not ready after
the standard rules, ready after the user configuration, and still ready after
a later `StopProcessing` order. -/
theorem IsReady_is_latched_witness :
    (CreateScanner "").IsReady = false
      ∧ (Scanner.run testEngine (CreateScanner "")
          [ReconfigureOrder.StandardRules (some testStandardRules)]).IsReady = false
      ∧ (Scanner.run testEngine (CreateScanner "")
          [ReconfigureOrder.StandardRules (some testStandardRules),
            ReconfigureOrder.AgentConfig (some testAgentConfig)]).IsReady = true
      ∧ (Scanner.run testEngine
          (Scanner.run testEngine (CreateScanner "")
            [ReconfigureOrder.StandardRules (some testStandardRules),
              ReconfigureOrder.AgentConfig (some testAgentConfig)])
          [ReconfigureOrder.StopProcessing,
            ReconfigureOrder.AgentConfig (some emptyConfig)]).IsReady = true :=
  ⟨rfl, rfl,
    (IsReady_is_latched testEngine).2.2.1 (CreateScanner "") _ _ testStandardRules
      testAgentConfig false true rfl (by decide) rfl,
    (IsReady_is_latched testEngine).2.2.2.2.1
      (Scanner.run testEngine (CreateScanner "")
        [ReconfigureOrder.StandardRules (some testStandardRules),
          ReconfigureOrder.AgentConfig (some testAgentConfig)])
      [ReconfigureOrder.StopProcessing, ReconfigureOrder.AgentConfig (some emptyConfig)]
      rfl⟩

/-- C16, as stated, fails: a freshly created scanner holds no standard rules;
it receives `StopProcessing`, which succeeds and leaves it inactive, and then
the user configuration of `TestCreateScanner`, which enables two rules. The
rules reference standard rules that the scanner does not hold, nothing is
compiled, and the scanner is not active again. -/
theorem Reconfigure_enabling_config_without_standard_rules_stays_inactive :
    (CreateScanner "").Reconfigure testEngine ReconfigureOrder.StopProcessing
        = (CreateScanner "", false, none)
      ∧ testAgentConfig.OnlyEnabled.length = 2
      ∧ (((CreateScanner "").Reconfigure testEngine ReconfigureOrder.StopProcessing).1.Reconfigure
          testEngine (ReconfigureOrder.AgentConfig (some testAgentConfig))).2.1 = false
      ∧ (((CreateScanner "").Reconfigure testEngine ReconfigureOrder.StopProcessing).1.Reconfigure
          testEngine (ReconfigureOrder.AgentConfig (some testAgentConfig))).1.IsActive = false
      ∧ (((CreateScanner "").Reconfigure testEngine ReconfigureOrder.StopProcessing).1.Reconfigure
          testEngine (ReconfigureOrder.AgentConfig (some testAgentConfig))).1.Scanner = none :=
  ⟨rfl, rfl, rfl, rfl, rfl⟩

/-- C16, amended: from every scanner state, a reconfiguration with the empty
user configuration or a `StopProcessing` order returns without error, reports
the scanner inactive, and leaves it with no library scanner and no configured
rule, the standard rules being kept. A later `AgentConfig` that enables a rule
and is applied without error makes it active again, with a library scanner
and the enabled rules configured; this happens only when the scanner holds
standard rules: a scanner that holds none stays inactive whatever the later
`AgentConfig`. -/
theorem Reconfigure_empty_or_stop_deactivates (eng : Engine) (s : sds.Scanner) :
    s.Reconfigure eng (ReconfigureOrder.AgentConfig (some emptyConfig))
        = ({ s with Scanner := none, configuredRules := [] }, false, none)
      ∧ s.Reconfigure eng ReconfigureOrder.StopProcessing
        = ({ s with Scanner := none, configuredRules := [] }, false, none)
      ∧ (s.Reconfigure eng ReconfigureOrder.StopProcessing).1.Scanner = none
      ∧ (s.Reconfigure eng ReconfigureOrder.StopProcessing).1.configuredRules = []
      ∧ (s.Reconfigure eng ReconfigureOrder.StopProcessing).1.IsActive = false
      ∧ (s.Reconfigure eng ReconfigureOrder.StopProcessing).1.standardRules = s.standardRules
      ∧ (∀ config s3 active, config.OnlyEnabled ≠ [] →
          (s.Reconfigure eng ReconfigureOrder.StopProcessing).1.Reconfigure eng
              (ReconfigureOrder.AgentConfig (some config)) = (s3, active, none) →
          active = true ∧ s3.IsActive = true ∧ s3.configuredRules = config.OnlyEnabled
            ∧ s.standardRules ≠ [])
      ∧ (s.standardRules = [] → ∀ config,
          ((s.Reconfigure eng ReconfigureOrder.StopProcessing).1.Reconfigure eng
              (ReconfigureOrder.AgentConfig config)).2.1 = false
          ∧ ((s.Reconfigure eng ReconfigureOrder.StopProcessing).1.Reconfigure eng
              (ReconfigureOrder.AgentConfig config)).1.IsActive = false) := by
  have hstop : s.reconfigureRules eng (some emptyConfig)
      = ({ s with Scanner := none, configuredRules := [] }, false, none) :=
    reconfigureRules_emptyConfig eng s
  have h2 : s.Reconfigure eng ReconfigureOrder.StopProcessing
      = ({ s with Scanner := none, configuredRules := [] }, false, none) := hstop
  refine ⟨hstop, h2, ?_, ?_, ?_, ?_, ?_, ?_⟩
  · rw [h2]
  · rw [h2]
  · rw [h2]
    rfl
  · rw [h2]
  · intro config s3 active hne h
    rw [h2] at h
    simp only [Scanner.Reconfigure] at h
    obtain ⟨ha, _, hc, hs, _, hint⟩ := reconfigureRules_of_no_error eng _ s3 config active hne h
    refine ⟨ha, by simp [Scanner.IsActive, hs], hc, ?_⟩
    intro hstd
    simp only at hint
    rw [hstd, interpretRules_of_no_standard_rules] at hint
    exact hint rfl
  · intro hstd config
    rw [h2]
    simp only [Scanner.Reconfigure]
    have h := reconfigureRules_without_standard_rules eng
      ({ s with Scanner := none, configuredRules := [] } : sds.Scanner) config hstd rfl
    exact ⟨h.1, h.2.1⟩

/-- C16 on the data of `TestEmptyConfiguration`: an active scanner receives
`StopProcessing`, holds no library scanner and no configured rule afterwards,
and is made active again by the user configuration. -/
theorem Reconfigure_empty_or_stop_deactivates_witness :
    (Scanner.run testEngine (CreateScanner "")
        [ReconfigureOrder.StandardRules (some testStandardRules),
          ReconfigureOrder.AgentConfig (some testAgentConfig)]).IsActive = true
      ∧ (Scanner.run testEngine (CreateScanner "")
          [ReconfigureOrder.StandardRules (some testStandardRules),
            ReconfigureOrder.AgentConfig (some testAgentConfig),
            ReconfigureOrder.StopProcessing])
        = { Scanner := none, standardRules := testStandardRules, configuredRules := [],
            ready := true }
      ∧ ∃ s3, (Scanner.run testEngine (CreateScanner "")
            [ReconfigureOrder.StandardRules (some testStandardRules),
              ReconfigureOrder.AgentConfig (some testAgentConfig),
              ReconfigureOrder.StopProcessing]).Reconfigure testEngine
            (ReconfigureOrder.AgentConfig (some testAgentConfig)) = (s3, true, none)
          ∧ s3.IsActive = true ∧ s3.configuredRules = testAgentConfig.OnlyEnabled :=
  ⟨rfl, rfl, _, rfl,
    ((Reconfigure_empty_or_stop_deactivates testEngine
      (Scanner.run testEngine (CreateScanner "")
        [ReconfigureOrder.StandardRules (some testStandardRules),
          ReconfigureOrder.AgentConfig (some testAgentConfig)])).2.2.2.2.2.2.1
      testAgentConfig _ true (by decide) rfl).2.1,
    ((Reconfigure_empty_or_stop_deactivates testEngine
      (Scanner.run testEngine (CreateScanner "")
        [ReconfigureOrder.StandardRules (some testStandardRules),
          ReconfigureOrder.AgentConfig (some testAgentConfig)])).2.2.2.2.2.2.1
      testAgentConfig _ true (by decide) rfl).2.2.1⟩

end sds

/-! ## Theorems: dispatch of `macroToEvaluator` and evaluators of macros -/

namespace eval

variable {σ : Sig}

/-- C21, as stated, fails: for a macro AST with none of its three nodes set,
`macroToEvaluator` returns an evaluator without error whose `Value` is the nil
interface; no node was compiled to produce it, whatever the node compiler. -/
theorem macroToEvaluator_of_empty_ast_returns_nil_value :
    (emptyAst demoSig).Expression = none ∧ (emptyAst demoSig).Array = none
      ∧ (emptyAst demoSig).Primary = none
      ∧ (∃ me, macroToEvaluator (demoDeps (RangeOrder.id Field)) (some (emptyAst demoSig))
            () () "" = Run.done (some me, none)
          ∧ me.Value = Value.nil)
      ∧ (∀ compile, ∃ me,
          macroToEvaluator ((demoDeps (RangeOrder.id Field)).withNodeToEvaluator compile)
            (some (emptyAst demoSig)) () () "" = Run.done (some me, none)
          ∧ me.Value = Value.nil) :=
  ⟨rfl, rfl, rfl, ⟨_, rfl, rfl⟩, fun _ => ⟨_, rfl, rfl⟩⟩

/-- C21, amended: whenever `macroToEvaluator` returns an evaluator without
error, its `Value` is the result of compiling the expression node of the AST
when there is one, else its array node when there is one, else its primary
node when there is one; for an AST with none of the three set no node is
compiled and the `Value` is the nil interface. -/
theorem macroToEvaluator_value_by_first_node (d : Deps σ) (mac : AstMacro σ)
    (model : σ.Model) (opts : σ.Opts) (field : Field) (me : MacroEvaluator σ)
    (h : macroToEvaluator d (some mac) model opts field = Run.done (some me, none)) :
    (∀ e, mac.Expression = some e →
        me.Value = (d.nodeToEvaluator (Node.Expression e) opts
          (d.NewState model field (d.MacroStore opts))).eval)
      ∧ (∀ a, mac.Expression = none → mac.Array = some a →
          me.Value = (d.nodeToEvaluator (Node.Array a) opts
            (d.NewState model field (d.MacroStore opts))).eval)
      ∧ (∀ p, mac.Expression = none → mac.Array = none → mac.Primary = some p →
          me.Value = (d.nodeToEvaluator (Node.Primary p) opts
            (d.NewState model field (d.MacroStore opts))).eval)
      ∧ (mac.Expression = none → mac.Array = none → mac.Primary = none →
          me.Value = Value.nil) := by
  obtain ⟨a, ha, _, _, hme⟩ := macroToEvaluator_evaluator d (some mac) model opts field me h
  cases ha
  subst hme
  refine ⟨?_, ?_, ?_, ?_⟩
  · intro e he
    simp [macroNodeResult, compileMacroNode, he]
  · intro a he ha
    simp [macroNodeResult, compileMacroNode, he, ha]
  · intro p he ha hp
    simp [macroNodeResult, compileMacroNode, he, ha, hp]
  · intro he ha hp
    simp [macroNodeResult, compileMacroNode, he, ha, hp]

/-- C21, amended, on an instance: the value of the evaluator of an AST with an
expression node is the result of compiling that node. -/
theorem macroToEvaluator_value_by_first_node_witness :
    ∃ me, macroToEvaluator (demoDeps (RangeOrder.id Field))
        (some (demoAst ["open.flags"])) () () "" = Run.done (some me, none)
      ∧ me.Value = Value.node ()
      ∧ me.Value = ((demoDeps (RangeOrder.id Field)).nodeToEvaluator
          (Node.Expression ["open.flags"]) ()
          ((demoDeps (RangeOrder.id Field)).NewState () ""
            ((demoDeps (RangeOrder.id Field)).MacroStore ()))).eval :=
  ⟨_, rfl, rfl,
    (macroToEvaluator_value_by_first_node (demoDeps (RangeOrder.id Field))
      (demoAst ["open.flags"]) () () "" _ rfl).1 ["open.flags"] rfl⟩

/-- C26: a macro returned without error by `NewMacro` or by
`NewStringValuesMacro` has a non-nil evaluator, so that `GetEventType` and
`GetFields` dereference no nil pointer and return the event type and the
fields of `GetEvaluator()`. -/
theorem returned_macro_has_evaluator (d : Deps σ) (id expression : String) (model : σ.Model)
    (parsingContext : ParsingContext σ) (opts : σ.Opts) (values : List String) :
    (∀ m, NewMacro d id expression model parsingContext opts = Run.done (some m, none) →
        ∃ me, m.GetEvaluator = some me
          ∧ m.GetEventType = Run.done me.EventType
          ∧ m.GetFields = Run.done me.fields
          ∧ m.GetFields = MacroEvaluator.GetFields m.GetEvaluator)
      ∧ (∀ m, NewStringValuesMacro d id values opts = (some m, none) →
          ∃ me, m.GetEvaluator = some me
            ∧ m.GetEventType = Run.done me.EventType
            ∧ m.GetFields = Run.done me.fields
            ∧ m.GetFields = MacroEvaluator.GetFields m.GetEvaluator) := by
  constructor
  · intro m h
    rcases hparse : parsingContext.ParseMacro expression with ⟨_ | mac, _ | e⟩
    · simp [NewMacro, Macro.Parse, hparse, Macro.GenEvaluator, macroToEvaluator] at h
    · rw [NewMacro_of_parse_error d id expression model parsingContext opts _ e hparse] at h
      cases h
    · rcases NewMacro_of_parsed d id expression model parsingContext opts mac hparse with
        ⟨e, _, hn⟩ | ⟨me, _, hn⟩
      · rw [hn] at h
        cases h
      · rw [hn] at h
        simp only [Run.done.injEq, Prod.mk.injEq, Option.some.injEq, and_true] at h
        subst h
        exact ⟨me, rfl, rfl, rfl, rfl⟩
    · rw [NewMacro_of_parse_error d id expression model parsingContext opts _ e hparse] at h
      cases h
  · intro m h
    have hm := NewStringValuesMacro_of_success d id values opts m h
    subst hm
    exact ⟨_, rfl, rfl, rfl, rfl⟩

/-- C26 on an instance: a macro compiled from an expression and a macro built
from a list of strings. -/
theorem returned_macro_has_evaluator_witness :
    (∃ m, NewMacro (demoDeps (RangeOrder.id Field)) "m" "open.flags" () demoParsingContext ()
          = Run.done (some m, none)
        ∧ m.GetEventType = Run.done "open" ∧ m.GetFields = Run.done ["open.flags"]
        ∧ ∃ me, m.GetEvaluator = some me
          ∧ m.GetEventType = Run.done me.EventType
          ∧ m.GetFields = Run.done me.fields
          ∧ m.GetFields = MacroEvaluator.GetFields m.GetEvaluator)
      ∧ (∃ m, NewStringValuesMacro (demoDeps (RangeOrder.id Field)) "m" ["a"] ()
            = (some m, none)
          ∧ ∃ me, m.GetEvaluator = some me
            ∧ m.GetEventType = Run.done me.EventType
            ∧ m.GetFields = Run.done me.fields
            ∧ m.GetFields = MacroEvaluator.GetFields m.GetEvaluator) :=
  ⟨⟨_, rfl, rfl, rfl,
      (returned_macro_has_evaluator (demoDeps (RangeOrder.id Field)) "m" "open.flags" ()
        demoParsingContext () ["a"]).1 _ rfl⟩,
    ⟨_, rfl,
      (returned_macro_has_evaluator (demoDeps (RangeOrder.id Field)) "m" "open.flags" ()
        demoParsingContext () ["a"]).2 _ rfl⟩⟩

end eval

/-! ## Theorems: construction, cloning and fields of custom events -/

namespace events

variable {ET : Type}

/-- C23: `NewCustomEvent(t, m, ts...)` is `NewCustomEventLazy(t, f, ts...)` for
the constant factory `f` that returns `m`: both build the same event, with
type `t` and tags `ts`, and `MarshalJSON` on it returns exactly `m.ToJSON()`,
bytes and error alike. -/
theorem NewCustomEvent_is_lazy_with_constant_factory (str : ET → String) (t : ET)
    (m : EventMarshaler) (ts : List String) (tr : Trace) :
    (NewCustomEvent t m ts).run tr = (NewCustomEventLazy t (fun _ => m) ts).run tr
      ∧ ((NewCustomEvent t m ts).run tr).1.eventType = t
      ∧ ((NewCustomEvent t m ts).run tr).1.tags = ts
      ∧ ((NewCustomEvent t m ts >>= fun ce => ce.GetType str).run tr).1
        = ((NewCustomEventLazy t (fun _ => m) ts >>= fun ce => ce.GetType str).run tr).1
      ∧ ((NewCustomEvent t m ts >>= fun ce => ce.GetTags str).run tr).1
        = ((NewCustomEventLazy t (fun _ => m) ts >>= fun ce => ce.GetTags str).run tr).1
      ∧ ((NewCustomEvent t m ts >>= fun ce => ce.MarshalJSON).run tr).1 = m.ToJSON
      ∧ ((NewCustomEventLazy t (fun _ => m) ts >>= fun ce => ce.MarshalJSON).run tr).1
        = m.ToJSON
      ∧ ((NewCustomEvent t m ts >>= fun ce => ce.MarshalJSON).run tr).1.1 = m.ToJSON.1
      ∧ ((NewCustomEvent t m ts >>= fun ce => ce.MarshalJSON).run tr).1.2 = m.ToJSON.2 := by
  have hm : ((NewCustomEvent t m ts >>= fun ce => ce.MarshalJSON).run tr).1 = m.ToJSON := by
    have hrun : (NewCustomEvent t m ts >>= fun ce => ce.MarshalJSON).run tr
        = (CustomEvent.MarshalJSON
            { eventType := t, tags := ts, marshalerCtor := fun _ => m }).run tr := rfl
    rw [hrun, run_marshalJSON]
  refine ⟨rfl, rfl, rfl, rfl, rfl, hm, hm, ?_, ?_⟩
  · rw [hm]
  · rw [hm]

/-- C24: the clone of a custom event has the same event type, the same tags
and the same marshaler factory, so that `GetEventType`, `GetType`, `GetTags`
and `MarshalJSON` give on the clone what they give on the event; and the
event reads the same after `Clone` as before. -/
theorem Clone_preserves_event (str : ET → String) (ce : CustomEvent ET) (tr tr2 : Trace) :
    (ce.Clone.run tr).1.eventType = ce.eventType
      ∧ (ce.Clone.run tr).1.tags = ce.tags
      ∧ (ce.Clone.run tr).1.marshalerCtor = ce.marshalerCtor
      ∧ (ce.Clone.run tr).1 = ce
      ∧ ((ce.Clone.run tr).1.GetEventType.run tr2) = ce.GetEventType.run tr2
      ∧ (((ce.Clone.run tr).1.GetType str).run tr2) = (ce.GetType str).run tr2
      ∧ (((ce.Clone.run tr).1.GetTags str).run tr2) = (ce.GetTags str).run tr2
      ∧ ((ce.Clone.run tr).1.MarshalJSON.run tr2) = ce.MarshalJSON.run tr2
      ∧ ((ce.Clone >>= fun _ => ce.GetTags str).run tr) = (ce.GetTags str).run tr
      ∧ ((ce.Clone >>= fun _ => ce.GetEventType).run tr) = ce.GetEventType.run tr
      ∧ ((ce.Clone >>= fun _ => ce.MarshalJSON).run tr) = ce.MarshalJSON.run tr :=
  ⟨rfl, rfl, rfl, rfl, rfl, rfl, rfl, rfl, rfl, rfl, rfl⟩

/-- C25: a custom event exposes no field. For every field name `GetFieldValue`
returns the empty string together with the error `ErrFieldNotFound{}`, so it
never succeeds; `GetActionReports` is nil and `GetWorkloadID` is the empty
string. -/
theorem custom_event_has_no_field (AR : Type) (ce : CustomEvent ET) (field : eval.Field)
    (tr : Trace) :
    ((ce.GetFieldValue field).run tr).1
        = (eval.GoValue.string "", some (GoError.ErrFieldNotFound ""))
      ∧ ((ce.GetFieldValue field).run tr).1.2.isSome = true
      ∧ ((ce.GetFieldValue field).run tr).2 = tr
      ∧ ((ce.GetActionReports : Eff (List AR)).run tr).1 = []
      ∧ (ce.GetWorkloadID.run tr).1 = "" :=
  ⟨rfl, rfl, rfl, rfl, rfl⟩

end events

/-! ## Theorems: module restart handler -/

namespace api

/-- The target selected by the loop: a registered factory of the requested
name when there is one, and the initial target otherwise. -/
theorem selectTarget_spec (moduleName : ModuleName) (All : List Factory) (target : Factory) :
    ((∃ f ∈ All, f.Name = moduleName) →
        selectTarget moduleName All target ∈ All
        ∧ (selectTarget moduleName All target).Name = moduleName)
      ∧ ((∀ f ∈ All, f.Name ≠ moduleName) → selectTarget moduleName All target = target) := by
  induction All generalizing target with
  | nil =>
    constructor
    · rintro ⟨f, hf, _⟩
      cases hf
    · intro _
      rfl
  | cons g gs ih =>
    by_cases hg : g.Name = moduleName
    · have hstep : selectTarget moduleName (g :: gs) target = selectTarget moduleName gs g := by
        simp [selectTarget, hg]
      rw [hstep]
      constructor
      · intro _
        by_cases hex : ∃ f ∈ gs, f.Name = moduleName
        · exact ⟨List.mem_cons_of_mem _ ((ih g).1 hex).1, ((ih g).1 hex).2⟩
        · have hnone : ∀ f ∈ gs, f.Name ≠ moduleName := by
            intro f hf hname
            exact hex ⟨f, hf, hname⟩
          rw [(ih g).2 hnone]
          exact ⟨List.mem_cons_self _ _, hg⟩
      · intro hnone
        exact absurd hg (hnone g (List.mem_cons_self _ _))
    · have hstep : selectTarget moduleName (g :: gs) target
          = selectTarget moduleName gs target := by
        simp [selectTarget, hg]
      rw [hstep]
      constructor
      · rintro ⟨f, hf, hname⟩
        rcases List.mem_cons.mp hf with rfl | hf
        · exact absurd hname hg
        · exact ⟨List.mem_cons_of_mem _ ((ih target).1 ⟨f, hf, hname⟩).1,
            ((ih target).1 ⟨f, hf, hname⟩).2⟩
      · intro hnone
        exact (ih target).2 (fun f hf => hnone f (List.mem_cons_of_mem _ hf))

/-- A name that is not empty, is not the event monitor module and is the name
of no registered factory is answered with status 400 and the message
`invalid module`, without any call of `RestartModule`. -/
theorem restartModuleHandler_of_unknown_name {D : Type} (EventMonitorModule : ModuleName)
    (All : List Factory) (RestartModule : Factory → D → Option GoError)
    (leaf : GoError → String) (moduleName : ModuleName) (deps : D)
    (hem : moduleName ≠ EventMonitorModule) (hne : moduleName ≠ "")
    (hnone : ∀ f ∈ All, f.Name ≠ moduleName) :
    restartModuleHandler EventMonitorModule All RestartModule leaf moduleName deps
      = (Reply.Error "invalid module" StatusBadRequest, []) := by
  have ht := (selectTarget_spec moduleName All Factory.zero).2 hnone
  have hz : Factory.zero.Name ≠ moduleName := fun h => hne h.symm
  simp [restartModuleHandler, hem, ht, hz]

/-- C27, evaluated on the code: the request carries the empty module name,
which is not the event monitor module and is the name of no registered
factory; the handler does not answer with status 400: it calls
`RestartModule` with the zero factory, which is not a member of the registry,
and answers with status 500 and the message of the error of that call. -/
theorem restartModuleHandler_restarts_zero_factory_on_empty_name :
    ("" : ModuleName) ≠ "event_monitor"
      ∧ (∀ f ∈ demoAll, f.Name ≠ "")
      ∧ restartModuleHandler "event_monitor" demoAll demoRestartModule demoLeaf "" ()
        = (Reply.Error "module  is not running" StatusInternalServerError, [Factory.zero])
      ∧ Factory.zero ∉ demoAll
      ∧ (restartModuleHandler "event_monitor" demoAll demoRestartModule demoLeaf ""
          ()).1.status ≠ StatusBadRequest := by
  refine ⟨by decide, by decide, rfl, by decide, by decide⟩

/-- C27, with the precondition that the claim leaves out: the requested module
name is not empty (a route variable is never empty when the handler is
reached). Then (1) a name other than the event monitor module that is the
name of no registered factory is answered with status 400 and the message
`invalid module`, and `RestartModule` is not called; (2) whatever the name,
every factory with which `RestartModule` is called is a member of the
registry. -/
theorem restartModuleHandler_rejects_unknown_nonempty_name {D : Type}
    (EventMonitorModule : ModuleName) (All : List Factory)
    (RestartModule : Factory → D → Option GoError) (leaf : GoError → String)
    (moduleName : ModuleName) (deps : D) (hne : moduleName ≠ "") :
    (moduleName ≠ EventMonitorModule → (∀ f ∈ All, f.Name ≠ moduleName) →
        restartModuleHandler EventMonitorModule All RestartModule leaf moduleName deps
          = (Reply.Error "invalid module" 400, []))
      ∧ (∀ f ∈ (restartModuleHandler EventMonitorModule All RestartModule leaf moduleName
            deps).2, f ∈ All) := by
  have hz : Factory.zero.Name ≠ moduleName := fun h => hne h.symm
  constructor
  · intro hem hnone
    exact restartModuleHandler_of_unknown_name EventMonitorModule All RestartModule leaf
      moduleName deps hem hne hnone
  · intro f hf
    by_cases hem : moduleName = EventMonitorModule
    · simp [restartModuleHandler, hem] at hf
    · by_cases hex : ∃ g ∈ All, g.Name = moduleName
      · obtain ⟨hmem, hname⟩ := (selectTarget_spec moduleName All Factory.zero).1 hex
        cases hr : RestartModule (selectTarget moduleName All Factory.zero) deps <;>
          simp [restartModuleHandler, hem, hname, hr] at hf <;>
          exact hf ▸ hmem
      · have hnone : ∀ g ∈ All, g.Name ≠ moduleName := fun g hg hname => hex ⟨g, hg, hname⟩
        rw [restartModuleHandler_of_unknown_name EventMonitorModule All RestartModule leaf
          moduleName deps hem hne hnone] at hf
        simp at hf

/-- The handler on the registry of two modules: the name `unknown_module` is
not empty, is not the event monitor module and is the name of no registered
factory; the answer is status 400 with the message `invalid module`, and
`RestartModule` is not called. -/
theorem restartModuleHandler_rejects_unknown_nonempty_name_witness :
    ("unknown_module" : ModuleName) ≠ ""
      ∧ restartModuleHandler "event_monitor" demoAll demoRestartModule demoLeaf
          "unknown_module" ()
        = (Reply.Error "invalid module" 400, [])
      ∧ (∀ f ∈ (restartModuleHandler "event_monitor" demoAll demoRestartModule demoLeaf
            "network_tracer" ()).2, f ∈ demoAll) :=
  ⟨by decide,
    (restartModuleHandler_rejects_unknown_nonempty_name "event_monitor" demoAll
      demoRestartModule demoLeaf "unknown_module" () (by decide)).1 (by decide) (by decide),
    (restartModuleHandler_rejects_unknown_nonempty_name "event_monitor" demoAll
      demoRestartModule demoLeaf "network_tracer" () (by decide)).2⟩

/-- C28: the status of the answer is determined by the module name and the
outcome of the restart. (1) For the event monitor module it is 200 and
`RestartModule` is not called, whatever the registry holds. (2) For another
name that is the name of a registered factory, `RestartModule` is called
once, with a registered factory of that name, and the status is 200 when it
returns no error and 500, with the message of the error handed to
`http.Error`, when it returns an error. (3) `RestartModule` is called at most
once per request. -/
theorem restartModuleHandler_status {D : Type} (EventMonitorModule : ModuleName)
    (All : List Factory) (RestartModule : Factory → D → Option GoError)
    (leaf : GoError → String) (moduleName : ModuleName) (deps : D) :
    (moduleName = EventMonitorModule →
        restartModuleHandler EventMonitorModule All RestartModule leaf moduleName deps
          = (Reply.WriteHeader 200, []))
      ∧ (moduleName ≠ EventMonitorModule → (∃ f ∈ All, f.Name = moduleName) →
          ∃ target ∈ All, target.Name = moduleName
            ∧ (restartModuleHandler EventMonitorModule All RestartModule leaf moduleName
                deps).2 = [target]
            ∧ (RestartModule target deps = none →
                (restartModuleHandler EventMonitorModule All RestartModule leaf moduleName
                  deps).1 = Reply.WriteHeader 200)
            ∧ (∀ err, RestartModule target deps = some err →
                (restartModuleHandler EventMonitorModule All RestartModule leaf moduleName
                  deps).1 = Reply.Error (err.Error leaf) 500))
      ∧ (restartModuleHandler EventMonitorModule All RestartModule leaf moduleName
          deps).2.length ≤ 1 := by
  refine ⟨?_, ?_, ?_⟩
  · intro h
    simp [restartModuleHandler, h, StatusOK]
  · intro hem hex
    obtain ⟨hmem, hname⟩ := (selectTarget_spec moduleName All Factory.zero).1 hex
    refine ⟨selectTarget moduleName All Factory.zero, hmem, hname, ?_, ?_, ?_⟩
    · cases hr : RestartModule (selectTarget moduleName All Factory.zero) deps <;>
        simp [restartModuleHandler, hem, hname, hr]
    · intro hr
      simp [restartModuleHandler, hem, hname, hr, StatusOK]
    · intro err hr
      simp [restartModuleHandler, hem, hname, hr, StatusInternalServerError]
  · unfold restartModuleHandler
    by_cases hem : moduleName = EventMonitorModule
    · simp [hem]
    · by_cases hname : (selectTarget moduleName All Factory.zero).Name = moduleName
      · cases hr : RestartModule (selectTarget moduleName All Factory.zero) deps <;>
          simp [hem, hname, hr]
      · simp [hem, hname]

end api

/-! ## Theorems: bootstrap of the installer -/

namespace bootstrap

variable {Env : Type}

/-- The run of `downloadInstaller` when the download fails. -/
theorem downloadInstaller_of_download_error (sys : Sys Env) (env : Env) (url tmpDir : String)
    (a : Option DownloadedPackage) (e : GoError) (h : sys.Download env url = (a, some e)) :
    downloadInstaller sys env url tmpDir
      = (Run.done (none, some (GoError.wrap "failed to download installer package: " e)),
          [Effect.Download url]) := by
  simp [downloadInstaller, h]

/-- The run of `downloadInstaller` when the package has another name. -/
theorem downloadInstaller_of_other_name (sys : Sys Env) (env : Env) (url tmpDir : String)
    (pkg : DownloadedPackage) (h : sys.Download env url = (some pkg, none))
    (hname : pkg.Name ≠ sys.InstallerPackage) :
    downloadInstaller sys env url tmpDir
      = (Run.done (none, some (GoError.other
            ("unexpected package name: " ++ pkg.Name ++ ", expected "
              ++ sys.InstallerPackage))),
          [Effect.Download url]) := by
  simp [downloadInstaller, h, hname]

/-- The run of `downloadInstaller` when the layout directory cannot be made. -/
theorem downloadInstaller_of_mkdir_error (sys : Sys Env) (env : Env) (url tmpDir : String)
    (pkg : DownloadedPackage) (dir : String) (e : GoError)
    (h : sys.Download env url = (some pkg, none)) (hname : pkg.Name = sys.InstallerPackage)
    (hdir : sys.MkdirTemp sys.RootTmpDir "" = (dir, some e)) :
    downloadInstaller sys env url tmpDir
      = (Run.done (none, some (GoError.wrap "failed to create temporary directory: " e)),
          [Effect.Download url, Effect.MkdirTemp sys.RootTmpDir ""]) := by
  simp [downloadInstaller, h, hname, hdir]

/-- The run of `downloadInstaller` when the layout cannot be written. -/
theorem downloadInstaller_of_layout_error (sys : Sys Env) (env : Env) (url tmpDir : String)
    (pkg : DownloadedPackage) (dir : String) (e : GoError)
    (h : sys.Download env url = (some pkg, none)) (hname : pkg.Name = sys.InstallerPackage)
    (hdir : sys.MkdirTemp sys.RootTmpDir "" = (dir, none))
    (hw : pkg.WriteOCILayout dir = some e) :
    downloadInstaller sys env url tmpDir
      = (Run.done (none, some (GoError.wrap "failed to write OCI layout: " e)),
          [Effect.Download url, Effect.MkdirTemp sys.RootTmpDir "",
            Effect.WriteOCILayout dir, Effect.RemoveAll dir]) := by
  simp [downloadInstaller, h, hname, hdir, hw]

/-- The run of `downloadInstaller` when the layers cannot be extracted. -/
theorem downloadInstaller_of_extract_error (sys : Sys Env) (env : Env) (url tmpDir : String)
    (pkg : DownloadedPackage) (dir : String) (e : GoError)
    (h : sys.Download env url = (some pkg, none)) (hname : pkg.Name = sys.InstallerPackage)
    (hdir : sys.MkdirTemp sys.RootTmpDir "" = (dir, none))
    (hw : pkg.WriteOCILayout dir = none)
    (hx : pkg.ExtractLayers sys.DatadogPackageLayerMediaType tmpDir = some e) :
    downloadInstaller sys env url tmpDir
      = (Run.done (none, some (GoError.wrap "failed to extract layers: " e)),
          [Effect.Download url, Effect.MkdirTemp sys.RootTmpDir "",
            Effect.WriteOCILayout dir,
            Effect.ExtractLayers sys.DatadogPackageLayerMediaType tmpDir,
            Effect.RemoveAll dir]) := by
  simp [downloadInstaller, h, hname, hdir, hw, hx]

/-- The run of `downloadInstaller` when every step succeeds. -/
theorem downloadInstaller_of_success (sys : Sys Env) (env : Env) (url tmpDir : String)
    (pkg : DownloadedPackage) (dir : String)
    (h : sys.Download env url = (some pkg, none)) (hname : pkg.Name = sys.InstallerPackage)
    (hdir : sys.MkdirTemp sys.RootTmpDir "" = (dir, none))
    (hw : pkg.WriteOCILayout dir = none)
    (hx : pkg.ExtractLayers sys.DatadogPackageLayerMediaType tmpDir = none) :
    downloadInstaller sys env url tmpDir
      = (Run.done (some { env := env,
                          installerBinPath := sys.Join tmpDir sys.installerBinPath }, none),
          [Effect.Download url, Effect.MkdirTemp sys.RootTmpDir "",
            Effect.WriteOCILayout dir,
            Effect.ExtractLayers sys.DatadogPackageLayerMediaType tmpDir,
            Effect.RemoveAll dir]) := by
  simp [downloadInstaller, h, hname, hdir, hw, hx]

/-- C22: `downloadInstaller` performs its steps in order and stops at the
first failure. (1) It returns an executor only if the download succeeded, the
name of the package is `InstallerPackage`, the layout was written and the
layers were extracted; the executor is the one for the path `tmpDir` joined
with `installerBinPath`, and the steps ran in the documented order. (2) And
if all of these steps succeed it does return that executor, without error,
after exactly the five steps download, temporary directory, layout, layers,
removal of the layout directory. (3) A package of another name is rejected
with an error whose message starts with `unexpected package name`, with no
executor, and nothing but the download was performed. (4) An error is never
returned together with an executor. (5) to (8) A failed download, a failed
creation of the temporary directory, a failed write of the layout and a failed
extraction each return the wrapped error of that step and no executor, and the
failed step is the last step performed, apart from the deferred removal of the
layout directory once it exists. -/
theorem downloadInstaller_stops_at_first_failure (sys : Sys Env) (env : Env)
    (url tmpDir : String) :
    (∀ ex, (downloadInstaller sys env url tmpDir).1 = Run.done (some ex, none) →
        ∃ pkg dir, sys.Download env url = (some pkg, none)
          ∧ pkg.Name = sys.InstallerPackage
          ∧ sys.MkdirTemp sys.RootTmpDir "" = (dir, none)
          ∧ pkg.WriteOCILayout dir = none
          ∧ pkg.ExtractLayers sys.DatadogPackageLayerMediaType tmpDir = none
          ∧ ex = { env := env, installerBinPath := sys.Join tmpDir sys.installerBinPath }
          ∧ (downloadInstaller sys env url tmpDir).2
            = [Effect.Download url, Effect.MkdirTemp sys.RootTmpDir "",
                Effect.WriteOCILayout dir,
                Effect.ExtractLayers sys.DatadogPackageLayerMediaType tmpDir,
                Effect.RemoveAll dir])
      ∧ (∀ pkg dir, sys.Download env url = (some pkg, none) →
          pkg.Name = sys.InstallerPackage →
          sys.MkdirTemp sys.RootTmpDir "" = (dir, none) →
          pkg.WriteOCILayout dir = none →
          pkg.ExtractLayers sys.DatadogPackageLayerMediaType tmpDir = none →
          downloadInstaller sys env url tmpDir
            = (Run.done (some { env := env,
                                installerBinPath := sys.Join tmpDir sys.installerBinPath },
                  none),
                [Effect.Download url, Effect.MkdirTemp sys.RootTmpDir "",
                  Effect.WriteOCILayout dir,
                  Effect.ExtractLayers sys.DatadogPackageLayerMediaType tmpDir,
                  Effect.RemoveAll dir]))
      ∧ (∀ pkg, sys.Download env url = (some pkg, none) → pkg.Name ≠ sys.InstallerPackage →
          ∃ msg, downloadInstaller sys env url tmpDir
              = (Run.done (none, some (GoError.other msg)), [Effect.Download url])
            ∧ msg = "unexpected package name: " ++ pkg.Name ++ ", expected "
                ++ sys.InstallerPackage
            ∧ hasPrefix msg "unexpected package name" = true)
      ∧ (∀ x e, (downloadInstaller sys env url tmpDir).1 = Run.done (x, some e) → x = none)
      ∧ (∀ a e, sys.Download env url = (a, some e) →
          downloadInstaller sys env url tmpDir
            = (Run.done (none, some (GoError.wrap "failed to download installer package: " e)),
                [Effect.Download url]))
      ∧ (∀ pkg dir e, sys.Download env url = (some pkg, none) →
          pkg.Name = sys.InstallerPackage →
          sys.MkdirTemp sys.RootTmpDir "" = (dir, some e) →
          downloadInstaller sys env url tmpDir
            = (Run.done (none, some (GoError.wrap "failed to create temporary directory: " e)),
                [Effect.Download url, Effect.MkdirTemp sys.RootTmpDir ""]))
      ∧ (∀ pkg dir e, sys.Download env url = (some pkg, none) →
          pkg.Name = sys.InstallerPackage →
          sys.MkdirTemp sys.RootTmpDir "" = (dir, none) →
          pkg.WriteOCILayout dir = some e →
          downloadInstaller sys env url tmpDir
              = (Run.done (none, some (GoError.wrap "failed to write OCI layout: " e)),
                  [Effect.Download url, Effect.MkdirTemp sys.RootTmpDir "",
                    Effect.WriteOCILayout dir, Effect.RemoveAll dir])
            ∧ ∀ mediaType d, Effect.ExtractLayers mediaType d
                ∉ (downloadInstaller sys env url tmpDir).2)
      ∧ (∀ pkg dir e, sys.Download env url = (some pkg, none) →
          pkg.Name = sys.InstallerPackage →
          sys.MkdirTemp sys.RootTmpDir "" = (dir, none) →
          pkg.WriteOCILayout dir = none →
          pkg.ExtractLayers sys.DatadogPackageLayerMediaType tmpDir = some e →
          downloadInstaller sys env url tmpDir
            = (Run.done (none, some (GoError.wrap "failed to extract layers: " e)),
                [Effect.Download url, Effect.MkdirTemp sys.RootTmpDir "",
                  Effect.WriteOCILayout dir,
                  Effect.ExtractLayers sys.DatadogPackageLayerMediaType tmpDir,
                  Effect.RemoveAll dir])) := by
  refine ⟨?_, ?_, ?_, ?_, ?_, ?_, ?_, ?_⟩
  rotate_left 1
  · intro pkg dir hd hname hdir hw hx
    exact downloadInstaller_of_success sys env url tmpDir pkg dir hd hname hdir hw hx
  rotate_left 2
  · intro a e hd
    exact downloadInstaller_of_download_error sys env url tmpDir a e hd
  · intro pkg dir e hd hname hdir
    exact downloadInstaller_of_mkdir_error sys env url tmpDir pkg dir e hd hname hdir
  · intro pkg dir e hd hname hdir hw
    rw [downloadInstaller_of_layout_error sys env url tmpDir pkg dir e hd hname hdir hw]
    refine ⟨rfl, ?_⟩
    intro mediaType d hmem
    simp at hmem
  · intro pkg dir e hd hname hdir hw hx
    exact downloadInstaller_of_extract_error sys env url tmpDir pkg dir e hd hname hdir hw hx
  · intro ex h
    rcases hd : sys.Download env url with ⟨_ | pkg, _ | e⟩
    · simp [downloadInstaller, hd] at h
    · rw [downloadInstaller_of_download_error sys env url tmpDir _ e hd] at h
      simp at h
    · by_cases hname : pkg.Name = sys.InstallerPackage
      · rcases hdir : sys.MkdirTemp sys.RootTmpDir "" with ⟨dir, _ | e⟩
        · cases hw : pkg.WriteOCILayout dir with
          | some e =>
            rw [downloadInstaller_of_layout_error sys env url tmpDir pkg dir e hd hname
              hdir hw] at h
            simp at h
          | none =>
            cases hx : pkg.ExtractLayers sys.DatadogPackageLayerMediaType tmpDir with
            | some e =>
              rw [downloadInstaller_of_extract_error sys env url tmpDir pkg dir e hd hname
                hdir hw hx] at h
              simp at h
            | none =>
              have hs := downloadInstaller_of_success sys env url tmpDir pkg dir hd hname
                hdir hw hx
              rw [hs] at h
              simp only [Run.done.injEq, Prod.mk.injEq, Option.some.injEq, and_true] at h
              exact ⟨pkg, dir, rfl, hname, rfl, hw, hx, h.symm, by rw [hs]⟩
        · rw [downloadInstaller_of_mkdir_error sys env url tmpDir pkg dir e hd hname hdir]
            at h
          simp at h
      · rw [downloadInstaller_of_other_name sys env url tmpDir pkg hd hname] at h
        simp at h
    · rw [downloadInstaller_of_download_error sys env url tmpDir _ e hd] at h
      simp at h
  · intro pkg hd hname
    refine ⟨_, downloadInstaller_of_other_name sys env url tmpDir pkg hd hname, rfl, ?_⟩
    have hassoc : "unexpected package name: " ++ pkg.Name ++ ", expected "
        ++ sys.InstallerPackage
        = "unexpected package name" ++ (": " ++ pkg.Name ++ ", expected "
          ++ sys.InstallerPackage) := by
      simp only [String.append_assoc]
      rfl
    rw [hassoc]
    exact hasPrefix_append _ _
  · intro x e h
    rcases hd : sys.Download env url with ⟨_ | pkg, _ | e2⟩
    · simp [downloadInstaller, hd] at h
    · rw [downloadInstaller_of_download_error sys env url tmpDir _ e2 hd] at h
      simp only [Run.done.injEq, Prod.mk.injEq] at h
      exact h.1.symm
    · by_cases hname : pkg.Name = sys.InstallerPackage
      · rcases hdir : sys.MkdirTemp sys.RootTmpDir "" with ⟨dir, _ | e2⟩
        · cases hw : pkg.WriteOCILayout dir with
          | some e2 =>
            rw [downloadInstaller_of_layout_error sys env url tmpDir pkg dir e2 hd hname
              hdir hw] at h
            simp only [Run.done.injEq, Prod.mk.injEq] at h
            exact h.1.symm
          | none =>
            cases hx : pkg.ExtractLayers sys.DatadogPackageLayerMediaType tmpDir with
            | some e2 =>
              rw [downloadInstaller_of_extract_error sys env url tmpDir pkg dir e2 hd hname
                hdir hw hx] at h
              simp only [Run.done.injEq, Prod.mk.injEq] at h
              exact h.1.symm
            | none =>
              rw [downloadInstaller_of_success sys env url tmpDir pkg dir hd hname
                hdir hw hx] at h
              simp at h
        · rw [downloadInstaller_of_mkdir_error sys env url tmpDir pkg dir e2 hd hname hdir]
            at h
          simp only [Run.done.injEq, Prod.mk.injEq] at h
          exact h.1.symm
      · rw [downloadInstaller_of_other_name sys env url tmpDir pkg hd hname] at h
        simp only [Run.done.injEq, Prod.mk.injEq] at h
        exact h.1.symm
    · rw [downloadInstaller_of_download_error sys env url tmpDir _ e2 hd] at h
      simp only [Run.done.injEq, Prod.mk.injEq] at h
      exact h.1.symm

end bootstrap

namespace bootstrap

variable {Env : Type}

/-- C29: `getInstallerOCI` returns a nil error and the URL
`oci.PackageURL(env, InstallerPackage, v)`, where `v` is the override of the
installer package when that entry is present and not empty, and `latest`
otherwise; an override that is present but empty counts as absent. -/
theorem getInstallerOCI_version (sys : Sys Env) (env : Env) :
    (getInstallerOCI sys env).2 = none
      ∧ (∀ v, (sys.DefaultPackagesVersionOverride env).get? sys.InstallerPackage = some v →
          v ≠ "" →
          (getInstallerOCI sys env).1 = sys.PackageURL env sys.InstallerPackage v)
      ∧ ((sys.DefaultPackagesVersionOverride env).get? sys.InstallerPackage = none →
          (getInstallerOCI sys env).1 = sys.PackageURL env sys.InstallerPackage "latest")
      ∧ ((sys.DefaultPackagesVersionOverride env).get? sys.InstallerPackage = some "" →
          (getInstallerOCI sys env).1 = sys.PackageURL env sys.InstallerPackage "latest") := by
  refine ⟨rfl, ?_, ?_, ?_⟩
  · intro v hv hne
    simp [getInstallerOCI, index, hv, hne]
  · intro hv
    simp [getInstallerOCI, index, hv]
  · intro hv
    simp [getInstallerOCI, index, hv]

end bootstrap

/-! ## Theorems: trace and span identifiers -/

namespace logsagentexporter

theorem foldl_bigEndian (l : List Byte) (a : Nat) :
    l.foldl (fun acc x => acc * 256 + x.val) a = a * 256 ^ l.length + bigEndianValue l := by
  induction l generalizing a with
  | nil => simp [bigEndianValue]
  | cons x xs ih =>
    simp only [List.foldl_cons, List.length_cons, bigEndianValue]
    rw [ih, ih (0 * 256 + x.val)]
    ring

theorem bigEndianValue_cons (x : Byte) (l : List Byte) :
    bigEndianValue (x :: l) = x.val * 256 ^ l.length + bigEndianValue l := by
  simp only [bigEndianValue, List.foldl_cons]
  rw [foldl_bigEndian]
  simp [bigEndianValue]

theorem bigEndianValue_append (l1 l2 : List Byte) :
    bigEndianValue (l1 ++ l2) = bigEndianValue l1 * 256 ^ l2.length + bigEndianValue l2 := by
  simp only [bigEndianValue, List.foldl_append]
  rw [foldl_bigEndian]
  simp [bigEndianValue]

theorem bigEndianValue_lt (l : List Byte) : bigEndianValue l < 256 ^ l.length := by
  induction l with
  | nil => simp [bigEndianValue]
  | cons x xs ih =>
    rw [bigEndianValue_cons, List.length_cons, pow_succ]
    have hx := x.isLt
    have hp : 0 < 256 ^ xs.length := pow_pos (by norm_num) _
    nlinarith

theorem bigEndianValue_injective (l1 l2 : List Byte) (hlen : l1.length = l2.length)
    (h : bigEndianValue l1 = bigEndianValue l2) : l1 = l2 := by
  induction l1 generalizing l2 with
  | nil =>
    cases l2 with
    | nil => rfl
    | cons y ys => simp at hlen
  | cons x xs ih =>
    cases l2 with
    | nil => simp at hlen
    | cons y ys =>
      simp only [List.length_cons, Nat.add_right_cancel_iff] at hlen
      rw [bigEndianValue_cons, bigEndianValue_cons, hlen] at h
      have h1 := bigEndianValue_lt xs
      have h2 := bigEndianValue_lt ys
      rw [hlen] at h1
      have hmod : bigEndianValue xs = bigEndianValue ys := by
        have := congrArg (· % 256 ^ ys.length) h
        simpa [Nat.add_mod, Nat.mod_eq_of_lt h1, Nat.mod_eq_of_lt h2] using this
      have hx : x.val = y.val := by
        rw [hmod] at h
        have h3 : x.val * 256 ^ ys.length = y.val * 256 ^ ys.length := by omega
        exact Nat.eq_of_mul_eq_mul_right (pow_pos (by norm_num) _) h3
      rw [Fin.ext hx, ih ys hlen hmod]

theorem eq_of_length_eight (l : List Byte) (h : l.length = 8) :
    ∃ b0 b1 b2 b3 b4 b5 b6 b7, l = [b0, b1, b2, b3, b4, b5, b6, b7] := by
  rcases l with _ | ⟨b0, _ | ⟨b1, _ | ⟨b2, _ | ⟨b3, _ | ⟨b4, _ | ⟨b5, _ | ⟨b6, _ | ⟨b7,
    _ | ⟨b8, l⟩⟩⟩⟩⟩⟩⟩⟩⟩
  all_goals first
    | exact ⟨_, _, _, _, _, _, _, _, rfl⟩
    | (exfalso; simp at h)

theorem Uint64_of_eight (l : List Byte) (h : l.length = 8) :
    Uint64 l = Run.done (bigEndianValue l) := by
  have hlt := bigEndianValue_lt l
  rw [h] at hlt
  have hpow : (256 : Nat) ^ 8 = 2 ^ 64 := by norm_num
  rw [hpow] at hlt
  obtain ⟨b0, b1, b2, b3, b4, b5, b6, b7, rfl⟩ := eq_of_length_eight l h
  have hv : bigEndianValue [b0, b1, b2, b3, b4, b5, b6, b7]
      = b7.val + b6.val * 2 ^ 8 + b5.val * 2 ^ 16 + b4.val * 2 ^ 24
        + b3.val * 2 ^ 32 + b2.val * 2 ^ 40 + b1.val * 2 ^ 48 + b0.val * 2 ^ 56 := by
    simp only [bigEndianValue, List.foldl_cons, List.foldl_nil]
    ring
  show Run.done ((b7.val + b6.val * 2 ^ 8 + b5.val * 2 ^ 16 + b4.val * 2 ^ 24
        + b3.val * 2 ^ 32 + b2.val * 2 ^ 40 + b1.val * 2 ^ 48 + b0.val * 2 ^ 56) % 2 ^ 64)
      = Run.done (bigEndianValue [b0, b1, b2, b3, b4, b5, b6, b7])
  rw [← hv, Nat.mod_eq_of_lt hlt]

/-- C30: `traceIDToUint64` takes the low half of the 128-bit identifier: it
returns the big-endian integer of the bytes `b[8..15]`, which is the 128-bit
big-endian value of `b` modulo `2^64`, and which is `spanIDToUint64` of the
last eight bytes of `b`; `spanIDToUint64` returns the big-endian value of its
eight bytes and is injective. -/
theorem traceIDToUint64_is_low_half (b : FixedBytes 16) :
    traceIDToUint64 b = Run.done (bigEndianValue (b.val.drop 8))
      ∧ traceIDToUint64 b = Run.done (bigEndianValue b.val % 2 ^ 64)
      ∧ traceIDToUint64 b = spanIDToUint64 (lowHalf b)
      ∧ (∀ s : FixedBytes 8, spanIDToUint64 s = Run.done (bigEndianValue s.val))
      ∧ (∀ s : FixedBytes 8, bigEndianValue s.val < 2 ^ 64)
      ∧ (∀ s t : FixedBytes 8, spanIDToUint64 s = spanIDToUint64 t → s = t) := by
  have hlen : (b.val.drop 8).length = 8 := by rw [List.length_drop, b.property]
  have hpow : (256 : Nat) ^ 8 = 2 ^ 64 := by norm_num
  have hspan : ∀ s : FixedBytes 8, spanIDToUint64 s = Run.done (bigEndianValue s.val) :=
    fun s => Uint64_of_eight s.val s.property
  have htrace : traceIDToUint64 b = Run.done (bigEndianValue (b.val.drop 8)) := by
    unfold traceIDToUint64
    rw [b.property]
    exact Uint64_of_eight _ hlen
  have hlow : bigEndianValue (b.val.drop 8) < 2 ^ 64 := by
    have h := bigEndianValue_lt (b.val.drop 8)
    rw [hlen, hpow] at h
    exact h
  refine ⟨htrace, ?_, ?_, hspan, ?_, ?_⟩
  · rw [htrace]
    have hsplit : bigEndianValue b.val
        = bigEndianValue (b.val.take 8) * 256 ^ 8 + bigEndianValue (b.val.drop 8) := by
      conv_lhs => rw [← List.take_append_drop 8 b.val]
      rw [bigEndianValue_append, hlen]
    rw [hsplit, hpow, Nat.add_comm, Nat.add_mul_mod_self_right, Nat.mod_eq_of_lt hlow]
  · rw [htrace, hspan]
    rfl
  · intro s
    have h := bigEndianValue_lt s.val
    rw [s.property, hpow] at h
    exact h
  · intro s t h
    rw [hspan, hspan] at h
    simp only [Run.done.injEq] at h
    exact Subtype.ext (bigEndianValue_injective s.val t.val (s.property.trans t.property.symm)
      h)

end logsagentexporter

/-! ## Runs of the definitions on the instances -/

/-- The low half of the sample trace identifier is `1 * 256 + 2`. -/
theorem logsagentexporter.traceIDToUint64_sample :
    logsagentexporter.traceIDToUint64 logsagentexporter.sampleTraceID = Run.done 258
      ∧ logsagentexporter.spanIDToUint64
          (logsagentexporter.lowHalf logsagentexporter.sampleTraceID) = Run.done 258 :=
  ⟨rfl, rfl⟩

/-- The three kinds of runs of `downloadInstaller` on the instance: the
installer package, a package of another name, and a failed download. -/
theorem bootstrap.downloadInstaller_demo_runs :
    bootstrap.downloadInstaller bootstrap.demoSys GoMap.empty
        "oci://registry/installer-package:latest" "/tmp/x"
      = (Run.done (some { env := GoMap.empty,
                          installerBinPath := "/tmp/x/bin/installer/installer" }, none),
          [bootstrap.Effect.Download "oci://registry/installer-package:latest",
            bootstrap.Effect.MkdirTemp "/opt/datadog-packages/tmp" "",
            bootstrap.Effect.WriteOCILayout "/opt/datadog-packages/tmp/1",
            bootstrap.Effect.ExtractLayers
              "application/vnd.datadog.package.layer.v1.tar+zstd" "/tmp/x",
            bootstrap.Effect.RemoveAll "/opt/datadog-packages/tmp/1"])
    ∧ bootstrap.downloadInstaller bootstrap.demoSys GoMap.empty
        "oci://registry/agent-package:latest" "/tmp/x"
      = (Run.done (none, some (GoError.other
            "unexpected package name: datadog-agent, expected datadog-installer")),
          [bootstrap.Effect.Download "oci://registry/agent-package:latest"])
    ∧ bootstrap.downloadInstaller bootstrap.demoSys GoMap.empty "oci://nowhere" "/tmp/x"
      = (Run.done (none, some (GoError.wrap "failed to download installer package: "
            (GoError.other "not found"))),
          [bootstrap.Effect.Download "oci://nowhere"])
    ∧ bootstrap.getInstallerOCI bootstrap.demoSys GoMap.empty
      = ("oci://registry/datadog-installer:latest", none)
    ∧ bootstrap.getInstallerOCI bootstrap.demoSys
        ((GoMap.empty : GoMap String String).set "datadog-installer" "7.60.0")
      = ("oci://registry/datadog-installer:7.60.0", none)
    ∧ bootstrap.getInstallerOCI bootstrap.demoSys
        ((GoMap.empty : GoMap String String).set "datadog-installer" "")
      = ("oci://registry/datadog-installer:latest", none) := by
  refine ⟨?_, ?_, ?_, ?_, ?_, ?_⟩ <;> rfl

/-- The handler on the instance: a registered module is restarted and answered
with status 200; an unknown module is answered with status 400; the event
monitor module is answered with status 200 without restart. -/
theorem api.restartModuleHandler_demo_runs :
    api.restartModuleHandler "event_monitor" api.demoAll api.demoRestartModule api.demoLeaf
        "oom_kill_probe" ()
      = (api.Reply.WriteHeader 200, [{ Name := "oom_kill_probe", Fn := some 2 }])
    ∧ api.restartModuleHandler "event_monitor" api.demoAll api.demoRestartModule api.demoLeaf
        "nope" ()
      = (api.Reply.Error "invalid module" 400, [])
    ∧ api.restartModuleHandler "event_monitor" api.demoAll api.demoRestartModule api.demoLeaf
        "event_monitor" ()
      = (api.Reply.WriteHeader 200, []) := by
  refine ⟨?_, ?_, ?_⟩ <;> decide
